import Mathlib

/-!
# BreadMotion website generator: a shallow embedding

The two generator scripts `tools/build-blog.js` and `tools/build-portfolio.js`
are embedded as Lean functions.  JavaScript strings are lists of characters,
the file system and the network are explicit state, and the external
collaborators (front-matter parser, Markdown engine, slugger, URL parser,
`fetch`, local-time getters) are fields of an environment record.

Definitions come first; the theorems about them follow.
-/

namespace BreadMotion

/-- JavaScript strings, as lists of characters. -/
abbrev Str := List Char

instance : Coe String Str := ⟨String.toList⟩

/-- Byte buffers. -/
abbrev Bytes := List Nat

namespace Js

/-- Template interpolation of a non-negative integer: its decimal digits. -/
def numStr (n : Nat) : Str := (Nat.repr n).toList

/-- Truthiness of a string: `Boolean(s)`. -/
def truthy (s : Str) : Bool := !s.isEmpty

/-- The expression `s || d` on strings. -/
def orElse (s d : Str) : Str := if truthy s then s else d

/-- Method `String.prototype.startsWith`. -/
def startsWith (s p : Str) : Bool := p.isPrefixOf s

/-- Method `String.prototype.endsWith`. -/
def endsWith (s p : Str) : Bool := p.isSuffixOf s

/-- Method `String.prototype.substring(n)`. -/
def substring (s : Str) (n : Nat) : Str := s.drop n

/-- Method `String.prototype.includes`. -/
def includes (s p : Str) : Bool := s.tails.any fun t => p.isPrefixOf t

/-- Insertion into a `Set` of strings, kept in insertion order. -/
def setAdd (s : List Str) (x : Str) : List Str := if x ∈ s then s else s ++ [x]

end Js

/-- The character class `[&<>"]` of the escaping regular expression. -/
def escapeClass (c : Char) : Bool := c = '&' || c = '<' || c = '>' || c = '"'

/-- The object literal used as replacement table by both `escapeHtml`s. -/
def escapeTable : List (Char × Str) :=
  [('&', "&amp;"), ('<', "&lt;"), ('>', "&gt;"), ('"', "&quot;")]

/-- The claimed behaviour of `escapeHtml`, following the specification's words:
each `&`, `<`, `>`, `"` is replaced by its entity, every other character is kept. -/
def escapeHtmlSpec : Str → Str
  | [] => []
  | c :: rest =>
    (if c = '&' then "&amp;".toList
     else if c = '<' then "&lt;".toList
     else if c = '>' then "&gt;".toList
     else if c = '"' then "&quot;".toList
     else [c]) ++ escapeHtmlSpec rest

/-- A heading record pushed by the heading hook: `{ level, text, id }`. -/
structure Heading where
  level : Nat
  text : Str
  id : Str
deriving DecidableEq, Repr

/-- The fixed UI strings of one locale (module `./locales`, read by the page
assembler). -/
structure Locale where
  lang : Str
  site_title_suffix : Str
  share_title : Str
  share_label_suffix : Str
  breadcrumb_home : Str
  breadcrumb_blog : Str
  back_to_blog : Str
  toc_title : Str
  related_title : Str
  recommended_title : Str
  toc_button_label : Str
  toc_button_text : Str
deriving DecidableEq, Repr

namespace BuildBlog

/-- Source `escapeHtml` of build-blog.js: every match `c` of `/[&<>"]/g` is replaced
by `table[c] || c`. -/
def escapeHtml (str : Str) : Str :=
  str.flatMap fun c =>
    if escapeClass c then
      match escapeTable.lookup c with
      | some r => if Js.truthy r then r else [c]
      | none => [c]
    else [c]

/-- Source `createTocHtml(headings, locale)`. -/
def createTocHtml (headings : List Heading) (_locale : Locale) : Str :=
  if headings.length = 0 then []
  else
    let filteredHeadings := headings.filter fun h => h.level = 2 || h.level = 3
    if filteredHeadings.length = 0 then []
    else
      let tocHtml : Str := filteredHeadings.foldl
        (fun tocHtml heading =>
          tocHtml ++ ("<li class=\"toc-item toc-item--level-" ++ Js.numStr heading.level
            ++ "\"><a href=\"#" ++ heading.id ++ "\">" ++ escapeHtml heading.text
            ++ "</a></li>"))
        "<ul class=\"toc-list\">"
      tocHtml ++ "</ul>"

end BuildBlog

namespace BuildPortfolio

/-- Source `escapeHtml` of build-portfolio.js: every match `c` of `/[&<>"]/g` is
replaced by `table[c]` (the text `undefined` if the table had no entry). -/
def escapeHtml (str : Str) : Str :=
  str.flatMap fun c =>
    if escapeClass c then
      match escapeTable.lookup c with
      | some r => r
      | none => "undefined".toList
    else [c]

end BuildPortfolio

/-- The table-of-contents entry the specification describes for one heading: a list
item of class `toc-item--level-<level>` holding an anchor to `#<id>`. -/
def tocEntry (h : Heading) : Str :=
  "<li class=\"toc-item toc-item--level-" ++ Js.numStr h.level ++ "\"><a href=\"#" ++ h.id
    ++ "\">" ++ BuildBlog.escapeHtml h.text ++ "</a></li>"

/-- The headings that qualify for the table of contents: levels 2 and 3. -/
def tocHeadings (hs : List Heading) : List Heading :=
  hs.filter fun h => h.level = 2 || h.level = 3

/-! ### The Markdown engine as a collaborator

`marked.parse(content, { renderer })` walks the document and calls the two hooks of
the renderer adapter in document order.  The engine's own parsing is the environment
function `lexer`; what it hands to the hooks is modelled by `Block` and `Inline`. -/

/-- Inline output of the engine: markup it renders itself, or an image handed to the
image hook as `(href, title, text)`. -/
inductive Inline where
  | html (s : Str)
  | image (href : Str) (title : Str) (text : Str)
deriving DecidableEq, Repr

/-- Document units in document order: inline material, or a heading whose inline
content is rendered first and then handed to the heading hook with its level. -/
inductive Block where
  | inline (i : Inline)
  | heading (level : Nat) (content : List Inline)
deriving DecidableEq, Repr

/-- The parsed metadata value of `tags`: absent, a YAML sequence, or a string. -/
inductive TagsRaw where
  | missing
  | array (ts : List Str)
  | string (s : Str)
deriving DecidableEq, Repr

/-- Front matter as returned by `matter(raw).data`; `none` is an absent key. -/
structure FrontMatter where
  title : Option Str
  description : Option Str
  date : Option Str
  category : Option Str
  thumbnail : Option Str
  tags : TagsRaw
  recommended : Bool
  role : Option Str
  tech : Option Str
  links : Option (List Str)
deriving DecidableEq, Repr

/-- Outcome of one `fetch` call: a response with `ok` true and its bytes, a
response with `ok` false and its status text, or a thrown error. -/
inductive FetchResult where
  | ok (body : Bytes)
  | notOk (statusText : Str)
  | threw
deriving DecidableEq, Repr

/-- The external collaborators of the build scripts. -/
structure Env where
  /-- The front-matter parser `matter(raw)`: metadata and body. -/
  matter : Str → FrontMatter × Str
  /-- The parsing half of `marked.parse`. -/
  lexer : Str → List Block
  /-- One call `slugger.slug(text)` of a `marked.Slugger`, given the texts this
  slugger instance was asked to slug before. -/
  slug : List Str → Str → Str
  /-- The call `marked.parse(content)` with the default renderer. -/
  parseDefault : Str → Str
  /-- The property `new URL(s).pathname`; `none` when the constructor throws. -/
  urlPathname : Str → Option Str
  /-- The call `fetch(url)`; the first argument counts the fetches made before. -/
  fetch : Nat → Str → FetchResult
  /-- The call `Buffer.from(payload, "base64")`. -/
  base64 : Str → Bytes
  /-- The time value of `new Date(s)` for a string; `none` is `NaN`. -/
  dateParse : Str → Option Int
  /-- Local-time getters of a `Date` with the given time value. -/
  getFullYear : Int → Int
  getMonth : Int → Nat
  getDate : Int → Nat

namespace BuildBlog

/-- State threaded through one `marked.parse` call: the `headings` accumulator and
the texts already given to the `slugger`. -/
structure RenderState where
  headings : List Heading
  slugged : List Str
deriving DecidableEq, Repr

namespace renderer

/-- Source `renderer.image = (href, title, text) => ...`. -/
def image (relativePfx : Str) (href title text : Str) : Str :=
  let src : Str :=
    if Js.truthy href && Js.startsWith href "../" then
      relativePfx ++ "/" ++ Js.substring href 3
    else href
  "<img src=\"" ++ src ++ "\" alt=\"" ++ text ++ "\" title=\"" ++ Js.orElse title ""
    ++ "\" />"

/-- Source `renderer.heading = (text, level) => ...`: slug the text, push the heading
record, emit the heading element. -/
def heading (env : Env) (st : RenderState) (text : Str) (level : Nat) :
    Str × RenderState :=
  let id := env.slug st.slugged text
  ("<h" ++ Js.numStr level ++ " id=\"" ++ id ++ "\">" ++ text ++ "</h" ++ Js.numStr level
      ++ ">",
    { headings := st.headings ++ [{ level := level, text := text, id := id }],
      slugged := st.slugged ++ [text] })

end renderer

/-- Rendering of one inline unit with the image hook installed. -/
def renderInline (relativePfx : Str) : Inline → Str
  | .html s => s
  | .image href title text => renderer.image relativePfx href title text

/-- Rendering of one document unit with both hooks installed. -/
def renderBlock (env : Env) (relativePfx : Str) (st : RenderState) :
    Block → Str × RenderState
  | .inline i => (renderInline relativePfx i, st)
  | .heading level content =>
    renderer.heading env st (content.flatMap (renderInline relativePfx)) level

/-- The call `marked.parse(content, { renderer })` on already parsed units, started
from the given accumulator state. -/
def parseBlocks (env : Env) (relativePfx : Str) :
    List Block → RenderState → Str × RenderState
  | [], st => ([], st)
  | b :: rest, st =>
    let r := renderBlock env relativePfx st b
    let r2 := parseBlocks env relativePfx rest r.2
    (r.1 ++ r2.1, r2.2)

/-- The per-document rendering of the main loop: a fresh `headings` array and a fresh
`Slugger`, then `marked.parse(content, { renderer })`.  Returns `htmlBody` and the
collected headings. -/
def renderDocument (env : Env) (relativePfx : Str) (content : Str) :
    Str × List Heading :=
  let r := parseBlocks env relativePfx (env.lexer content) { headings := [], slugged := [] }
  (r.1, r.2.headings)

/-- The `relativePrefix` of a locale: `lang === "ja" ? ".." : "../.."`. -/
def relativePrefixOf (lang : Str) : Str := if lang = "ja".toList then ".." else "../.."

end BuildBlog

/-! ### More of the JavaScript library -/

namespace Js

/-- Template interpolation of an integer. -/
def intStr (i : Int) : Str := if i < 0 then '-' :: numStr i.natAbs else numStr i.toNat

/-- The call `s.slice(-n)`: the last `n` characters. -/
def sliceLast (s : Str) (n : Nat) : Str := s.drop (s.length - n)

/-- The call `s.split(",")` for a one-character separator. -/
def split (sep : Char) : Str → List Str
  | [] => [[]]
  | c :: cs =>
    if c = sep then [] :: split sep cs
    else
      match split sep cs with
      | h :: t => (c :: h) :: t
      | [] => [[c]]

/-- White space and line terminators, the characters `String.prototype.trim` removes. -/
def isTrimChar (c : Char) : Bool :=
  let n := c.toNat
  n = 0x09 || n = 0x0A || n = 0x0B || n = 0x0C || n = 0x0D || n = 0x20 || n = 0xA0
    || n = 0x1680 || (0x2000 ≤ n && n ≤ 0x200A) || n = 0x2028 || n = 0x2029 || n = 0x202F
    || n = 0x205F || n = 0x3000 || n = 0xFEFF

/-- Method `String.prototype.trim`. -/
def trim (s : Str) : Str := ((s.dropWhile isTrimChar).reverse.dropWhile isTrimChar).reverse

/-- Upper-case hexadecimal digit. -/
def hexUpper (n : Nat) : Char := "0123456789ABCDEF".toList.getD n '0'

/-- Lower-case hexadecimal digit. -/
def hexLower (n : Nat) : Char := "0123456789abcdef".toList.getD n '0'

/-- UTF-8 encoding of a code point. -/
def utf8Bytes (n : Nat) : List Nat :=
  if n < 0x80 then [n]
  else if n < 0x800 then [0xC0 + n / 64, 0x80 + n % 64]
  else if n < 0x10000 then [0xE0 + n / 4096, 0x80 + n / 64 % 64, 0x80 + n % 64]
  else [0xF0 + n / 262144, 0x80 + n / 4096 % 64, 0x80 + n / 64 % 64, 0x80 + n % 64]

/-- The characters `encodeURIComponent` leaves alone: ASCII letters, digits and
`- _ . ! ~ * ' ( )`. -/
def isUriUnreserved (c : Char) : Bool :=
  let n := c.toNat
  (65 ≤ n && n ≤ 90) || (97 ≤ n && n ≤ 122) || (48 ≤ n && n ≤ 57)
    || c = '-' || c = '_' || c = '.' || c = '!' || c = '~' || c = '*' || c = '\''
    || c = '(' || c = ')'

/-- One byte as `%XX`. -/
def percentByte (b : Nat) : Str := ['%', hexUpper (b / 16), hexUpper (b % 16)]

/-- Function `encodeURIComponent` on one character. -/
def encodeURIChar (c : Char) : Str :=
  if isUriUnreserved c then [c] else (utf8Bytes c.toNat).flatMap percentByte

/-- Function `encodeURIComponent`. -/
def encodeURIComponent (s : Str) : Str := s.flatMap encodeURIChar

/-- The escape `JSON.stringify` writes for one character of a string. -/
def jsonQuoteChar (c : Char) : Str :=
  let n := c.toNat
  if n = 0x08 then "\\b"
  else if n = 0x09 then "\\t"
  else if n = 0x0A then "\\n"
  else if n = 0x0C then "\\f"
  else if n = 0x0D then "\\r"
  else if c = '"' then "\\\""
  else if c = '\\' then "\\\\"
  else if n < 0x20 then
    "\\u00".toList ++ [hexLower (n / 16), hexLower (n % 16)]
  else [c]

/-- The quoted form `JSON.stringify` gives a string. -/
def jsonQuote (s : Str) : Str := "\"".toList ++ s.flatMap jsonQuoteChar ++ "\"".toList

/-- UTF-16 code units of a character. -/
def utf16 (c : Char) : List Nat :=
  if c.toNat < 0x10000 then [c.toNat]
  else [0xD800 + (c.toNat - 0x10000) / 1024, 0xDC00 + (c.toNat - 0x10000) % 1024]

/-- UTF-16 code units of a string. -/
def codeUnits (s : Str) : List Nat := s.flatMap utf16

/-- Lexicographic `<` on code-unit sequences. -/
def unitsLt : List Nat → List Nat → Bool
  | [], [] => false
  | [], _ :: _ => true
  | _ :: _, [] => false
  | a :: as, b :: bs => if a < b then true else if b < a then false else unitsLt as bs

/-- The relational operator `a < b` on two strings. -/
def strLt (a b : Str) : Bool := unitsLt (codeUnits a) (codeUnits b)

/-- Insertion of `x` before the first element it does not sort after. -/
def sortInsert {α : Type} (cmp : α → α → Int) (x : α) : List α → List α
  | [] => [x]
  | y :: ys => if cmp x y ≤ 0 then x :: y :: ys else y :: sortInsert cmp x ys

/-- Method `Array.prototype.sort(comparefn)`, as a stable insertion sort driven by
the sign of the comparator (a `NaN` result counts as `0`). -/
def sort {α : Type} (cmp : α → α → Int) : List α → List α
  | [] => []
  | x :: xs => sortInsert cmp x (sort cmp xs)

/-- Leap years of the proleptic Gregorian calendar. -/
def isLeap (y : Nat) : Bool := (y % 4 = 0 && y % 100 ≠ 0) || y % 400 = 0

/-- Number of days in month `m` (1 to 12) of year `y`. -/
def daysInMonth (y m : Nat) : Nat :=
  if m = 2 then (if isLeap y then 29 else 28)
  else if m = 4 || m = 6 || m = 9 || m = 11 then 30
  else 31

/-- Days of the year before the first of month `m` (1 to 12). -/
def daysBeforeMonth (y m : Nat) : Nat :=
  ((List.range (m - 1)).map fun i => daysInMonth y (i + 1)).sum

/-- ECMAScript `DayFromYear(y)`. -/
def dayFromYear (y : Nat) : Int :=
  365 * ((y : Int) - 1970) + ((y : Int) - 1969) / 4 - ((y : Int) - 1901) / 100
    + ((y : Int) - 1601) / 400

/-- Time value of midnight UTC on the given calendar date: `MakeDate(MakeDay(y, m - 1,
d), 0)`. -/
def utcTime (y m d : Nat) : Int :=
  (dayFromYear y + (daysBeforeMonth y m : Int) + (d : Int) - 1) * 86400000

/-- Decimal digit characters. -/
def isDigit (c : Char) : Bool := 48 ≤ c.toNat && c.toNat ≤ 57

/-- Value of a decimal digit character. -/
def digitVal (c : Char) : Nat := c.toNat - 48

/-- A date-only string `YYYY-MM-DD` of the ECMAScript date-time format that names a
calendar date: its year, month and day. -/
def isoDate? : Str → Option (Nat × Nat × Nat)
  | [y1, y2, y3, y4, s1, m1, m2, s2, d1, d2] =>
    if s1 = '-' ∧ s2 = '-' ∧ isDigit y1 ∧ isDigit y2 ∧ isDigit y3 ∧ isDigit y4 ∧ isDigit m1
        ∧ isDigit m2 ∧ isDigit d1 ∧ isDigit d2 then
      let y := 1000 * digitVal y1 + 100 * digitVal y2 + 10 * digitVal y3 + digitVal y4
      let m := 10 * digitVal m1 + digitVal m2
      let d := 10 * digitVal d1 + digitVal d2
      if 1 ≤ m ∧ m ≤ 12 ∧ 1 ≤ d ∧ d ≤ daysInMonth y m then some (y, m, d) else none
    else none
  | _ => none

/-- Calendar order: date `a` is older than date `b`. -/
def dateOlder (a b : Nat × Nat × Nat) : Prop :=
  a.1 < b.1 ∨ (a.1 = b.1 ∧ (a.2.1 < b.2.1 ∨ (a.2.1 = b.2.1 ∧ a.2.2 < b.2.2)))

instance (a b : Nat × Nat × Nat) : Decidable (dateOlder a b) := by
  unfold dateOlder; infer_instance

/-- Date string `s` names an older calendar date than date string `t`. -/
def isoOlder (s t : Str) : Prop :=
  match isoDate? s, isoDate? t with
  | some a, some b => dateOlder a b
  | _, _ => False

instance (s t : Str) : Decidable (isoOlder s t) := by
  unfold isoOlder; split <;> infer_instance

end Js

/-! ### Pages as provenance-tagged segments

A template literal is a sequence of fixed text and interpolated values.  Each piece
of a generated page is kept together with the input it was computed from; the page
itself is the concatenation of the pieces. -/

/-- The input a piece of a page is computed from; `template` is the fixed text of
the template literals. -/
inductive Origin where
  | template | locale | lang | id | title | description | date | category | tags
  | thumbnail | adScript | body | toc | role | tech
deriving DecidableEq, Repr

/-- One piece of a page. -/
structure Seg where
  origin : Origin
  text : Str
deriving DecidableEq, Repr

/-- A piece of fixed template text. -/
def T (s : Str) : List Seg := [{ origin := .template, text := s }]

/-- An interpolated value and the input it is computed from. -/
def S (o : Origin) (s : Str) : List Seg := [{ origin := o, text := s }]

/-- The text of a sequence of pieces. -/
def renderSegs (segs : List Seg) : Str := segs.flatMap fun seg => seg.text

/-- The call `parts.join(sep)` on pieces. -/
def joinSegs (sep : List Seg) : List (List Seg) → List Seg
  | [] => []
  | [x] => x
  | x :: y :: rest => x ++ sep ++ joinSegs sep (y :: rest)

/-- The values that occur in the structured-data object: strings (with the input they
come from), arrays and objects. -/
inductive Json where
  | str (origin : Origin) (s : Str)
  | arr (items : List Json)
  | obj (fields : List (Str × Json))

namespace Js

/-- Indentation of `n` spaces. -/
def spaces (n : Nat) : Str := List.replicate n ' '

mutual
/-- The call `JSON.stringify(value, null, 2)`; `ind` is the current indentation. -/
def stringify (ind : Nat) : Json → List Seg
  | .str o s => S o (jsonQuote s)
  | .arr [] => T "[]"
  | .arr (x :: xs) =>
    T ("[\n".toList ++ spaces (ind + 2)) ++ stringify (ind + 2) x ++ stringifyItems (ind + 2) xs
      ++ T ("\n".toList ++ spaces ind ++ "]".toList)
  | .obj [] => T "\x7b\x7d"
  | .obj ((k, v) :: kvs) =>
    T ("\x7b\n".toList ++ spaces (ind + 2) ++ jsonQuote k ++ ": ".toList)
      ++ stringify (ind + 2) v ++ stringifyFields (ind + 2) kvs
      ++ T ("\n".toList ++ spaces ind ++ "\x7d".toList)
/-- The remaining elements of an array, each after `,` and a line break. -/
def stringifyItems (ind : Nat) : List Json → List Seg
  | [] => []
  | x :: xs => T (",\n".toList ++ spaces ind) ++ stringify ind x ++ stringifyItems ind xs
/-- The remaining members of an object, each after `,` and a line break. -/
def stringifyFields (ind : Nat) : List (Str × Json) → List Seg
  | [] => []
  | (k, v) :: kvs =>
    T (",\n".toList ++ spaces ind ++ jsonQuote k ++ ": ".toList) ++ stringify ind v
      ++ stringifyFields ind kvs
end

/-- The call `s.replace(/^(\.\.\/)+/, "")`. -/
def stripParentDirs : Str → Str
  | '.' :: '.' :: '/' :: rest => stripParentDirs rest
  | s => s

/-- The call `s.replace(/^\/+/, "")`. -/
def stripLeadingSlashes (s : Str) : Str := s.dropWhile fun c => c = '/'

end Js

namespace BuildBlog

/-- Source constant `BASE_URL`. -/
def BASE_URL : Str := "https://breadmotion.github.io/WebSite"

/-- Source `formatDate(date)`. -/
def formatDate (env : Env) (date : Str) : Str :=
  if !Js.truthy date then ""
  else
    match env.dateParse date with
    | none => date
    | some t =>
      let y := env.getFullYear t
      let m := Js.sliceLast ("0".toList ++ Js.numStr (env.getMonth t + 1)) 2
      let da := Js.sliceLast ("0".toList ++ Js.numStr (env.getDate t)) 2
      Js.intStr y ++ "/".toList ++ m ++ "/".toList ++ da

/-- One entry of the `services` array of `createShareButtonsHtml`. -/
structure Service where
  name : Str
  url : List Seg
  icon : Str
  className : Str

/-- Source `createShareButtonsHtml(title, url, locale)`, as pieces. -/
def createShareButtonsSegs (title url : Str) (locale : Locale) : List Seg :=
  let encodedTitle := Js.encodeURIComponent title
  let encodedUrl := Js.encodeURIComponent url
  let services : List Service := [
    { name := "Twitter",
      url := T "https://twitter.com/intent/tweet?url=" ++ S .id encodedUrl ++ T "&text="
        ++ S .title encodedTitle,
      icon := "<svg xmlns=\"http://www.w3.org/2000/svg\" viewBox=\"0 0 24 24\" fill=\"currentColor\" width=\"20\" height=\"20\"><path d=\"M18.244 2.25h3.308l-7.227 8.26 8.502 11.24H16.17l-5.214-6.817L4.99 21.75H1.68l7.73-8.835L1.254 2.25H8.08l4.713 6.231zm-1.161 17.52h1.833L7.084 4.126H5.117z\"></path></svg>",
      className := "twitter" },
    { name := "Facebook",
      url := T "https://www.facebook.com/sharer/sharer.php?u=" ++ S .id encodedUrl,
      icon := "<svg xmlns=\"http://www.w3.org/2000/svg\" viewBox=\"0 0 24 24\" fill=\"currentColor\" width=\"20\" height=\"20\"><path d=\"M14 13.5h2.5l1-4H14v-2c0-1.03 0-2 2-2h1.5V2.14c-.326-.043-1.557-.14-2.857-.14C11.928 2 10 3.657 10 6.7v2.8H7v4h3V22h4z\"></path></svg>",
      className := "facebook" },
    { name := "LINE",
      url := T "https://social-plugins.line.me/lineit/share?url=" ++ S .id encodedUrl,
      icon := "<svg xmlns=\"http://www.w3.org/2000/svg\" viewBox=\"0 0 24 24\" fill=\"currentColor\" width=\"20\" height=\"20\"><path d=\"M21.5,4.9C20.2,3.7,18.6,3,16.9,3c-3.7,0-6.8,2.8-7.2,6.4c-0.1,0.5-0.1,1-0.1,1.6c0,0-0.1,0.2-0.2,0.3c-0.3,0.3-0.7,0.2-1.2,0.1C7.8,11,7.4,10.8,7,10.7c-0.2-0.1-0.4-0.1-0.6-0.1c-0.3,0-0.6,0-0.8,0.1c-0.3,0.1-0.5,0.3-0.5,0.6c0,0.2,0.1,0.4,0.2,0.5c0.2,0.2,0.5,0.4,0.8,0.6c0.7,0.4,1.5,0.8,2.2,1.2c0.2,0.1,0.3,0.2,0.3,0.3c0,0.1,0,0.2-0.1,0.3C8.4,14.6,8,15,7.5,15.4c-0.2,0.2-0.4,0.3-0.5,0.5c-0.1,0.2-0.2,0.4-0.2,0.6c0,0.3,0.1,0.6,0.4,0.8C7.5,17.5,8,17.7,8.5,17.7c0.2,0,0.4-0.1,0.6-0.1c0.5-0.2,1-0.5,1.5-0.8c0.2-0.1,0.3-0.2,0.5-0.2c0.1,0,0.2,0,0.2,0.1c0.3,0.3,0.6,0.8,0.8,1.3c0.1,0.1,0.1,0.2,0.1,0.3c0,0.4-0.2,0.9-0.5,1.4c-0.1,0.2-0.2,0.3-0.2,0.5c0,0.2,0,0.4,0.1,0.5c0.1,0.2,0.3,0.3,0.5,0.4c0.2,0.1,0.5,0.1,0.7,0.1c0.6,0,1.2-0.2,1.7-0.6c0.1-0.1,0.2-0.2,0.3-0.2c0.1,0,0.2,0,0.3,0.1c0.7,0.5,1.5,0.8,2.4,0.8c3.7,0,6.8-2.8,7.2-6.4c0-0.1,0.1-0.2,0.1-0.4c0-0.1,0-0.2,0-0.3c0-0.1,0-0.1,0-0.2c0,0,0-0.1,0-0.1C22.2,9,22.2,8.9,22.2,8.8c0,0,0,0,0,0c0-0.2,0-0.4,0-0.6c-0.1-0.8-0.2-1.5-0.4-2.2C21.6,5.5,21.6,5.2,21.5,4.9z M16.9,4c1.5,0,2.9,0.6,3.9,1.6c0.1,0.1,0.1,0.2,0.1,0.3c0.3,0.7,0.5,1.4,0.5,2.2c0,0.2,0,0.3,0,0.5c0,0,0,0.1,0,0.1c0,0.1,0,0.1,0,0.2c0,0,0,0.1,0,0.1c0,0,0,0,0,0c0,0.1-0.1,0.2-0.1,0.3c-0.3,3.1-3.1,5.4-6.3,5.4c-0.8,0-1.6-0.2-2.3-0.6c-0.1-0.1-0.2-0.1-0.3-0.1c-0.1,0-0.3,0.1-0.4,0.2c-0.5,0.4-1.1,0.6-1.7,0.6c-0.1,0-0.2,0-0.3-0.1c-0.1,0-0.1-0.1-0.1-0.1c0-0.1,0.1-0.2,0.1-0.2c0.2-0.5,0.5-0.9,0.7-1.3c0.1-0.1,0.1-0.3,0.1-0.5c0-0.1-0.1-0.2-0.2-0.3c-0.2-0.2-0.5-0.5-0.8-0.8c-0.1-0.1-0.1-0.2-0.1-0.3c0-0.2,0.1-0.4,0.2-0.5c0.5-0.4,0.9-0.8,1.1-1.1c0.1-0.1,0.1-0.2,0.1-0.3c0-0.1-0.1-0.1-0.1-0.2c-0.7-0.4-1.4-0.8-2.1-1.1c-0.3-0.2-0.5-0.3-0.7-0.5c-0.1-0.1-0.2-0.2-0.2-0.3c0-0.1,0.1-0.2,0.1-0.2c0.1,0,0.2-0.1,0.3-0.1c0.2,0,0.5,0.1,0.6,0.1c0.4,0.1,0.9,0.4,1.2,0.5c0.5,0.2,0.9,0.2,1.2,0.1c0.1,0,0.1,0,0.2-0.1c0.3-3.1,3.1-5.4,6.3-5.4z M9.5,8.8C9.2,8.8,9,9,9,9.3v1.8c0,0.3,0.2,0.5,0.5,0.5h1.3c0.3,0,0.5-0.2,0.5-0.5V9.3c0-0.3-0.2-0.5-0.5-0.5H9.5z M14.8,8.8c-0.3,0-0.5,0.2-0.5,0.5v1.8c0,0.3,0.2,0.5,0.5,0.5h1.3c0.3,0,0.5-0.2,0.5-0.5V9.3c0-0.3-0.2-0.5-0.5-0.5H14.8z\"></path></svg>",
      className := "line" }]
  let shareItem : Service → List Seg := fun service => List.flatten [
T "\n",
    T "        <li class=\"share-buttons__item\">\n",
    T "          <a href=\"",
    service.url,
    T "\" class=\"share-buttons__link share-buttons__link--",
    T service.className,
    T "\" target=\"_blank\" rel=\"noopener noreferrer\" aria-label=\"",
    T service.name,
    S .locale locale.share_label_suffix,
    T "\">\n",
    T "            ",
    T service.icon,
    T "\n",
    T "          </a>\n",
    T "        </li>\n",
    T "      "]
  List.flatten [
T "<div class=\"share-buttons\">\n",
    T "    <p class=\"share-buttons__title\">",
    S .locale locale.share_title,
    T "</p>\n",
    T "    <ul class=\"share-buttons__list\">\n",
    T "      ",
    services.flatMap shareItem,
    T "\n",
    T "    </ul>\n",
    T "  </div>"]

/-- Source `createShareButtonsHtml(title, url, locale)`. -/
def createShareButtonsHtml (title url : Str) (locale : Locale) : Str :=
  renderSegs (createShareButtonsSegs title url locale)

/-- The argument object of `createHtml`. -/
structure PageArgs where
  id : Str
  title : Str
  description : Str
  date : Str
  category : Str
  tags : TagsRaw
  bodyHtml : Str
  tocHtml : Str
  thumbnail : Option Str
  adScript : Str
  locale : Locale
  lang : Str
  relativePfx : Str

/-- Local `pathPrefix` of `createHtml`. -/
def pathPrefix (a : PageArgs) : Str := if a.lang = "ja".toList then ".." else "../.."

/-- Local `safeTitle` of `createHtml`. -/
def safeTitle (a : PageArgs) : Str := escapeHtml a.title

/-- Local `safeDesc` of `createHtml`. -/
def safeDesc (a : PageArgs) : Str := escapeHtml (Js.orElse a.description "")

/-- Local `safeDate` of `createHtml`. -/
def safeDate (env : Env) (a : PageArgs) : Str := escapeHtml (formatDate env a.date)

/-- Local `safeCategory` of `createHtml`. -/
def safeCategory (a : PageArgs) : Str := escapeHtml (Js.orElse a.category "")

/-- Local `safeTagsArr` of `createHtml`. -/
def safeTagsArr (a : PageArgs) : List Str :=
  let arr : List Str :=
    match a.tags with
    | .missing => []
    | .array ts => ts
    | .string s => Js.split ',' (Js.orElse s "")
  ((arr.map Js.trim).filter Js.truthy).map escapeHtml

/-- Local `tagsHtml` of `createHtml`. -/
def tagsHtml (a : PageArgs) : List Seg :=
  if (safeTagsArr a).length ≠ 0 then
    T "<p class=\"post-detail__tags\">"
      ++ joinSegs (T " ") ((safeTagsArr a).map fun t =>
          T "<a class=\"tag\" href=\"" ++ S .lang (pathPrefix a) ++ T "/blog.html?tag="
            ++ S .tags (Js.encodeURIComponent t) ++ T "\">" ++ S .tags t ++ T "</a>")
      ++ T "</p>"
  else []

/-- Local `jaUrl` of `createHtml`. -/
def jaUrl (a : PageArgs) : Str := BASE_URL ++ "/blog/".toList ++ a.id ++ ".html".toList

/-- Local `enUrl` of `createHtml`. -/
def enUrl (a : PageArgs) : Str := BASE_URL ++ "/blog/en/".toList ++ a.id ++ ".html".toList

/-- Local `canonicalUrl` of `createHtml`. -/
def canonicalUrl (a : PageArgs) : Str :=
  if a.lang = "ja".toList then BASE_URL ++ "/blog/".toList ++ a.id ++ ".html".toList
  else BASE_URL ++ "/blog/en/".toList ++ a.id ++ ".html".toList

/-- Local `shareButtonsHtml` of `createHtml`. -/
def shareButtonsHtml (a : PageArgs) : List Seg :=
  createShareButtonsSegs a.title (canonicalUrl a) a.locale

/-- Local `imageUrl` of `createHtml`. -/
def imageUrl (a : PageArgs) : Str :=
  match a.thumbnail with
  | none => BASE_URL ++ "/assets/img/ogp.png".toList
  | some thumbnail =>
    if Js.truthy thumbnail && !Js.startsWith thumbnail "http" then
      let cleanPath := Js.stripLeadingSlashes (Js.stripParentDirs thumbnail)
      BASE_URL ++ "/".toList ++ cleanPath
    else if !Js.truthy thumbnail then BASE_URL ++ "/assets/img/ogp.png".toList
    else thumbnail

/-- Local `jsonLd` of `createHtml`. -/
def jsonLd (a : PageArgs) : Json :=
  .obj [
    ("@context", .str .template "https://schema.org"),
    ("@type", .str .template "BlogPosting"),
    ("mainEntityOfPage", .obj [
      ("@type", .str .template "WebPage"),
      ("@id", .str .id (canonicalUrl a))]),
    ("headline", .str .title a.title),
    ("description", .str .description (Js.orElse a.description "")),
    ("image", .arr [.str .thumbnail (imageUrl a)]),
    ("datePublished", .str .date a.date),
    ("dateModified", .str .date a.date),
    ("author", .obj [
      ("@type", .str .template "Person"),
      ("name", .str .template "PanKUN"),
      ("url", .str .template BASE_URL)]),
    ("publisher", .obj [
      ("@type", .str .template "Organization"),
      ("name", .str .template "PanKUN"),
      ("logo", .obj [
        ("@type", .str .template "ImageObject"),
        ("url", .str .template (BASE_URL ++ "/assets/img/favicon-192.png".toList))])])]

/-- The pieces of the page that precede the structured-data text. -/
def segsBeforeJsonLd (a : PageArgs) : List Seg :=
  List.flatten [
T "<!doctype html>\n",
    T "<html lang=\"",
    S .locale a.locale.lang,
    T "\">\n",
    T "  <head>\n",
    T "    <meta charset=\"UTF-8\" />\n",
    T "    <title>",
    S .title (safeTitle a),
    S .locale a.locale.site_title_suffix,
    T "</title>\n",
    T "    <meta name=\"viewport\" content=\"width=device-width, initial-scale=1\" />\n",
    T "    <meta name=\"description\" content=\"",
    S .description (safeDesc a),
    T "\" />\n",
    T "    <meta name=\"view-transition\" content=\"same\">\n",
    T "\n",
    T "    <link rel=\"canonical\" href=\"",
    S .id (canonicalUrl a),
    T "\" />\n",
    T "    <link rel=\"alternate\" hreflang=\"ja\" href=\"",
    S .id (jaUrl a),
    T "\" />\n",
    T "    <link rel=\"alternate\" hreflang=\"en\" href=\"",
    S .id (enUrl a),
    T "\" />\n",
    T "    <link rel=\"alternate\" hreflang=\"x-default\" href=\"",
    S .id (enUrl a),
    T "\" />\n",
    T "    ",
    S .adScript a.adScript,
    T "\n",
    T "    <script type=\"application/ld+json\">"]

/-- The structured-data text `JSON.stringify(jsonLd, null, 2)`, as pieces. -/
def jsonLdSegs (a : PageArgs) : List Seg := Js.stringify 0 (jsonLd a)

/-- The pieces of the page that follow the structured-data text. -/
def segsAfterJsonLd (env : Env) (a : PageArgs) : List Seg :=
  List.flatten [
T "</script>\n",
    T "    <meta property=\"og:title\" content=\"",
    S .title (safeTitle a),
    S .locale a.locale.site_title_suffix,
    T "\" />\n",
    T "    <meta property=\"og:description\" content=\"",
    S .description (safeDesc a),
    T "\" />\n",
    T "    <meta property=\"og:type\" content=\"article\" />\n",
    T "    <meta property=\"og:url\" content=\"",
    S .id (canonicalUrl a),
    T "\" />\n",
    T "    <meta property=\"og:image\" content=\"",
    S .thumbnail (imageUrl a),
    T "\" />\n",
    T "    <meta property=\"og:site_name\" content=\"PanKUN\" />\n",
    T "    <link rel=\"shortcut icon\" href=\"",
    S .lang (pathPrefix a),
    T "/../favicon.ico\">\n",
    T "    <link rel=\"icon\" type=\"image/png\" href=\"",
    S .lang (pathPrefix a),
    T "/assets/img/favicon-32.png\" sizes=\"32x32\">\n",
    T "    <link rel=\"icon\" type=\"image/png\" href=\"",
    S .lang (pathPrefix a),
    T "/assets/img/favicon-192.png\" sizes=\"192x192\">\n",
    T "    <link rel=\"apple-touch-icon\" href=\"",
    S .lang (pathPrefix a),
    T "/assets/img/favicon-192.png\">\n",
    T "    <link rel=\"stylesheet\" href=\"",
    S .lang (pathPrefix a),
    T "/assets/css/base.css\" />\n",
    T "    <link rel=\"stylesheet\" href=\"",
    S .lang (pathPrefix a),
    T "/assets/css/layout.css\" />\n",
    T "    <link rel=\"stylesheet\" href=\"",
    S .lang (pathPrefix a),
    T "/assets/css/blog.css\" />\n",
    T "    <link rel=\"stylesheet\" href=\"",
    S .lang (pathPrefix a),
    T "/assets/css/transition.css\" />\n",
    T "  </head>\n",
    T "  <body data-page=\"blog\" view-transition-name=\"page\">\n",
    T "    <div class=\"page-shell\">\n",
    T "      <main class=\"main-container\">\n",
    T "        <div class=\"post-layout\">\n",
    T "          <div class=\"post-content\">\n",
    T "            <article class=\"post-detail\">\n",
    T "              <nav aria-label=\"breadcrumb\" class=\"breadcrumb\">\n",
    T "                <ol class=\"breadcrumb__list\">\n",
    T "                  <li class=\"breadcrumb__item\"><a href=\"",
    S .lang (pathPrefix a),
    T "/index.html\">",
    S .locale a.locale.breadcrumb_home,
    T "</a></li>\n",
    T "                  <li class=\"breadcrumb__item\"><a href=\"",
    S .lang (pathPrefix a),
    T "/blog.html\">",
    S .locale a.locale.breadcrumb_blog,
    T "</a></li>\n",
    T "                  <li class=\"breadcrumb__item\" aria-current=\"page\">",
    S .title (safeTitle a),
    T "</li>\n",
    T "                </ol>\n",
    T "              </nav>\n",
    T "              <header class=\"post-detail__header\">\n",
    T "                <p class=\"post-detail__meta\">",
    S .date (safeDate env a),
    (if Js.truthy (safeCategory a) then T " / " ++ S .category (safeCategory a) else []),
    T "</p>\n",
    T "                <h1 class=\"post-detail__title\">",
    S .title (safeTitle a),
    T "</h1>\n",
    T "                ",
    (if Js.truthy (safeDesc a) then T "<p class=\"post-detail__description\">" ++ S .description (safeDesc a) ++ T "</p>" else []),
    T "\n",
    T "                ",
    tagsHtml a,
    T "\n",
    T "                ",
    shareButtonsHtml a,
    T "\n",
    T "              </header>\n",
    T "              <section class=\"post-detail__body markdown-body\">",
    S .body a.bodyHtml,
    T "</section>\n",
    T "              ",
    shareButtonsHtml a,
    T "\n",
    T "              <div class=\"post-detail__nav post-detail__nav--bottom\">\n",
    T "                <a href=\"",
    S .lang (pathPrefix a),
    T "/blog.html\" class=\"btn btn--back\">",
    S .locale a.locale.back_to_blog,
    T "</a>\n",
    T "              </div>\n",
    T "            </article>\n",
    T "          </div>\n",
    T "          <aside class=\"post-sidebar\">\n",
    T "            <div class=\"toc-sticky-container\">\n",
    T "              <nav class=\"toc\">\n",
    T "                <h2 class=\"toc__title\">",
    S .locale a.locale.toc_title,
    T "</h2>\n",
    T "                ",
    S .toc a.tocHtml,
    T "\n",
    T "              </nav>\n",
    T "            </div>\n",
    T "          </aside>\n",
    T "        </div>\n",
    T "        <section class=\"section section--related\">\n",
    T "          <h2 class=\"section__title\">",
    S .locale a.locale.related_title,
    T "</h2>\n",
    T "          <div id=\"relatedList\" class=\"recommend-grid\"></div>\n",
    T "        </section>\n",
    T "        <section class=\"section section--recommend\">\n",
    T "          <h2 class=\"section__title\">",
    S .locale a.locale.recommended_title,
    T "</h2>\n",
    T "          <div id=\"recommendList\" class=\"recommend-grid\"></div>\n",
    T "        </section>\n",
    T "      </main>\n",
    T "      <div class=\"toc-overlay\"></div>\n",
    T "      <button type=\"button\" class=\"toc-toggle\" aria-label=\"",
    S .locale a.locale.toc_button_label,
    T "\">\n",
    T "        <svg xmlns=\"http://www.w3.org/2000/svg\" viewBox=\"0 0 24 24\" fill=\"currentColor\" width=\"20\" height=\"20\" aria-hidden=\"true\"><path d=\"M4 6h16v2H4zm0 5h16v2H4zm0 5h16v2H4z\"></path></svg>\n",
    T "        <span>",
    S .locale a.locale.toc_button_text,
    T "</span>\n",
    T "      </button>\n",
    T "    </div>\n",
    T "    <script src=\"",
    S .lang (pathPrefix a),
    T "/assets/js/layout.js\" defer></script>\n",
    T "    <script src=\"",
    S .lang (pathPrefix a),
    T "/assets/js/ui.js\"></script>\n",
    T "    <canvas id=\"menuAnimationCanvas\"></canvas>\n",
    T "    <script src=\"https://cdnjs.cloudflare.com/ajax/libs/p5.js/1.4.0/p5.min.js\"></script>\n",
    T "    <script src=\"",
    S .lang (pathPrefix a),
    T "/assets/js/particles.js\"></script>\n",
    T "    <script src=\"",
    S .lang (pathPrefix a),
    T "/assets/js/toc.js\" defer></script>\n",
    T "    <script src=\"",
    S .lang (pathPrefix a),
    T "/assets/js/recommend.js\" defer></script>\n",
    T "    <script src=\"",
    S .lang (pathPrefix a),
    T "/assets/js/transition.js\"></script>\n",
    T "  </body>\n",
    T "</html>"]

/-- Source `createHtml({...})`, as pieces: the returned template literal. -/
def createHtmlSegs (env : Env) (a : PageArgs) : List Seg :=
  segsBeforeJsonLd a ++ jsonLdSegs a ++ segsAfterJsonLd env a

/-- Source `createHtml({...})`. -/
def createHtml (env : Env) (a : PageArgs) : Str := renderSegs (createHtmlSegs env a)

end BuildBlog

/-! ### Files and paths -/

/-- A flat directory: file names with their contents. -/
abbrev Dir (α : Type) := List (Str × α)

namespace Fs

/-- The call `readdirSync(dir)`. -/
def readdir {α : Type} (d : Dir α) : List Str := d.map fun f => f.1

/-- The call `existsSync(join(dir, name))`. -/
def existsFile {α : Type} (d : Dir α) (name : Str) : Bool := (readdir d).contains name

/-- The call `readFileSync(join(dir, name), "utf8")`. -/
def readFile (d : Dir Str) (name : Str) : Str := (d.lookup name).getD []

/-- The call `writeFileSync(join(dir, name), data)`: replace the file or create it. -/
def writeFile {α : Type} (d : Dir α) (name : Str) (data : α) : Dir α :=
  if existsFile d name then d.map fun f => if f.1 = name then (name, data) else f
  else d ++ [(name, data)]

/-- The call `unlinkSync(join(dir, name))`. -/
def unlink {α : Type} (d : Dir α) (name : Str) : Dir α := d.filter fun f => f.1 ≠ name

end Fs

namespace Path

/-- The last portion of a path: trailing separators are ignored. -/
def lastPortion (path : Str) : Str :=
  let trimmed := (path.reverse.dropWhile fun c => c = '/').reverse
  (trimmed.reverse.takeWhile fun c => c ≠ '/').reverse

/-- The call `path.basename(p, suffix)` (POSIX): the last portion of the path, without
the suffix when it ends in it; a path equal to the suffix gives the empty string. -/
def basename (path : Str) (suffix : Str := []) : Str :=
  let portion := lastPortion path
  if suffix ≠ [] ∧ suffix.length ≤ path.length then
    if suffix = path then []
    else if Js.endsWith portion suffix ∧ portion ≠ suffix then
      portion.take (portion.length - suffix.length)
    else portion
  else portion

/-- The call `path.extname(p)` (POSIX): from the last `.` of the last portion to its
end; empty when there is no `.`, when the only `.` is the first character, or when
the portion is `..`. -/
def extname (path : Str) : Str :=
  let portion := lastPortion path
  let afterDot := (portion.reverse.takeWhile fun c => c ≠ '.').reverse
  if '.' ∉ portion then []
  else if afterDot.length + 1 = portion.length then []
  else if portion = "..".toList then []
  else '.' :: afterDot

end Path

/-- The table of module `./locales`: the `ja` strings and, when present, the `en`
strings. -/
structure Locales where
  ja : Locale
  en : Option Locale

/-- What the thumbnail resolver reads and changes: the thumbnail directory, the set
`usedThumbnails`, and the number of `fetch` calls made so far. -/
structure Store where
  thumbs : Dir Bytes
  usedThumbnails : List Str
  fetches : Nat
deriving DecidableEq, Repr

namespace BuildBlog

/-- One element of `postsMap[lang]`, an entry of the published list. -/
structure IndexRecord where
  id : Str
  title : Str
  date : Str
  category : Str
  description : Str
  tags : List Str
  thumbnail : Option Str
  contentPath : Str
  recommended : Bool
deriving DecidableEq, Repr

/-- The state of the main loop. -/
structure State where
  store : Store
  /-- Files written below `OUTPUT_DIR`, by path relative to `ROOT`. -/
  output : Dir Str
  postsJa : List IndexRecord
  postsEn : List IndexRecord
deriving DecidableEq, Repr

/-- The thumbnail block of the main loop (`if (thumbnail) { try { ... } catch ... }`):
the new value of `thumbnail` and the new store. -/
def resolveThumbnail (env : Env) (id : Str) (thumbnail : Option Str) (st : Store) :
    Option Str × Store :=
  match thumbnail with
  | none => (thumbnail, st)
  | some t =>
    if !Js.truthy t then (thumbnail, st)
    else if Js.startsWith t "http" then
      match env.urlPathname t with
      | none => (thumbnail, st)
      | some pathname =>
        let ext0 := Js.substring (Path.extname pathname) 1
        let ext : Str := if !Js.truthy ext0 then "png" else ext0
        let filename := id ++ ".".toList ++ ext
        match env.fetch st.fetches t with
        | .ok buffer =>
          (some ("assets/img/thumbnails/".toList ++ filename),
            { thumbs := Fs.writeFile st.thumbs filename buffer,
              usedThumbnails := Js.setAdd st.usedThumbnails filename,
              fetches := st.fetches + 1 })
        | .notOk _ => (thumbnail, { st with fetches := st.fetches + 1 })
        | .threw => (thumbnail, { st with fetches := st.fetches + 1 })
    else if Js.includes t "assets/img/thumbnails/" then
      (thumbnail,
        { st with usedThumbnails := Js.setAdd st.usedThumbnails (Path.basename t) })
    else (thumbnail, st)

/-- The normalisation of `data.tags` in the main loop. -/
def normalizeTags (tagsRaw : TagsRaw) : List Str :=
  let arr : List Str :=
    match tagsRaw with
    | .missing => []
    | .array ts => ts
    | .string s => if Js.truthy s then Js.split ',' s else []
  (arr.map Js.trim).filter Js.truthy

/-- The expression `locales[lang] || locales.ja`. -/
def localeOf (locales : Locales) (lang : Str) : Locale :=
  if lang = "ja".toList then locales.ja else locales.en.getD locales.ja

/-- The file the variant `lang` of item `id` is read from. -/
def sourcePath (content : Dir Str) (id lang : Str) : Str :=
  if lang = "en".toList ∧ Fs.existsFile content (id ++ ".en.md".toList) then
    id ++ ".en.md".toList
  else id ++ ".md".toList

/-- What one pass of the loop `for (const lang of ["ja", "en"])` computes before it
writes: the arguments of `createHtml`, the index record, and the store after the
thumbnail block. -/
def buildPage (env : Env) (locales : Locales) (content : Dir Str) (adScript : Str)
    (id lang : Str) (store : Store) : PageArgs × IndexRecord × Store :=
  let locale := localeOf locales lang
  let relativePfx := relativePrefixOf lang
  let raw := Fs.readFile content (sourcePath content id lang)
  let parsed := env.matter raw
  let data := parsed.1
  let rendered := renderDocument env relativePfx parsed.2
  let tocHtml := createTocHtml rendered.2 locale
  let resolved := resolveThumbnail env id data.thumbnail store
  let tags := normalizeTags data.tags
  let title := Js.orElse (data.title.getD []) id
  let description := Js.orElse (data.description.getD []) ""
  let date := Js.orElse (data.date.getD []) ""
  let category := Js.orElse (data.category.getD []) ""
  ({ id := id, title := title, description := description, date := date,
     category := category, tags := .array tags, bodyHtml := rendered.1, tocHtml := tocHtml,
     thumbnail := resolved.1, adScript := adScript, locale := locale, lang := lang,
     relativePfx := relativePfx },
   { id := id, title := title, date := date, category := category,
     description := description, tags := tags, thumbnail := resolved.1,
     contentPath :=
       if lang = "ja".toList then "blog/".toList ++ id ++ ".html".toList
       else "blog/en/".toList ++ id ++ ".html".toList,
     recommended := data.recommended },
   resolved.2)

/-- One pass of the loop `for (const lang of ["ja", "en"])`: build, write the page,
push the index record. -/
def processLang (env : Env) (locales : Locales) (content : Dir Str) (adScript : Str)
    (id : Str) (st : State) (lang : Str) : State :=
  let built := buildPage env locales content adScript id lang st.store
  let html := createHtml env built.1
  let outputFilePath : Str :=
    if lang = "ja".toList then "blog/".toList ++ id ++ ".html".toList
    else "blog/en/".toList ++ id ++ ".html".toList
  { store := built.2.2,
    output := Fs.writeFile st.output outputFilePath html,
    postsJa := if lang = "ja".toList then st.postsJa ++ [built.2.1] else st.postsJa,
    postsEn := if lang = "en".toList then st.postsEn ++ [built.2.1] else st.postsEn }

/-- One pass of the loop `for (const id of ids)`: an id without `<id>.md` is skipped. -/
def processId (env : Env) (locales : Locales) (content : Dir Str) (adScript : Str)
    (st : State) (id : Str) : State :=
  if !Fs.existsFile content (id ++ ".md".toList) then st
  else ["ja".toList, "en".toList].foldl (processLang env locales content adScript id) st

/-- The ids collected from the file names: `files.forEach(...)` into the set `ids`. -/
def collectIds (files : List Str) : List Str :=
  files.foldl
    (fun ids f =>
      if Js.endsWith f ".en.md" then Js.setAdd ids (Path.basename f ".en.md")
      else Js.setAdd ids (Path.basename f ".md"))
    []

/-- The main loop over all ids, from an empty `postsMap` and `usedThumbnails`. -/
def mainLoop (env : Env) (locales : Locales) (content : Dir Str) (adScript : Str)
    (thumbs : Dir Bytes) : State :=
  let files := (Fs.readdir content).filter fun file => Js.endsWith file ".md"
  let ids := collectIds files
  ids.foldl (processId env locales content adScript)
    { store := { thumbs := thumbs, usedThumbnails := [], fetches := 0 },
      output := [], postsJa := [], postsEn := [] }

/-- The cleanup loop: every file of the thumbnail directory that is not in
`usedThumbnails` is unlinked. -/
def cleanupThumbnails (thumbs : Dir Bytes) (usedThumbnails : List Str) : Dir Bytes :=
  (Fs.readdir thumbs).foldl
    (fun d file => if !usedThumbnails.contains file then Fs.unlink d file else d)
    thumbs

/-- The comparator `(a, b) => new Date(b.date) - new Date(a.date)`; a `NaN`
difference is read by `sort` as `0`. -/
def dateCmp (env : Env) (a b : IndexRecord) : Int :=
  match env.dateParse b.date, env.dateParse a.date with
  | some tb, some ta => tb - ta
  | _, _ => 0

/-- What a run leaves behind: the thumbnail directory, the written pages and the two
published lists. -/
structure Result where
  thumbs : Dir Bytes
  output : Dir Str
  blogList : List IndexRecord
  blogListEn : List IndexRecord
deriving DecidableEq, Repr

/-- The whole script: main loop, thumbnail cleanup, sorting and writing of the two
lists. -/
def main (env : Env) (locales : Locales) (content : Dir Str) (adScript : Str)
    (thumbs : Dir Bytes) : Result :=
  let st := mainLoop env locales content adScript thumbs
  { thumbs := cleanupThumbnails st.store.thumbs st.store.usedThumbnails,
    output := st.output,
    blogList := Js.sort (dateCmp env) st.postsJa,
    blogListEn := Js.sort (dateCmp env) st.postsEn }

end BuildBlog

namespace BuildPortfolio

/-- The argument object of `createHtml`. -/
structure PageArgs where
  id : Str
  title : Str
  description : Str
  date : Str
  category : Str
  role : Str
  tech : Str
  tags : TagsRaw
  bodyHtml : Str

/-- Local `safeTitle` of `createHtml`. -/
def safeTitle (a : PageArgs) : Str := escapeHtml a.title

/-- Local `safeDesc` of `createHtml`. -/
def safeDesc (a : PageArgs) : Str := escapeHtml (Js.orElse a.description "")

/-- Local `safeDate` of `createHtml`. -/
def safeDate (a : PageArgs) : Str := escapeHtml (Js.orElse a.date "")

/-- Local `safeCategory` of `createHtml`. -/
def safeCategory (a : PageArgs) : Str := escapeHtml (Js.orElse a.category "")

/-- Local `safeRole` of `createHtml`. -/
def safeRole (a : PageArgs) : Str := escapeHtml (Js.orElse a.role "")

/-- Local `safeTech` of `createHtml`. -/
def safeTech (a : PageArgs) : Str := escapeHtml (Js.orElse a.tech "")

/-- Local `safeTagsArr` of `createHtml`. -/
def safeTagsArr (a : PageArgs) : List Str :=
  match a.tags with
  | .missing => []
  | .array ts => ((ts.map Js.trim).filter Js.truthy).map escapeHtml
  | .string s => (((Js.split ',' (Js.orElse s "")).map Js.trim).filter Js.truthy).map escapeHtml

/-- Local `tagsHtml` of `createHtml`. -/
def tagsHtml (a : PageArgs) : List Seg :=
  if (safeTagsArr a).length ≠ 0 then
    T "<p class=\"work-detail__tags\">"
      ++ joinSegs (T " ") ((safeTagsArr a).map fun t =>
          T "<a class=\"tag\" href=\"../portfolio.html?tag=" ++ S .tags (Js.encodeURIComponent t)
            ++ T "\">" ++ S .tags t ++ T "</a>")
      ++ T "</p>"
  else []

/-- Local `metaText` of `createHtml`: the parts that exist, joined by ` / `. -/
def metaText (a : PageArgs) : List Seg :=
  let metaParts : List (List Seg) :=
    (if Js.truthy (safeDate a) then [S .date (safeDate a)] else [])
      ++ (if Js.truthy (safeCategory a) then [S .category (safeCategory a)] else [])
      ++ (if Js.truthy (safeRole a) then [T "Role: " ++ S .role (safeRole a)] else [])
  joinSegs (T " / ") metaParts

/-- Source `createHtml({...})`, as pieces: the returned template literal. -/
def createHtmlSegs (a : PageArgs) : List Seg :=
  List.flatten [
T "<!doctype html>\n",
    T "<html lang=\"ja\">\n",
    T "  <head prefix=\"og: https://ogp.me/ns#\">\n",
    T "    <meta charset=\"UTF-8\" />\n",
    T "    <title>",
    S .title (safeTitle a),
    T " | PanKUN Portfolio</title>\n",
    T "    <meta name=\"viewport\" content=\"width=device-width, initial-scale=1\" />\n",
    T "    <meta name=\"description\" content=\"",
    S .description (safeDesc a),
    T "\" />\n",
    T "    <meta name=\"view-transition\" content=\"same\">\n",
    T "\n",
    T "    <meta property=\"og:title\" content=\"",
    S .title (safeTitle a),
    T " | PanKUN Portfolio\" />\n",
    T "    <meta property=\"og:description\" content=\"",
    S .description (safeDesc a),
    T "\" />\n",
    T "    <meta property=\"og:type\" content=\"article\" />\n",
    T "    <meta property=\"og:image\" content=\"https://breadmotion.github.io/WebSite/assets/img/ogp.png\" />\n",
    T "    <meta property=\"og:site_name\" content=\"PanKUN\" />\n",
    T "    <meta property=\"og:email\" content=\"pankun.dev@gmail.com\" />\n",
    T "\n",
    T "    <meta name=\"twitter:card\" content=\"summary_large_image\" />\n",
    T "    <meta name=\"twitter:title\" content=\"",
    S .title (safeTitle a),
    T "\" />\n",
    T "    <meta name=\"twitter:description\" content=\"",
    S .description (safeDesc a),
    T "\" />\n",
    T "    <meta name=\"twitter:image\" content=\"https://breadmotion.github.io/WebSite/assets/img/ogp.png\" />\n",
    T "\n",
    T "    <link rel=\"shortcut icon\" href=\"../favicon.ico\">\n",
    T "    <link rel=\"icon\" type=\"image/png\" href=\"../assets/img/favicon-32.png\" sizes=\"32x32\">\n",
    T "    <link rel=\"icon\" type=\"image/png\" href=\"../assets/img/favicon-192.png\" sizes=\"192x192\">\n",
    T "    <link rel=\"apple-touch-icon\" href=\"../assets/img/favicon-192.png\">\n",
    T "\n",
    T "    <link rel=\"stylesheet\" href=\"../assets/css/base.css\" />\n",
    T "    <link rel=\"stylesheet\" href=\"../assets/css/layout.css\" />\n",
    T "    <link rel=\"stylesheet\" href=\"../assets/css/portfolio.css\" />\n",
    T "    <link rel=\"stylesheet\" href=\"../assets/css/transition.css\" />\n",
    T "  </head>\n",
    T "  <body data-page=\"portfolio\">\n",
    T "    <div class=\"page-shell\">\n",
    T "      <main class=\"main-container\">\n",
    T "        <article class=\"work-detail reveal-on-scroll\">\n",
    T "          <header class=\"work-detail__header\">\n",
    T "            <p class=\"work-detail__meta\">",
    metaText a,
    T "</p>\n",
    T "            <h1 class=\"work-detail__title\">",
    S .title (safeTitle a),
    T "</h1>\n",
    T "            ",
    (if Js.truthy (safeDesc a) then T "<p class=\"work-detail__description\">" ++ S .description (safeDesc a) ++ T "</p>" else []),
    T "\n",
    T "            ",
    (if Js.truthy (safeTech a) then T "<p class=\"work-detail__meta\">Tech: " ++ S .tech (safeTech a) ++ T "</p>" else []),
    T "\n",
    T "            ",
    tagsHtml a,
    T "\n",
    T "          </header>\n",
    T "\n",
    T "          <section class=\"work-detail__body markdown-body\">\n",
    S .body a.bodyHtml,
    T "\n",
    T "          </section>\n",
    T "        </article>\n",
    T "      </main>\n",
    T "    </div>\n",
    T "\n",
    T "    <script src=\"../assets/js/layout.js\" defer></script>\n",
    T "    <script src=\"../assets/js/ui.js\"></script>\n",
    T "\n",
    T "    <canvas id=\"menuAnimationCanvas\"></canvas>\n",
    T "    <script src=\"https://cdnjs.cloudflare.com/ajax/libs/p5.js/1.4.0/p5.min.js\"></script>\n",
    T "    <script src=\"../assets/js/particles.js\"></script>\n",
    T "    <script src=\"../assets/js/transition.js\"></script>\n",
    T "  </body>\n",
    T "</html>"]

/-- Source `createHtml({...})`. -/
def createHtml (a : PageArgs) : Str := renderSegs (createHtmlSegs a)

end BuildPortfolio

namespace BuildPortfolio

/-- One element of `works`, an entry of the published list. -/
structure Work where
  id : Str
  title : Str
  date : Str
  category : Str
  role : Str
  description : Str
  tech : Str
  tags : List Str
  thumbnail : Str
  links : List Str
  contentPath : Str
deriving DecidableEq, Repr

/-- The state of the main loop. -/
structure State where
  store : Store
  /-- Files written below `OUTPUT_DIR`, by path relative to `ROOT`. -/
  output : Dir Str
  works : List Work
deriving DecidableEq, Repr

/-- ASCII letters and digits, the class `[a-zA-Z0-9]`. -/
def isAlnum (c : Char) : Bool :=
  let n := c.toNat
  (65 ≤ n && n ≤ 90) || (97 ≤ n && n ≤ 122) || (48 ≤ n && n ≤ 57)

/-- Line terminators, the characters `.` does not match. -/
def isLineTerminator (c : Char) : Bool :=
  let n := c.toNat
  n = 0x0A || n = 0x0D || n = 0x2028 || n = 0x2029

/-- The call `thumbnail.match(/^data:image\/([a-zA-Z0-9]+);base64,(.+)$/)`: the two
captured groups. -/
def matchDataUri (s : Str) : Option (Str × Str) :=
  if Js.startsWith s "data:image/" then
    let rest := s.drop 11
    let subtype := rest.takeWhile isAlnum
    let rest2 := rest.dropWhile isAlnum
    if subtype ≠ [] ∧ Js.startsWith rest2 ";base64," then
      let payload := rest2.drop 8
      if payload ≠ [] ∧ payload.all (fun c => !isLineTerminator c) then some (subtype, payload)
      else none
    else none
  else none

/-- The thumbnail block of the main loop (`if (thumbnail) { try { ... } catch ... }`):
the new value of `thumbnail` and the new store. -/
def resolveThumbnail (env : Env) (id : Str) (thumbnail : Str) (st : Store) : Str × Store :=
  if !Js.truthy thumbnail then (thumbnail, st)
  else if Js.startsWith thumbnail "data:image" then
    match matchDataUri thumbnail with
    | some (subtype, payload) =>
      let ext : Str := if subtype = "jpeg".toList then "jpg" else subtype
      let filename := id ++ ".".toList ++ ext
      ("assets/img/thumbnails/".toList ++ filename,
        { st with
          thumbs := Fs.writeFile st.thumbs filename (env.base64 payload),
          usedThumbnails := Js.setAdd st.usedThumbnails filename })
    | none => (thumbnail, st)
  else if Js.startsWith thumbnail "http" then
    match env.urlPathname thumbnail with
    | none => (thumbnail, st)
    | some pathname =>
      let ext0 := Js.substring (Path.extname pathname) 1
      let ext : Str := if !Js.truthy ext0 then "png" else ext0
      let filename := id ++ ".".toList ++ ext
      match env.fetch st.fetches thumbnail with
      | .ok buffer =>
        ("assets/img/thumbnails/".toList ++ filename,
          { thumbs := Fs.writeFile st.thumbs filename buffer,
            usedThumbnails := Js.setAdd st.usedThumbnails filename,
            fetches := st.fetches + 1 })
      | .notOk _ => (thumbnail, { st with fetches := st.fetches + 1 })
      | .threw => (thumbnail, { st with fetches := st.fetches + 1 })
  else if Js.includes thumbnail "assets/img/thumbnails/" then
    (thumbnail,
      { st with usedThumbnails := Js.setAdd st.usedThumbnails (Path.basename thumbnail) })
  else (thumbnail, st)

/-- The normalisation of `data.tags` in the main loop: an array is kept as it is, a
string is split on commas, trimmed and stripped of empty pieces. -/
def normalizeTags (tagsRaw : TagsRaw) : List Str :=
  match tagsRaw with
  | .missing => []
  | .array ts => ts
  | .string s => if Js.truthy s then ((Js.split ',' s).map Js.trim).filter Js.truthy else []

/-- What one pass of the loop `for (const file of files)` computes before it writes:
the arguments of `createHtml`, the list entry, and the store after the thumbnail
block. -/
def buildPage (env : Env) (content : Dir Str) (file : Str) (store : Store) :
    PageArgs × Work × Store :=
  let id := Path.basename file ".md"
  let raw := Fs.readFile content file
  let parsed := env.matter raw
  let data := parsed.1
  let htmlBody := env.parseDefault parsed.2
  let title := Js.orElse (data.title.getD []) id
  let description := Js.orElse (data.description.getD []) ""
  let date := Js.orElse (data.date.getD []) ""
  let category := Js.orElse (data.category.getD []) ""
  let role := Js.orElse (data.role.getD []) ""
  let tech := Js.orElse (data.tech.getD []) ""
  let resolved := resolveThumbnail env id (Js.orElse (data.thumbnail.getD []) "") store
  let tags := normalizeTags data.tags
  let links := data.links.getD []
  ({ id := id, title := title, description := description, date := date,
     category := category, role := role, tech := tech, tags := .array tags,
     bodyHtml := htmlBody },
   { id := id, title := title, date := date, category := category, role := role,
     description := description, tech := tech, tags := tags, thumbnail := resolved.1,
     links := links, contentPath := "portfolio/".toList ++ id ++ ".html".toList },
   resolved.2)

/-- One pass of the loop `for (const file of files)`. -/
def processFile (env : Env) (content : Dir Str) (st : State) (file : Str) : State :=
  let built := buildPage env content file st.store
  { store := built.2.2,
    output := Fs.writeFile st.output
      ("portfolio/".toList ++ Path.basename file ".md" ++ ".html".toList) (createHtml built.1),
    works := st.works ++ [built.2.1] }

/-- The main loop over all content files, from an empty `works` and
`usedThumbnails`. -/
def mainLoop (env : Env) (content : Dir Str) (thumbs : Dir Bytes) : State :=
  let files := (Fs.readdir content).filter fun f => Js.endsWith f ".md"
  files.foldl (processFile env content)
    { store := { thumbs := thumbs, usedThumbnails := [], fetches := 0 },
      output := [], works := [] }

/-- The comparator `(a, b) => (a.date < b.date ? 1 : -1)`. -/
def dateCmp (a b : Work) : Int := if Js.strLt a.date b.date then 1 else -1

/-- The cleanup loop: every file of the thumbnail directory whose name starts with
`portfolio_` and is not in `usedThumbnails` is unlinked. -/
def cleanupThumbnails (thumbs : Dir Bytes) (usedThumbnails : List Str) : Dir Bytes :=
  (Fs.readdir thumbs).foldl
    (fun d file =>
      if Js.startsWith file "portfolio_" && !usedThumbnails.contains file then Fs.unlink d file
      else d)
    thumbs

/-- What a run leaves behind: the thumbnail directory, the written pages and the
published list. -/
structure Result where
  thumbs : Dir Bytes
  output : Dir Str
  portfolioList : List Work
deriving DecidableEq, Repr

/-- The whole script: main loop, sorting and writing of the list, thumbnail
cleanup. -/
def main (env : Env) (content : Dir Str) (thumbs : Dir Bytes) : Result :=
  let st := mainLoop env content thumbs
  { thumbs := cleanupThumbnails st.store.thumbs st.store.usedThumbnails,
    output := st.output,
    portfolioList := Js.sort dateCmp st.works }

end BuildPortfolio

/-! ### Notions used to state the properties -/

/-- What the page may show of the title and the description outside the
structured-data text: the title HTML-escaped or URL-encoded, the description
HTML-escaped, and in none of these a raw `<`, `>` or `"`. -/
def EscapedSeg (a : BuildBlog.PageArgs) (seg : Seg) : Prop :=
  (seg.origin = .title →
    seg.text = BuildBlog.escapeHtml a.title ∨ seg.text = Js.encodeURIComponent a.title) ∧
  (seg.origin = .description →
    seg.text = BuildBlog.escapeHtml (Js.orElse a.description "")) ∧
  (seg.origin = .title ∨ seg.origin = .description →
    '<' ∉ seg.text ∧ '>' ∉ seg.text ∧ '"' ∉ seg.text)

/-- Every piece of a list is escaped in the sense of `EscapedSeg`. -/
def AllEscaped (a : BuildBlog.PageArgs) (l : List Seg) : Prop := ∀ seg ∈ l, EscapedSeg a seg

/-- Number of the day of a calendar date, counted from 1 January 1970. -/
def dayNumber (d : Nat × Nat × Nat) : Int :=
  Js.dayFromYear d.1 + (Js.daysBeforeMonth d.1 d.2.1 : Int) + (d.2.2 : Int) - 1

/-- The time value of a date-only string, `0` when it is not one. -/
def timeOf (s : Str) : Int :=
  match Js.isoDate? s with
  | some d => Js.utcTime d.1 d.2.1 d.2.2
  | none => 0

/-- The id the main loop derives from a content file name: the name without `.en.md`
when it ends so, else without `.md`. -/
def idOfFile (f : Str) : Str :=
  if Js.endsWith f ".en.md" then Path.basename f ".en.md" else Path.basename f ".md"

/-- The content file names the blog build looks at: the entries ending in `.md`. -/
def blogFiles (content : Dir Str) : List Str :=
  (Fs.readdir content).filter fun file => Js.endsWith file ".md"

/-- The ids of a published blog list, in list order. -/
def indexIds (l : List BuildBlog.IndexRecord) : List Str := l.map fun r => r.id

/-- The extension the thumbnail resolver gives a downloaded file: the extension of
the URL's path without its dot, or `png` when the path has none. -/
def thumbExt (pathname : Str) : Str :=
  if (Path.extname pathname).drop 1 = [] then "png" else (Path.extname pathname).drop 1

/-- The file name the thumbnail resolver gives a downloaded file: `<id>.<ext>`. -/
def thumbFile (id pathname : Str) : Str := id ++ ".".toList ++ thumbExt pathname

/-- An image whose reference begins with `../`, the ones the image hook rewrites. -/
def Inline.isRelative : Inline → Bool
  | .html _ => false
  | .image href _ _ => Js.startsWith href "../"

/-- A document unit that holds an image whose reference begins with `../`. -/
def Block.hasRelativeImage : Block → Bool
  | .inline i => i.isRelative
  | .heading _ content => content.any Inline.isRelative

/-! ### Concrete inputs used by the witnesses and counterexamples -/

namespace Example

/-- A small locale table. -/
def locale : Locale :=
  { lang := "ja", site_title_suffix := " | Blog", share_title := "Share",
    share_label_suffix := " share", breadcrumb_home := "Home", breadcrumb_blog := "Blog",
    back_to_blog := "Back", toc_title := "Contents", related_title := "Related",
    recommended_title := "Recommended", toc_button_label := "Contents",
    toc_button_text := "Contents" }

/-- Front matter with every key absent. -/
def noData : FrontMatter :=
  { title := none, description := none, date := none, category := none, thumbnail := none,
    tags := .missing, recommended := false, role := none, tech := none, links := none }

/-- An environment: no front matter, one image `../a.png` per document, fetches that
succeed, `Date` parsing of date-only strings. -/
def env : Env :=
  { matter := fun raw => (noData, raw)
    lexer := fun _ => [.inline (.image "../a.png" "" "a")]
    slug := fun _ text => text
    parseDefault := fun content => content
    urlPathname := fun _ => some "/a.jpg"
    fetch := fun _ _ => .ok [1, 2, 3]
    base64 := fun _ => [4, 5]
    dateParse := fun s => (Js.isoDate? s).map fun d => Js.utcTime d.1 d.2.1 d.2.2
    getFullYear := fun _ => 2024
    getMonth := fun _ => 5
    getDate := fun _ => 1 }

/-- Page arguments whose title is `<b>`. -/
def pageArgs : BuildBlog.PageArgs :=
  { id := "post", title := "<b>", description := "d", date := "2024-06-01", category := "",
    tags := .array [], bodyHtml := "", tocHtml := "", thumbnail := none, adScript := "",
    locale := locale, lang := "ja", relativePfx := ".." }

/-- The environment `env`, with a front-matter parser that reads the whole file text
as the `date` of the item. -/
def datedEnv : Env :=
  { env with matter := fun raw => ({ noData with date := some raw }, raw) }

/-- Two content files, dated 2024-01-01 and 2024-06-01. -/
def datedContent : Dir Str := [("a.md", "2024-01-01"), ("b.md", "2024-06-01")]

/-- The environment `env`, with a front-matter parser that gives every item the
remote thumbnail `https://example.com/a.jpg`. -/
def thumbEnv : Env :=
  { env with
    matter := fun raw => ({ noData with thumbnail := some "https://example.com/a.jpg" }, raw) }

/-- The environment `thumbEnv`, with fetches that answer `404 Not Found`. -/
def failEnv : Env :=
  { thumbEnv with fetch := fun _ _ => .notOk "Not Found" }

/-- The environment `env`, with documents that hold a heading and a paragraph and no
image. -/
def plainEnv : Env :=
  { env with lexer := fun _ => [.heading 2 [.html "Intro"], .inline (.html "<p>text</p>")] }

/-- One content file `post.md` and no `post.en.md`. -/
def content : Dir Str := [("post.md", "text")]

/-- An empty store. -/
def store : Store := { thumbs := [], usedThumbnails := [], fetches := 0 }

/-- The locale table with `ja` strings only. -/
def locales : Locales := { ja := locale, en := none }

end Example

/-! ### More notions used to state the properties -/

/-- Every piece of a list has the property `P`. -/
def AllSegs (P : Seg → Prop) (l : List Seg) : Prop := ∀ seg ∈ l, P seg

/-- What the blog page may show of the thumbnail: the image URL, or the image URL
JSON-quoted. -/
def ImageSeg (a : BuildBlog.PageArgs) (seg : Seg) : Prop :=
  seg.origin = .thumbnail →
    seg.text = BuildBlog.imageUrl a ∨ seg.text = Js.jsonQuote (BuildBlog.imageUrl a)

/-- The value a metadata string takes with a default, in the specification's words:
the default when the key is missing (or its value empty), the value itself
otherwise. -/
def fieldOr (v : Option Str) (d : Str) : Str :=
  match v with
  | none => d
  | some t => if t = [] then d else t

/-- Tags given as one comma-separated string: split on commas, trimmed, empty pieces
dropped. -/
def tagsOfString (s : Str) : List Str :=
  ((Js.split ',' s).map Js.trim).filter fun t => t ≠ []

/-- The file a thumbnail resolution of the blog build can write for item `id`:
`<id>.<ext>` for a remote thumbnail whose URL parses, none otherwise. -/
def blogThumbTarget (env : Env) (id : Str) (thumbnail : Option Str) : Option Str :=
  match thumbnail with
  | none => none
  | some t => if Js.startsWith t "http" then (env.urlPathname t).map (thumbFile id) else none

/-! ### More concrete inputs -/

namespace Example

/-- The environment `env`, with a front-matter parser that gives every item the tag
array `[" a", ""]`. -/
def paddedTagsEnv : Env :=
  { env with matter := fun raw => ({ noData with tags := .array [" a", ""] }, raw) }

end Example

namespace Example

/-- The environment `env`, with a front-matter parser that gives every item an SVG
data URI as thumbnail. -/
def svgEnv : Env :=
  { env with
    matter := fun raw =>
      ({ noData with thumbnail := some "data:image/svg+xml;base64,AAAA" }, raw) }

/-- The environment `env`, with a front-matter parser that reads the file text as the
file name of a remote thumbnail on `https://example.com/`, and a URL parser that
returns what follows the host. -/
def twoThumbEnv : Env :=
  { env with
    matter := fun raw =>
      ({ noData with thumbnail := some ("https://example.com/".toList ++ raw) }, raw)
    urlPathname := fun url => some (url.drop 19) }

/-- An item `post` whose base file names the thumbnail `a.jpg` and whose English file
names the thumbnail `b.png`. -/
def twoContent : Dir Str := [("post.md", "a.jpg"), ("post.en.md", "b.png")]

end Example

/-- The heading element the heading hook writes for a heading record: its `id`
attribute is the record's id. -/
def headingElement (h : Heading) : Str :=
  "<h" ++ Js.numStr h.level ++ " id=\"" ++ h.id ++ "\">" ++ h.text ++ "</h" ++ Js.numStr h.level
    ++ ">"

/-- The heading records the heading hook emits for a document, in document order,
when the slugger has already been given the texts `hist`. -/
def headingsFrom (env : Env) (pfx : Str) : List Str → List Block → List Heading
  | _, [] => []
  | hist, .inline _ :: rest => headingsFrom env pfx hist rest
  | hist, .heading level content :: rest =>
    { level := level, text := content.flatMap (BuildBlog.renderInline pfx),
      id := env.slug hist (content.flatMap (BuildBlog.renderInline pfx)) }
      :: headingsFrom env pfx (hist ++ [content.flatMap (BuildBlog.renderInline pfx)]) rest

/-- The texts of the headings of a document, in document order. -/
def headingTexts (pfx : Str) : List Block → List Str
  | [] => []
  | .inline _ :: rest => headingTexts pfx rest
  | .heading _ content :: rest =>
    content.flatMap (BuildBlog.renderInline pfx) :: headingTexts pfx rest

/-- The body of a document whose heading elements are written from the given heading
records, one record per heading in document order. -/
def bodyFrom (pfx : Str) : List Block → List Heading → Str
  | [], _ => []
  | .inline i :: rest, hs => BuildBlog.renderInline pfx i ++ bodyFrom pfx rest hs
  | .heading _ _ :: rest, h :: hs => headingElement h ++ bodyFrom pfx rest hs
  | .heading _ _ :: rest, [] => bodyFrom pfx rest []

/-- The slugs one slugger returns for the texts `texts`, asked in order, when it has
already been given the texts `hist`. -/
def slugsFrom (env : Env) : List Str → List Str → List Str
  | _, [] => []
  | hist, t :: ts => env.slug hist t :: slugsFrom env (hist ++ [t]) ts

/-- The parsed document of the variant `lang` of item `id`. -/
def documentOf (env : Env) (content : Dir Str) (id lang : Str) : List Block :=
  env.lexer (env.matter (Fs.readFile content (BuildBlog.sourcePath content id lang))).2

namespace Example

/-- The environment `env`, with documents that hold the heading `Intro` twice and a
slugger that answers its `n`-th call with `n` letters `x`. -/
def countEnv : Env :=
  { env with
    lexer := fun _ =>
      [.heading 2 [.html "Intro"], .inline (.html "<p>text</p>"), .heading 3 [.html "Intro"]]
    slug := fun hist _ => List.replicate (hist.length + 1) 'x' }

end Example
/-! ## The scroll spy of `assets/js/toc.js` -/

namespace Toc

/-- A `DOMRect`, as far as the scroll spy reads it: its `top`, in pixels.  The callback
only compares tops, so whole numbers stand for them. -/
structure Rect where
  top : Int
deriving DecidableEq

/-- A heading element, as far as the scroll spy reads it: its `id`, the rectangle
`getBoundingClientRect()` returns, and its property `boundingClientRect`, which the
callback reads on the element it holds; the DOM gives elements no such property, so
it is `none` (`undefined`) unless a page script has set one. -/
structure Element where
  id : Str
  getBoundingClientRect : Rect
  boundingClientRect : Option Rect
deriving DecidableEq

/-- An `IntersectionObserverEntry`, as far as the callback reads it. -/
structure Entry where
  isIntersecting : Bool
  boundingClientRect : Rect
  target : Element
deriving DecidableEq

/-- One round of `for (const entry of entries)` in the observer callback, on the
variable `activeHeading`. -/
def visit (activeHeading : Option Element) (entry : Entry) : Option Element :=
  if entry.isIntersecting then
    match activeHeading with
    | none => some entry.target
    | some active =>
      match active.boundingClientRect with
      | none => some entry.target
      | some rect =>
        if entry.boundingClientRect.top < rect.top then some entry.target else some active
  else activeHeading

/-- The first loop of the observer callback, from `let activeHeading = null`. -/
def visibleHeading (entries : List Entry) : Option Element :=
  entries.foldl visit none

/-- The second loop of the observer callback: `i` runs from `headings.length - 1` down
to `0` and stops at the first heading whose `getBoundingClientRect().top` is below
zero. -/
def passedHeading (headings : List Element) : Option Element :=
  headings.reverse.find? fun h => decide (h.getBoundingClientRect.top < 0)

/-- The value of `activeHeading` when the observer callback updates the links. -/
def activeHeading (headings : List Element) (entries : List Entry) : Option Element :=
  match visibleHeading entries with
  | some active => some active
  | none => passedHeading headings

/-- Local `isActive` of the link update: `activeHeading` is set and the `href` of the
link is `#` followed by its id. -/
def isActive (activeHeading : Option Element) (href : Option Str) : Bool :=
  match activeHeading with
  | none => false
  | some active => decide (href = some ("#".toList ++ active.id))

end Toc

/-! ### Function `decodeURIComponent` of the JavaScript library -/

/-- The hexadecimal value of a digit character. -/
def Js.hexVal (c : Char) : Option Nat :=
  let n := c.toNat
  if 48 ≤ n ∧ n ≤ 57 then some (n - 48)
  else if 65 ≤ n ∧ n ≤ 70 then some (n - 55)
  else if 97 ≤ n ∧ n ≤ 102 then some (n - 87)
  else none

/-- What `decodeURIComponent` reads: a character that stands for itself, or the octet
of an escape `%XX`. -/
inductive Js.UriToken where
  | lit (c : Char)
  | octet (b : Nat)
deriving DecidableEq

/-- The characters and escapes of a string; `none` when a `%` is not followed by two
hexadecimal digits (`URIError`). -/
def Js.uriTokens : Str → Option (List Js.UriToken)
  | [] => some []
  | c :: rest =>
    if c = '%' then
      match rest with
      | a :: b :: rest2 =>
        match Js.hexVal a, Js.hexVal b, Js.uriTokens rest2 with
        | some x, some y, some ts => some (.octet (16 * x + y) :: ts)
        | _, _, _ => none
      | _ => none
    else
      match Js.uriTokens rest with
      | some ts => some (.lit c :: ts)
      | none => none

/-- The code point a sequence of octets encodes in UTF-8; `none` when the octets are
not the UTF-8 encoding of a code point a string can hold. -/
def Js.utf8Char (lead : Nat) (cont : List Nat) : Option Char :=
  let n : Nat :=
    match cont with
    | [] => lead
    | [a] => (lead - 0xC0) * 64 + (a - 0x80)
    | [a, b] => (lead - 0xE0) * 4096 + (a - 0x80) * 64 + (b - 0x80)
    | [a, b, c] => (lead - 0xF0) * 262144 + (a - 0x80) * 4096 + (b - 0x80) * 64 + (c - 0x80)
    | _ => 0x110000
  if n.isValidChar ∧ Js.utf8Bytes n = lead :: cont then some (Char.ofNat n) else none

/-- The number of octets that follow a leading octet in UTF-8. -/
def Js.utf8Following (lead : Nat) : Option Nat :=
  if lead < 0x80 then some 0
  else if lead < 0xC0 then none
  else if lead < 0xE0 then some 1
  else if lead < 0xF0 then some 2
  else if lead < 0xF8 then some 3
  else none

/-- The octets of the first `n` tokens, which must all be escapes, and the tokens
after them. -/
def Js.takeOctets : Nat → List Js.UriToken → Option (List Nat × List Js.UriToken)
  | 0, ts => some ([], ts)
  | n + 1, .octet b :: ts =>
    match Js.takeOctets n ts with
    | some (bs, rest) => some (b :: bs, rest)
    | none => none
  | _ + 1, _ => none

/-- The string a token sequence stands for, reading at most `fuel` tokens. -/
def Js.decodeTokens : Nat → List Js.UriToken → Option Str
  | _, [] => some []
  | 0, _ :: _ => none
  | fuel + 1, .lit c :: ts =>
    match Js.decodeTokens fuel ts with
    | some s => some (c :: s)
    | none => none
  | fuel + 1, .octet b :: ts =>
    match Js.utf8Following b with
    | none => none
    | some n =>
      match Js.takeOctets n ts with
      | none => none
      | some (bs, rest) =>
        match Js.utf8Char b bs, Js.decodeTokens fuel rest with
        | some c, some s => some (c :: s)
        | _, _ => none

/-- Function `decodeURIComponent`; `none` is a `URIError`. -/
def Js.decodeURIComponent (s : Str) : Option Str :=
  match Js.uriTokens s with
  | some ts => Js.decodeTokens ts.length ts
  | none => none

/-! ### Notions used to state the scroll-spy and tag-link properties -/

/-- The intersecting entries of a batch, in batch order. -/
def Toc.intersecting (entries : List Toc.Entry) : List Toc.Entry :=
  entries.filter fun e => e.isIntersecting

/-- The topmost of a list of entries, in the words of the property: the one with the
smallest `boundingClientRect.top` (the first such one when several share it). -/
def Toc.topmost : List Toc.Entry → Option Toc.Entry
  | [] => none
  | e :: rest =>
    match Toc.topmost rest with
    | none => some e
    | some m => if m.boundingClientRect.top < e.boundingClientRect.top then some m else some e

/-- The tokens `decodeURIComponent` reads from the encoding of a character. -/
def encodedTokens (c : Char) : List Js.UriToken :=
  if Js.isUriUnreserved c then [.lit c] else (Js.utf8Bytes c.toNat).map .octet

/-- The values of the query parameter `tag` in the links of a page: after each `?tag=`,
the text up to the closing quote of the attribute. -/
def tagQueryValues : Str → List Str
  | [] => []
  | c :: rest =>
    if Js.startsWith (c :: rest) "?tag=" then
      (rest.drop 4).takeWhile (fun x => x != '"') :: tagQueryValues rest
    else tagQueryValues rest

namespace Example

/-- A visible heading, 10 pixels below the top of the viewport. -/
def first : Toc.Element :=
  { id := "first", getBoundingClientRect := { top := 10 }, boundingClientRect := none }

/-- A visible heading, 50 pixels below the top of the viewport. -/
def second : Toc.Element :=
  { id := "second", getBoundingClientRect := { top := 50 }, boundingClientRect := none }

/-- The batch in which both headings intersect, in document order. -/
def bothVisible : List Toc.Entry :=
  [{ isIntersecting := true, boundingClientRect := { top := 10 }, target := first },
   { isIntersecting := true, boundingClientRect := { top := 50 }, target := second }]

/-- The environment `env`, with a front-matter parser that gives every item the one
tag `a&b`. -/
def ampEnv : Env :=
  { env with matter := fun raw => ({ noData with tags := .array ["a&b"] }, raw) }

end Example

/-! ### Notions used to state the image-reference and escaping properties -/

/-- The number of directory levels a reference climbs: its leading `../` segments. -/
def parentLevels : Str → Nat
  | '.' :: '.' :: '/' :: rest => parentLevels rest + 1
  | _ => 0

/-- Local `src` of the image hook: the value of the `src` attribute it writes. -/
def imageSrc (relativePfx href : Str) : Str :=
  if Js.truthy href && Js.startsWith href "../" then
    relativePfx ++ "/" ++ Js.substring href 3
  else href

namespace Example

/-- A content directory whose only file is `c.en.md`. -/
def enNamedContent : Dir Str := [("c.en.md", "text")]

/-- A content directory with the files `c.en.en.md`, `c.en.md` and `a.md`. -/
def mixedContent : Dir Str := [("c.en.en.md", "text"), ("c.en.md", "text"), ("a.md", "text")]

end Example

/-- What a piece in a text or attribute position shows of the title and of the
description: the HTML-escaped title, the HTML-escaped description. -/
def HtmlEscapedSeg (a : BuildBlog.PageArgs) (seg : Seg) : Prop :=
  (seg.origin = .title → seg.text = BuildBlog.escapeHtml a.title) ∧
  (seg.origin = .description → seg.text = BuildBlog.escapeHtml (Js.orElse a.description ""))

/-- Whether a piece is computed neither from the title nor from the description. -/
def otherOrigin (seg : Seg) : Bool :=
  seg.origin != .title && seg.origin != .description

/-! ## Theorems -/

theorem escapeHtml_blog_eq_spec (s : Str) : BuildBlog.escapeHtml s = escapeHtmlSpec s := by
  induction s with
  | nil => rfl
  | cons c rest ih =>
    have hstep : BuildBlog.escapeHtml (c :: rest)
        = BuildBlog.escapeHtml [c] ++ BuildBlog.escapeHtml rest := by
      simp [BuildBlog.escapeHtml, List.flatMap_cons]
    rw [hstep, ih]
    show _ = _ ++ escapeHtmlSpec rest
    congr 1
    by_cases h1 : c = '&'
    · subst h1; decide
    by_cases h2 : c = '<'
    · subst h2; decide
    by_cases h3 : c = '>'
    · subst h3; decide
    by_cases h4 : c = '"'
    · subst h4; decide
    simp [BuildBlog.escapeHtml, escapeClass, h1, h2, h3, h4]

theorem escapeHtml_portfolio_eq_spec (s : Str) :
    BuildPortfolio.escapeHtml s = escapeHtmlSpec s := by
  induction s with
  | nil => rfl
  | cons c rest ih =>
    have hstep : BuildPortfolio.escapeHtml (c :: rest)
        = BuildPortfolio.escapeHtml [c] ++ BuildPortfolio.escapeHtml rest := by
      simp [BuildPortfolio.escapeHtml, List.flatMap_cons]
    rw [hstep, ih]
    show _ = _ ++ escapeHtmlSpec rest
    congr 1
    by_cases h1 : c = '&'
    · subst h1; decide
    by_cases h2 : c = '<'
    · subst h2; decide
    by_cases h3 : c = '>'
    · subst h3; decide
    by_cases h4 : c = '"'
    · subst h4; decide
    simp [BuildPortfolio.escapeHtml, escapeClass, h1, h2, h3, h4]

theorem escapeHtmlSpec_mem (s : Str) (x : Char) (hx : x ∈ escapeHtmlSpec s) :
    x ≠ '<' ∧ x ≠ '>' ∧ x ≠ '"' := by
  induction s with
  | nil => simp [escapeHtmlSpec] at hx
  | cons c rest ih =>
    simp only [escapeHtmlSpec, List.mem_append] at hx
    rcases hx with hx | hx
    · split_ifs at hx with h1 h2 h3 h4
      · exact (by decide : ∀ x ∈ "&amp;".toList, x ≠ '<' ∧ x ≠ '>' ∧ x ≠ '"') x hx
      · exact (by decide : ∀ x ∈ "&lt;".toList, x ≠ '<' ∧ x ≠ '>' ∧ x ≠ '"') x hx
      · exact (by decide : ∀ x ∈ "&gt;".toList, x ≠ '<' ∧ x ≠ '>' ∧ x ≠ '"') x hx
      · exact (by decide : ∀ x ∈ "&quot;".toList, x ≠ '<' ∧ x ≠ '>' ∧ x ≠ '"') x hx
      · simp only [List.mem_singleton] at hx
        subst hx
        exact ⟨h2, h3, h4⟩
    · exact ih hx

theorem escapeHtml_blog_mem (s : Str) (x : Char) (hx : x ∈ BuildBlog.escapeHtml s) :
    x ≠ '<' ∧ x ≠ '>' ∧ x ≠ '"' := by
  rw [escapeHtml_blog_eq_spec] at hx
  exact escapeHtmlSpec_mem s x hx

theorem foldl_append_eq {α : Type} (f : α → Str) (l : List α) (init : Str) :
    l.foldl (fun acc a => acc ++ f a) init = init ++ (l.map f).flatten := by
  induction l generalizing init with
  | nil => simp
  | cons a l ih => simp [ih, List.append_assoc]

/-- C3: both `escapeHtml` implementations compute the entity replacement of the
specification (`&`, `<`, `>`, `"` replaced, every other character kept in order), they
agree on every input, and the output contains no `<`, `>` or `"`. -/
theorem escapeHtml_correct (s : Str) :
    BuildBlog.escapeHtml s = escapeHtmlSpec s ∧
    BuildPortfolio.escapeHtml s = escapeHtmlSpec s ∧
    BuildBlog.escapeHtml s = BuildPortfolio.escapeHtml s ∧
    '<' ∉ BuildBlog.escapeHtml s ∧ '>' ∉ BuildBlog.escapeHtml s ∧
    '"' ∉ BuildBlog.escapeHtml s := by
  refine ⟨escapeHtml_blog_eq_spec s, escapeHtml_portfolio_eq_spec s, ?_, ?_, ?_, ?_⟩
  · rw [escapeHtml_blog_eq_spec, escapeHtml_portfolio_eq_spec]
  · intro h; exact (escapeHtml_blog_mem s _ h).1 rfl
  · intro h; exact (escapeHtml_blog_mem s _ h).2.1 rfl
  · intro h; exact (escapeHtml_blog_mem s _ h).2.2 rfl

/-- C1: `createTocHtml` is the empty string when no heading has level 2 or 3, and
otherwise one `<ul class="toc-list">` holding, in input order, exactly one entry per
heading of level 2 or 3 (an anchor to `#id` inside an item of class
`toc-item--level-<level>`); other levels contribute nothing. -/
theorem createTocHtml_entries (hs : List Heading) (locale : Locale) :
    BuildBlog.createTocHtml hs locale =
      (if (tocHeadings hs).isEmpty then []
       else "<ul class=\"toc-list\">".toList ++ ((tocHeadings hs).map tocEntry).flatten
         ++ "</ul>".toList) ∧
    ((tocHeadings hs).map tocEntry).length
      = (hs.filter fun h => h.level = 2 || h.level = 3).length ∧
    (∀ h ∈ tocHeadings hs, h ∈ hs ∧ (h.level = 2 ∨ h.level = 3)) ∧
    List.Sublist (tocHeadings hs) hs := by
  refine ⟨?_, by simp [tocHeadings], ?_, List.filter_sublist _⟩
  · unfold BuildBlog.createTocHtml
    by_cases h0 : hs.length = 0
    · have : hs = [] := List.length_eq_zero.mp h0
      subst this
      simp [tocHeadings]
    · rw [if_neg h0]
      show (if (tocHeadings hs).length = 0 then _ else _) = _
      by_cases h1 : (tocHeadings hs).length = 0
      · have : tocHeadings hs = [] := List.length_eq_zero.mp h1
        simp [this]
      · have hne : tocHeadings hs ≠ [] := fun h => h1 (by simp [h])
        rw [if_neg h1]
        have : (tocHeadings hs).isEmpty = false := by
          cases hh : tocHeadings hs with
          | nil => exact absurd hh hne
          | cons a l => rfl
        rw [this]
        simp only [Bool.false_eq_true, if_false]
        show List.foldl (fun acc a => acc ++ tocEntry a) _ (tocHeadings hs) ++ _ = _
        rw [foldl_append_eq]
  · intro h hh
    simp only [tocHeadings, List.mem_filter, Bool.or_eq_true, decide_eq_true_eq] at hh
    exact hh


/-! ### Escaping of title and description in the blog page -/

theorem hexUpper_ne (n : Nat) :
    Js.hexUpper n ≠ '<' ∧ Js.hexUpper n ≠ '>' ∧ Js.hexUpper n ≠ '"' := by
  by_cases h : n < 16
  · exact (by decide : ∀ n : Nat, n < 16 → Js.hexUpper n ≠ '<' ∧ Js.hexUpper n ≠ '>'
        ∧ Js.hexUpper n ≠ '"') n h
  · have : Js.hexUpper n = '0' := by
      unfold Js.hexUpper
      exact List.getD_eq_default _ _ (by simpa using h)
    rw [this]; decide

theorem encodeURIChar_mem (c x : Char) (hx : x ∈ Js.encodeURIChar c) :
    x ≠ '<' ∧ x ≠ '>' ∧ x ≠ '"' := by
  unfold Js.encodeURIChar at hx
  split_ifs at hx with hu
  · simp only [List.mem_singleton] at hx
    subst hx
    refine ⟨?_, ?_, ?_⟩ <;> (intro h; subst h; revert hu; decide)
  · simp only [List.mem_flatMap, Js.percentByte] at hx
    obtain ⟨b, _, hb⟩ := hx
    simp only [List.mem_cons, List.mem_singleton, List.not_mem_nil, or_false] at hb
    rcases hb with h | h | h
    · subst h; decide
    · subst h; exact hexUpper_ne _
    · subst h; exact hexUpper_ne _

theorem encodeURIComponent_mem (s : Str) (x : Char) (hx : x ∈ Js.encodeURIComponent s) :
    x ≠ '<' ∧ x ≠ '>' ∧ x ≠ '"' := by
  simp only [Js.encodeURIComponent, List.mem_flatMap] at hx
  obtain ⟨c, _, hc⟩ := hx
  exact encodeURIChar_mem c x hc

theorem allEscaped_nil (a : BuildBlog.PageArgs) : AllEscaped a [] := by
  intro seg h; simp at h

theorem allEscaped_append (a : BuildBlog.PageArgs) (l₁ l₂ : List Seg) :
    AllEscaped a (l₁ ++ l₂) ↔ AllEscaped a l₁ ∧ AllEscaped a l₂ := by
  simp only [AllEscaped, List.mem_append]
  constructor
  · intro h; exact ⟨fun s hs => h s (Or.inl hs), fun s hs => h s (Or.inr hs)⟩
  · rintro ⟨h1, h2⟩ s (hs | hs)
    · exact h1 s hs
    · exact h2 s hs

theorem allEscaped_flatten_cons (a : BuildBlog.PageArgs) (l : List Seg) (ls : List (List Seg)) :
    AllEscaped a (List.flatten (l :: ls)) ↔ AllEscaped a l ∧ AllEscaped a (List.flatten ls) := by
  rw [List.flatten_cons, allEscaped_append]

theorem allEscaped_flatten_nil (a : BuildBlog.PageArgs) :
    AllEscaped a (List.flatten ([] : List (List Seg))) := by
  simpa using allEscaped_nil a

theorem allEscaped_T (a : BuildBlog.PageArgs) (s : Str) : AllEscaped a (T s) := by
  intro seg h
  simp only [T, List.mem_singleton] at h
  subst h
  refine ⟨?_, ?_, ?_⟩ <;> simp

theorem allEscaped_S (a : BuildBlog.PageArgs) (o : Origin) (s : Str)
    (ho : o ≠ .title ∧ o ≠ .description) : AllEscaped a (S o s) := by
  intro seg h
  simp only [S, List.mem_singleton] at h
  subst h
  refine ⟨fun h => absurd h ho.1, fun h => absurd h ho.2, ?_⟩
  rintro (h | h)
  · exact absurd h ho.1
  · exact absurd h ho.2

theorem allEscaped_safeTitle (a : BuildBlog.PageArgs) :
    AllEscaped a (S .title (BuildBlog.safeTitle a)) := by
  intro seg h
  simp only [S, List.mem_singleton] at h
  subst h
  refine ⟨fun _ => Or.inl rfl, fun h => by simp at h, fun _ => ?_⟩
  exact ⟨fun h => (escapeHtml_blog_mem _ _ h).1 rfl, fun h => (escapeHtml_blog_mem _ _ h).2.1 rfl,
    fun h => (escapeHtml_blog_mem _ _ h).2.2 rfl⟩

theorem allEscaped_encodedTitle (a : BuildBlog.PageArgs) :
    AllEscaped a (S .title (Js.encodeURIComponent a.title)) := by
  intro seg h
  simp only [S, List.mem_singleton] at h
  subst h
  refine ⟨fun _ => Or.inr rfl, fun h => by simp at h, fun _ => ?_⟩
  exact ⟨fun h => (encodeURIComponent_mem _ _ h).1 rfl,
    fun h => (encodeURIComponent_mem _ _ h).2.1 rfl,
    fun h => (encodeURIComponent_mem _ _ h).2.2 rfl⟩

theorem allEscaped_safeDesc (a : BuildBlog.PageArgs) :
    AllEscaped a (S .description (BuildBlog.safeDesc a)) := by
  intro seg h
  simp only [S, List.mem_singleton] at h
  subst h
  refine ⟨fun h => by simp at h, fun _ => rfl, fun _ => ?_⟩
  exact ⟨fun h => (escapeHtml_blog_mem _ _ h).1 rfl, fun h => (escapeHtml_blog_mem _ _ h).2.1 rfl,
    fun h => (escapeHtml_blog_mem _ _ h).2.2 rfl⟩

theorem allEscaped_joinSegs (a : BuildBlog.PageArgs) (sep : List Seg) (ls : List (List Seg))
    (hsep : AllEscaped a sep) (hls : ∀ l ∈ ls, AllEscaped a l) :
    AllEscaped a (joinSegs sep ls) := by
  induction ls with
  | nil => exact allEscaped_nil a
  | cons x rest ih =>
    cases rest with
    | nil => simpa [joinSegs] using hls x (by simp)
    | cons y rest =>
      rw [joinSegs, allEscaped_append, allEscaped_append]
      exact ⟨⟨hls x (by simp), hsep⟩, ih (fun l hl => hls l (List.mem_cons_of_mem _ hl))⟩

theorem allEscaped_tagsHtml (a : BuildBlog.PageArgs) : AllEscaped a (BuildBlog.tagsHtml a) := by
  unfold BuildBlog.tagsHtml
  by_cases hlen : (BuildBlog.safeTagsArr a).length ≠ 0
  swap
  · rw [if_neg hlen]; exact allEscaped_nil a
  · rw [if_pos hlen, allEscaped_append, allEscaped_append]
    refine ⟨⟨allEscaped_T _ _, allEscaped_joinSegs a _ _ (allEscaped_T _ _) ?_⟩,
      allEscaped_T _ _⟩
    intro l hl
    simp only [List.mem_map] at hl
    obtain ⟨t, _, rfl⟩ := hl
    simp only [allEscaped_append]
    repeat' constructor
    all_goals first
      | exact allEscaped_T _ _
      | exact allEscaped_S _ _ _ (by decide)

theorem allEscaped_shareButtons (a : BuildBlog.PageArgs) :
    AllEscaped a (BuildBlog.shareButtonsHtml a) := by
  unfold BuildBlog.shareButtonsHtml BuildBlog.createShareButtonsSegs
  simp only [List.flatMap_cons, List.flatMap_nil, allEscaped_flatten_cons,
    allEscaped_append, List.append_nil]
  repeat' constructor
  all_goals first
    | exact allEscaped_T _ _
    | exact allEscaped_flatten_nil _
    | exact allEscaped_encodedTitle _
    | exact allEscaped_S _ _ _ (by decide)

theorem allEscaped_before (a : BuildBlog.PageArgs) :
    AllEscaped a (BuildBlog.segsBeforeJsonLd a) := by
  unfold BuildBlog.segsBeforeJsonLd
  simp only [allEscaped_flatten_cons, allEscaped_append]
  repeat' constructor
  all_goals first
    | exact allEscaped_T _ _
    | exact allEscaped_flatten_nil _
    | exact allEscaped_safeTitle _
    | exact allEscaped_safeDesc _
    | exact allEscaped_S _ _ _ (by decide)

theorem allEscaped_after (env : Env) (a : BuildBlog.PageArgs) :
    AllEscaped a (BuildBlog.segsAfterJsonLd env a) := by
  unfold BuildBlog.segsAfterJsonLd
  simp only [allEscaped_flatten_cons, allEscaped_append]
  repeat' constructor
  all_goals first
    | exact allEscaped_T _ _
    | exact allEscaped_flatten_nil _
    | exact allEscaped_safeTitle _
    | exact allEscaped_safeDesc _
    | exact allEscaped_tagsHtml _
    | exact allEscaped_shareButtons _
    | exact allEscaped_S _ _ _ (by decide)
    | (split_ifs
       · simp only [allEscaped_append]
         repeat' constructor
         all_goals first
           | exact allEscaped_T _ _
           | exact allEscaped_safeDesc _
           | exact allEscaped_S _ _ _ (by decide)
       · exact allEscaped_nil _)

theorem jsonQuote_keeps_angle (s : Str) (c : Char) (hc : c = '<' ∨ c = '>') (hs : c ∈ s) :
    c ∈ Js.jsonQuote s := by
  unfold Js.jsonQuote
  simp only [List.mem_append, List.mem_flatMap]
  refine Or.inl (Or.inr ⟨c, hs, ?_⟩)
  rcases hc with h | h <;> (subst h; decide)

theorem jsonLdSegs_title_description (a : BuildBlog.PageArgs) :
    ∀ seg ∈ BuildBlog.jsonLdSegs a,
      (seg.origin = .title → seg.text = Js.jsonQuote a.title) ∧
      (seg.origin = .description → seg.text = Js.jsonQuote (Js.orElse a.description "")) := by
  simp only [BuildBlog.jsonLdSegs, BuildBlog.jsonLd, Js.stringify, Js.stringifyFields,
    Js.stringifyItems, T, S, List.forall_mem_append, List.forall_mem_singleton,
    List.append_nil]
  simp

set_option maxRecDepth 100000 in
/-- C2 as stated fails: for the title `<b>` the page holds, outside the body section,
a piece computed from the title with raw `<` and `>`, the `headline` of the
structured-data text. -/
theorem createHtml_raw_title_in_jsonLd :
    (∃ seg ∈ BuildBlog.createHtmlSegs Example.env Example.pageArgs,
      seg.origin = Origin.title ∧ seg.text = "\"<b>\"".toList ∧ '<' ∈ seg.text ∧ '>' ∈ seg.text) ∧
    Js.includes (BuildBlog.createHtml Example.env Example.pageArgs)
      "  \"headline\": \"<b>\",\n" = true := by
  constructor
  · decide
  · decide

/-! ### Sorting of the published lists -/

theorem sortInsert_perm {α : Type} (cmp : α → α → Int) (x : α) (l : List α) :
    (Js.sortInsert cmp x l).Perm (x :: l) := by
  induction l with
  | nil => exact List.Perm.refl _
  | cons y ys ih =>
    unfold Js.sortInsert
    split_ifs
    · exact List.Perm.refl _
    · exact (List.Perm.cons y ih).trans (List.Perm.swap x y ys)

theorem sort_perm {α : Type} (cmp : α → α → Int) (l : List α) : (Js.sort cmp l).Perm l := by
  induction l with
  | nil => exact List.Perm.refl _
  | cons x xs ih =>
    unfold Js.sort
    exact (sortInsert_perm cmp x _).trans (List.Perm.cons x ih)

theorem sortInsert_pairwise {α : Type} (cmp : α → α → Int) (key : α → Int) (x : α)
    (l : List α) (hx : ∀ b ∈ l, (cmp x b ≤ 0 ↔ key b ≤ key x))
    (hl : l.Pairwise fun a b => key b ≤ key a) :
    (Js.sortInsert cmp x l).Pairwise fun a b => key b ≤ key a := by
  induction l with
  | nil => simp [Js.sortInsert]
  | cons y ys ih =>
    unfold Js.sortInsert
    have hy := List.pairwise_cons.mp hl
    split_ifs with hc
    · refine List.pairwise_cons.mpr ⟨?_, hl⟩
      intro b hb
      have hyx : key y ≤ key x := (hx y (by simp)).mp hc
      rcases List.mem_cons.mp hb with rfl | hb
      · exact hyx
      · exact le_trans (hy.1 b hb) hyx
    · refine List.pairwise_cons.mpr ⟨?_, ih (fun b hb => hx b (List.mem_cons_of_mem _ hb)) hy.2⟩
      intro b hb
      have hxy : key x ≤ key y := by
        have := (hx y (by simp)).not.mp hc
        omega
      rcases List.mem_cons.mp ((sortInsert_perm cmp x ys).subset hb) with rfl | hb
      · exact hxy
      · exact hy.1 b hb

theorem sort_pairwise {α : Type} (cmp : α → α → Int) (key : α → Int) (l : List α)
    (h : ∀ a ∈ l, ∀ b ∈ l, (cmp a b ≤ 0 ↔ key b ≤ key a)) :
    (Js.sort cmp l).Pairwise fun a b => key b ≤ key a := by
  induction l with
  | nil => simp [Js.sort]
  | cons x xs ih =>
    unfold Js.sort
    apply sortInsert_pairwise
    · intro b hb
      exact h x (by simp) b (List.mem_cons_of_mem _ ((sort_perm cmp xs).subset hb))
    · exact ih fun a ha b hb => h a (List.mem_cons_of_mem _ ha) b (List.mem_cons_of_mem _ hb)

theorem isoDate_inv (s : Str) (d : Nat × Nat × Nat) (h : Js.isoDate? s = some d) :
    ∃ y1 y2 y3 y4 m1 m2 d1 d2 : Char,
      s = [y1, y2, y3, y4, '-', m1, m2, '-', d1, d2] ∧
      (Js.isDigit y1 ∧ Js.isDigit y2 ∧ Js.isDigit y3 ∧ Js.isDigit y4 ∧ Js.isDigit m1
        ∧ Js.isDigit m2 ∧ Js.isDigit d1 ∧ Js.isDigit d2) ∧
      d = (1000 * Js.digitVal y1 + 100 * Js.digitVal y2 + 10 * Js.digitVal y3 + Js.digitVal y4,
        10 * Js.digitVal m1 + Js.digitVal m2, 10 * Js.digitVal d1 + Js.digitVal d2) ∧
      (1 ≤ d.2.1 ∧ d.2.1 ≤ 12 ∧ 1 ≤ d.2.2 ∧ d.2.2 ≤ Js.daysInMonth d.1 d.2.1) := by
  unfold Js.isoDate? at h
  split at h
  · rename_i y1 y2 y3 y4 s1 m1 m2 s2 d1 d2
    split at h
    · rename_i h1
      dsimp only at h
      split at h
      · rename_i h2
        simp only [Option.some.injEq] at h
        obtain ⟨hs1, hs2, hd⟩ := h1
        subst hs1 hs2
        exact ⟨y1, y2, y3, y4, m1, m2, d1, d2, rfl, hd, h.symm, by rw [← h]; exact h2⟩
      · exact absurd h (by simp)
    · exact absurd h (by simp)
  · exact absurd h (by simp)

theorem isoDate_bounds (s : Str) (d : Nat × Nat × Nat) (h : Js.isoDate? s = some d) :
    1 ≤ d.2.1 ∧ d.2.1 ≤ 12 ∧ 1 ≤ d.2.2 ∧ d.2.2 ≤ Js.daysInMonth d.1 d.2.1 := by
  obtain ⟨_, _, _, _, _, _, _, _, _, _, _, hb⟩ := isoDate_inv s d h
  exact hb

theorem utf16_digit (c : Char) (h : Js.isDigit c = true) : Js.utf16 c = [c.toNat] := by
  unfold Js.isDigit at h
  simp only [Bool.and_eq_true, decide_eq_true_eq] at h
  unfold Js.utf16
  rw [if_pos (by omega)]

theorem unitsLt_cons (a b : Nat) (as bs : List Nat) :
    Js.unitsLt (a :: as) (b :: bs) = true ↔ a < b ∨ (a = b ∧ Js.unitsLt as bs = true) := by
  show (if a < b then true else if b < a then false else Js.unitsLt as bs) = true ↔ _
  split_ifs with h1 h2
  · simp [h1]
  · simp; omega
  · have : a = b := by omega
    subst this
    simp

theorem unitsLt_nil : Js.unitsLt [] [] = true ↔ False := by
  simp [Js.unitsLt]

theorem unitsLt_iso (a1 a2 a3 a4 a5 a6 a7 a8 b1 b2 b3 b4 b5 b6 b7 b8 : Nat)
    (ha : a1 ≤ 9 ∧ a2 ≤ 9 ∧ a3 ≤ 9 ∧ a4 ≤ 9 ∧ a5 ≤ 9 ∧ a6 ≤ 9 ∧ a7 ≤ 9 ∧ a8 ≤ 9)
    (hb : b1 ≤ 9 ∧ b2 ≤ 9 ∧ b3 ≤ 9 ∧ b4 ≤ 9 ∧ b5 ≤ 9 ∧ b6 ≤ 9 ∧ b7 ≤ 9 ∧ b8 ≤ 9) :
    Js.unitsLt [48 + a1, 48 + a2, 48 + a3, 48 + a4, 45, 48 + a5, 48 + a6, 45, 48 + a7, 48 + a8]
        [48 + b1, 48 + b2, 48 + b3, 48 + b4, 45, 48 + b5, 48 + b6, 45, 48 + b7, 48 + b8]
        = true ↔
      Js.dateOlder
        (1000 * a1 + 100 * a2 + 10 * a3 + a4, 10 * a5 + a6, 10 * a7 + a8)
        (1000 * b1 + 100 * b2 + 10 * b3 + b4, 10 * b5 + b6, 10 * b7 + b8) := by
  simp only [unitsLt_cons, unitsLt_nil, Js.dateOlder, lt_self_iff_false, false_or, true_and,
    and_false, or_false, Nat.add_lt_add_iff_left, Nat.add_left_cancel_iff]
  constructor <;> intro h <;> omega

theorem digit_toNat (c : Char) (h : Js.isDigit c = true) :
    c.toNat = 48 + Js.digitVal c ∧ Js.digitVal c ≤ 9 := by
  unfold Js.isDigit at h
  simp only [Bool.and_eq_true, decide_eq_true_eq] at h
  unfold Js.digitVal
  omega

theorem strLt_iso (s t : Str) (a b : Nat × Nat × Nat) (hs : Js.isoDate? s = some a)
    (ht : Js.isoDate? t = some b) : Js.strLt s t = true ↔ Js.dateOlder a b := by
  obtain ⟨y1, y2, y3, y4, m1, m2, d1, d2, rfl, hd, rfl, _⟩ := isoDate_inv s a hs
  obtain ⟨z1, z2, z3, z4, n1, n2, e1, e2, rfl, he, rfl, _⟩ := isoDate_inv t b ht
  obtain ⟨h1, h2, h3, h4, h5, h6, h7, h8⟩ := hd
  obtain ⟨k1, k2, k3, k4, k5, k6, k7, k8⟩ := he
  have hdash : Js.utf16 '-' = [45] := by decide
  have hcu : ∀ (c1 c2 c3 c4 c5 c6 c7 c8 : Char), Js.isDigit c1 = true → Js.isDigit c2 = true →
      Js.isDigit c3 = true → Js.isDigit c4 = true → Js.isDigit c5 = true →
      Js.isDigit c6 = true → Js.isDigit c7 = true → Js.isDigit c8 = true →
      Js.codeUnits [c1, c2, c3, c4, '-', c5, c6, '-', c7, c8]
        = [48 + Js.digitVal c1, 48 + Js.digitVal c2, 48 + Js.digitVal c3, 48 + Js.digitVal c4,
            45, 48 + Js.digitVal c5, 48 + Js.digitVal c6, 45, 48 + Js.digitVal c7,
            48 + Js.digitVal c8] := by
    intro c1 c2 c3 c4 c5 c6 c7 c8 g1 g2 g3 g4 g5 g6 g7 g8
    simp only [Js.codeUnits, List.flatMap_cons, List.flatMap_nil, utf16_digit _ g1,
      utf16_digit _ g2, utf16_digit _ g3, utf16_digit _ g4, utf16_digit _ g5, utf16_digit _ g6,
      utf16_digit _ g7, utf16_digit _ g8, hdash, List.singleton_append, List.append_nil,
      (digit_toNat _ g1).1, (digit_toNat _ g2).1, (digit_toNat _ g3).1, (digit_toNat _ g4).1,
      (digit_toNat _ g5).1, (digit_toNat _ g6).1, (digit_toNat _ g7).1, (digit_toNat _ g8).1]
  unfold Js.strLt
  rw [hcu _ _ _ _ _ _ _ _ h1 h2 h3 h4 h5 h6 h7 h8, hcu _ _ _ _ _ _ _ _ k1 k2 k3 k4 k5 k6 k7 k8]
  have r := fun c h => (digit_toNat c h).2
  exact unitsLt_iso _ _ _ _ _ _ _ _ _ _ _ _ _ _ _ _
    ⟨r _ h1, r _ h2, r _ h3, r _ h4, r _ h5, r _ h6, r _ h7, r _ h8⟩
    ⟨r _ k1, r _ k2, r _ k3, r _ k4, r _ k5, r _ k6, r _ k7, r _ k8⟩

theorem daysBeforeMonth_succ (y m : Nat) (hm : 1 ≤ m) :
    Js.daysBeforeMonth y (m + 1) = Js.daysBeforeMonth y m + Js.daysInMonth y m := by
  unfold Js.daysBeforeMonth
  obtain ⟨k, rfl⟩ : ∃ k, m = k + 1 := ⟨m - 1, by omega⟩
  simp [List.range_succ]

theorem daysBeforeMonth_mono (y m k : Nat) (hm : 1 ≤ m) :
    Js.daysBeforeMonth y (m + 1) ≤ Js.daysBeforeMonth y (m + 1 + k) := by
  induction k with
  | zero => exact le_refl _
  | succ k ih =>
    have := daysBeforeMonth_succ y (m + 1 + k) (by omega)
    have e : m + 1 + (k + 1) = m + 1 + k + 1 := by omega
    rw [e, this]
    omega

theorem daysBeforeMonth_13 (y : Nat) :
    Js.daysBeforeMonth y 13 = if Js.isLeap y then 366 else 365 := by
  unfold Js.daysBeforeMonth
  by_cases h : Js.isLeap y = true
  · simp [List.range_succ, Js.daysInMonth, h]
  · simp [List.range_succ, Js.daysInMonth, h]

theorem dayFromYear_succ (y : Nat) :
    Js.dayFromYear (y + 1) = Js.dayFromYear y + (if Js.isLeap y then 366 else 365) := by
  unfold Js.dayFromYear Js.isLeap
  simp only [Bool.or_eq_true, Bool.and_eq_true, decide_eq_true_eq, ne_eq]
  push_cast
  split_ifs with h <;> omega

theorem dayFromYear_mono (y k : Nat) : Js.dayFromYear (y + 1) ≤ Js.dayFromYear (y + 1 + k) := by
  induction k with
  | zero => exact le_refl _
  | succ k ih =>
    have := dayFromYear_succ (y + 1 + k)
    have e : y + 1 + (k + 1) = y + 1 + k + 1 := by omega
    rw [e, this]
    split_ifs <;> omega

theorem utcTime_eq (d : Nat × Nat × Nat) : Js.utcTime d.1 d.2.1 d.2.2 = dayNumber d * 86400000 :=
  rfl

theorem dayNumber_lt (a b : Nat × Nat × Nat)
    (ha : 1 ≤ a.2.1 ∧ a.2.1 ≤ 12 ∧ 1 ≤ a.2.2 ∧ a.2.2 ≤ Js.daysInMonth a.1 a.2.1)
    (hb : 1 ≤ b.2.1 ∧ b.2.1 ≤ 12 ∧ 1 ≤ b.2.2 ∧ b.2.2 ≤ Js.daysInMonth b.1 b.2.1)
    (h : Js.dateOlder a b) : dayNumber a < dayNumber b := by
  obtain ⟨y, m, d⟩ := a
  obtain ⟨y', m', d'⟩ := b
  simp only [Js.dateOlder, dayNumber] at *
  have hstep := daysBeforeMonth_succ y m ha.1
  rcases h with hy | ⟨rfl, hm | ⟨rfl, hd⟩⟩
  · -- an earlier year
    obtain ⟨k, rfl⟩ : ∃ k, y' = y + 1 + k := ⟨y' - (y + 1), by omega⟩
    have h1 := dayFromYear_mono y k
    have h2 := dayFromYear_succ y
    have h3 := daysBeforeMonth_13 y
    have h4 : Js.daysBeforeMonth y (m + 1) ≤ Js.daysBeforeMonth y 13 := by
      obtain ⟨j, hj⟩ : ∃ j, 13 = m + 1 + j := ⟨12 - m, by omega⟩
      rw [hj]; exact daysBeforeMonth_mono y m j ha.1
    split_ifs at h2 h3 <;> omega
  · -- the same year, an earlier month
    obtain ⟨k, rfl⟩ : ∃ k, m' = m + 1 + k := ⟨m' - (m + 1), by omega⟩
    have h1 := daysBeforeMonth_mono y m k ha.1
    omega
  · omega

theorem dateOlder_trichotomy (a b : Nat × Nat × Nat) :
    Js.dateOlder a b ∨ a = b ∨ Js.dateOlder b a := by
  obtain ⟨y, m, d⟩ := a
  obtain ⟨y', m', d'⟩ := b
  simp only [Js.dateOlder, Prod.mk.injEq]
  omega

theorem utcTime_lt_iff (s t : Str) (a b : Nat × Nat × Nat) (hs : Js.isoDate? s = some a)
    (ht : Js.isoDate? t = some b) :
    Js.utcTime a.1 a.2.1 a.2.2 < Js.utcTime b.1 b.2.1 b.2.2 ↔ Js.dateOlder a b := by
  have ha := isoDate_bounds s a hs
  have hb := isoDate_bounds t b ht
  rw [utcTime_eq, utcTime_eq]
  constructor
  · intro h
    rcases dateOlder_trichotomy a b with h1 | h1 | h1
    · exact h1
    · subst h1; omega
    · have := dayNumber_lt b a hb ha h1
      omega
  · intro h
    have := dayNumber_lt a b ha hb h
    omega

theorem isoOlder_iff (s t : Str) (a b : Nat × Nat × Nat) (hs : Js.isoDate? s = some a)
    (ht : Js.isoDate? t = some b) : Js.isoOlder s t ↔ Js.dateOlder a b := by
  unfold Js.isoOlder
  rw [hs, ht]

theorem timeOf_le_iff (s t : Str) (hs : (Js.isoDate? s).isSome) (ht : (Js.isoDate? t).isSome) :
    timeOf t ≤ timeOf s ↔ ¬ Js.isoOlder s t := by
  obtain ⟨a, ha⟩ := Option.isSome_iff_exists.mp hs
  obtain ⟨b, hb⟩ := Option.isSome_iff_exists.mp ht
  rw [isoOlder_iff s t a b ha hb, ← utcTime_lt_iff s t a b ha hb]
  simp only [timeOf, ha, hb]
  omega

theorem sort_by_date {α : Type} (date : α → Str) (cmp : α → α → Int) (l : List α)
    (hvalid : ∀ a ∈ l, (Js.isoDate? (date a)).isSome)
    (hcmp : ∀ a ∈ l, ∀ b ∈ l, (cmp a b ≤ 0 ↔ ¬ Js.isoOlder (date a) (date b))) :
    (Js.sort cmp l).Perm l ∧
    (Js.sort cmp l).Pairwise (fun a b => ¬ Js.isoOlder (date a) (date b)) ∧
    (Js.sort cmp l).Chain' (fun a b => ¬ Js.isoOlder (date a) (date b)) := by
  have hperm := sort_perm cmp l
  have hkey := sort_pairwise cmp (fun a => timeOf (date a)) l (fun a ha b hb => by
    rw [hcmp a ha b hb, timeOf_le_iff _ _ (hvalid a ha) (hvalid b hb)])
  have hpw : (Js.sort cmp l).Pairwise (fun a b => ¬ Js.isoOlder (date a) (date b)) := by
    refine (List.Pairwise.and_mem.mp hkey).imp ?_
    rintro a b ⟨ha, hb, hab⟩
    exact (timeOf_le_iff _ _ (hvalid a (hperm.subset ha)) (hvalid b (hperm.subset hb))).mp hab
  exact ⟨hperm, hpw, hpw.chain'⟩

theorem blog_dateCmp_iff (env : Env)
    (hparse : ∀ s d, Js.isoDate? s = some d → env.dateParse s = some (Js.utcTime d.1 d.2.1 d.2.2))
    (a b : BuildBlog.IndexRecord) (ha : (Js.isoDate? a.date).isSome)
    (hb : (Js.isoDate? b.date).isSome) :
    BuildBlog.dateCmp env a b ≤ 0 ↔ ¬ Js.isoOlder a.date b.date := by
  obtain ⟨x, hx⟩ := Option.isSome_iff_exists.mp ha
  obtain ⟨y, hy⟩ := Option.isSome_iff_exists.mp hb
  rw [isoOlder_iff _ _ x y hx hy, ← utcTime_lt_iff _ _ x y hx hy]
  simp only [BuildBlog.dateCmp, hparse _ _ hx, hparse _ _ hy]
  omega

theorem portfolio_dateCmp_iff (a b : BuildPortfolio.Work) (ha : (Js.isoDate? a.date).isSome)
    (hb : (Js.isoDate? b.date).isSome) :
    BuildPortfolio.dateCmp a b ≤ 0 ↔ ¬ Js.isoOlder a.date b.date := by
  obtain ⟨x, hx⟩ := Option.isSome_iff_exists.mp ha
  obtain ⟨y, hy⟩ := Option.isSome_iff_exists.mp hb
  rw [isoOlder_iff _ _ x y hx hy, ← strLt_iso _ _ x y hx hy]
  unfold BuildPortfolio.dateCmp
  split_ifs with h <;> simp [h]

/-- C4: when `Date` parses date-only strings as ECMAScript prescribes and every
accumulated record carries a valid `YYYY-MM-DD` date, each published list (blog ja,
blog en, portfolio) is a permutation of the accumulated records in which no record is
older than a later one, in particular not older than the next one. -/
theorem index_sorted_by_date (env : Env) (locales : Locales) (content : Dir Str)
    (adScript : Str) (thumbs : Dir Bytes) (pcontent : Dir Str) (pthumbs : Dir Bytes)
    (hparse : ∀ s d, Js.isoDate? s = some d → env.dateParse s = some (Js.utcTime d.1 d.2.1 d.2.2))
    (hblog : ∀ r ∈ (BuildBlog.mainLoop env locales content adScript thumbs).postsJa
      ++ (BuildBlog.mainLoop env locales content adScript thumbs).postsEn,
      (Js.isoDate? r.date).isSome)
    (hport : ∀ w ∈ (BuildPortfolio.mainLoop env pcontent pthumbs).works,
      (Js.isoDate? w.date).isSome) :
    ((BuildBlog.main env locales content adScript thumbs).blogList.Perm
        (BuildBlog.mainLoop env locales content adScript thumbs).postsJa ∧
      (BuildBlog.main env locales content adScript thumbs).blogList.Pairwise
        (fun a b => ¬ Js.isoOlder a.date b.date) ∧
      (BuildBlog.main env locales content adScript thumbs).blogList.Chain'
        (fun a b => ¬ Js.isoOlder a.date b.date)) ∧
    ((BuildBlog.main env locales content adScript thumbs).blogListEn.Perm
        (BuildBlog.mainLoop env locales content adScript thumbs).postsEn ∧
      (BuildBlog.main env locales content adScript thumbs).blogListEn.Pairwise
        (fun a b => ¬ Js.isoOlder a.date b.date) ∧
      (BuildBlog.main env locales content adScript thumbs).blogListEn.Chain'
        (fun a b => ¬ Js.isoOlder a.date b.date)) ∧
    ((BuildPortfolio.main env pcontent pthumbs).portfolioList.Perm
        (BuildPortfolio.mainLoop env pcontent pthumbs).works ∧
      (BuildPortfolio.main env pcontent pthumbs).portfolioList.Pairwise
        (fun a b => ¬ Js.isoOlder a.date b.date) ∧
      (BuildPortfolio.main env pcontent pthumbs).portfolioList.Chain'
        (fun a b => ¬ Js.isoOlder a.date b.date)) := by
  refine ⟨?_, ?_, ?_⟩
  · exact sort_by_date (fun r => r.date) _ _
      (fun a ha => hblog a (List.mem_append_left _ ha))
      (fun a ha b hb => blog_dateCmp_iff env hparse a b (hblog a (List.mem_append_left _ ha))
        (hblog b (List.mem_append_left _ hb)))
  · exact sort_by_date (fun r => r.date) _ _
      (fun a ha => hblog a (List.mem_append_right _ ha))
      (fun a ha b hb => blog_dateCmp_iff env hparse a b (hblog a (List.mem_append_right _ ha))
        (hblog b (List.mem_append_right _ hb)))
  · exact sort_by_date (fun w => w.date) _ _ hport
      (fun a ha b hb => portfolio_dateCmp_iff a b (hport a ha) (hport b hb))

set_option maxRecDepth 100000 in
/-- Witness for C4: two items dated 2024-01-01 and 2024-06-01; every list puts the
item of 2024-06-01 first. -/
theorem index_sorted_by_date_witness :
    (((BuildBlog.main Example.datedEnv ⟨Example.locale, none⟩ Example.datedContent [] []).blogList.Perm
        (BuildBlog.mainLoop Example.datedEnv ⟨Example.locale, none⟩ Example.datedContent [] []).postsJa ∧
      (BuildBlog.main Example.datedEnv ⟨Example.locale, none⟩ Example.datedContent [] []).blogList.Pairwise
        (fun a b => ¬ Js.isoOlder a.date b.date) ∧
      (BuildBlog.main Example.datedEnv ⟨Example.locale, none⟩ Example.datedContent [] []).blogList.Chain'
        (fun a b => ¬ Js.isoOlder a.date b.date)) ∧
    ((BuildBlog.main Example.datedEnv ⟨Example.locale, none⟩ Example.datedContent [] []).blogListEn.Perm
        (BuildBlog.mainLoop Example.datedEnv ⟨Example.locale, none⟩ Example.datedContent [] []).postsEn ∧
      (BuildBlog.main Example.datedEnv ⟨Example.locale, none⟩ Example.datedContent [] []).blogListEn.Pairwise
        (fun a b => ¬ Js.isoOlder a.date b.date) ∧
      (BuildBlog.main Example.datedEnv ⟨Example.locale, none⟩ Example.datedContent [] []).blogListEn.Chain'
        (fun a b => ¬ Js.isoOlder a.date b.date)) ∧
    ((BuildPortfolio.main Example.datedEnv Example.datedContent []).portfolioList.Perm
        (BuildPortfolio.mainLoop Example.datedEnv Example.datedContent []).works ∧
      (BuildPortfolio.main Example.datedEnv Example.datedContent []).portfolioList.Pairwise
        (fun a b => ¬ Js.isoOlder a.date b.date) ∧
      (BuildPortfolio.main Example.datedEnv Example.datedContent []).portfolioList.Chain'
        (fun a b => ¬ Js.isoOlder a.date b.date))) ∧
    (BuildBlog.main Example.datedEnv ⟨Example.locale, none⟩ Example.datedContent [] []).blogList.map
        (fun r => r.date) = ["2024-06-01".toList, "2024-01-01".toList] ∧
    (BuildBlog.main Example.datedEnv ⟨Example.locale, none⟩ Example.datedContent [] []).blogListEn.map
        (fun r => r.date) = ["2024-06-01".toList, "2024-01-01".toList] ∧
    (BuildPortfolio.main Example.datedEnv Example.datedContent []).portfolioList.map
        (fun r => r.date) = ["2024-06-01".toList, "2024-01-01".toList] :=
  ⟨index_sorted_by_date Example.datedEnv ⟨Example.locale, none⟩ Example.datedContent [] []
      Example.datedContent []
      (by intro s d h; simp [Example.datedEnv, Example.env, h])
      (by decide) (by decide),
    by decide, by decide, by decide⟩

/-! ### The ids of the published blog lists -/

theorem setAdd_nodup (s : List Str) (x : Str) (h : s.Nodup) : (Js.setAdd s x).Nodup := by
  unfold Js.setAdd
  split_ifs with hx
  · exact h
  · exact List.nodup_append.mpr ⟨h, List.nodup_singleton x, by
      intro a ha hb
      simp only [List.mem_singleton] at hb
      subst hb
      exact hx ha⟩

theorem mem_setAdd (s : List Str) (x y : Str) : y ∈ Js.setAdd s x ↔ y ∈ s ∨ y = x := by
  unfold Js.setAdd
  split_ifs with hx
  · constructor
    · exact Or.inl
    · rintro (h | rfl)
      · exact h
      · exact hx
  · simp

theorem collectIds_eq (files : List Str) :
    BuildBlog.collectIds files = files.foldl (fun ids f => Js.setAdd ids (idOfFile f)) [] := by
  unfold BuildBlog.collectIds
  congr 1
  funext ids f
  unfold idOfFile
  split_ifs <;> rfl

theorem foldl_setAdd_nodup (g : Str → Str) (files : List Str) (init : List Str)
    (h : init.Nodup) : (files.foldl (fun ids f => Js.setAdd ids (g f)) init).Nodup := by
  induction files generalizing init with
  | nil => exact h
  | cons f rest ih => exact ih _ (setAdd_nodup _ _ h)

theorem mem_foldl_setAdd (g : Str → Str) (files : List Str) (init : List Str) (y : Str) :
    y ∈ files.foldl (fun ids f => Js.setAdd ids (g f)) init ↔ y ∈ init ∨ ∃ f ∈ files, g f = y := by
  induction files generalizing init with
  | nil => simp
  | cons f rest ih =>
    simp only [List.foldl_cons, ih, mem_setAdd, List.mem_cons, exists_eq_or_imp]
    constructor
    · rintro ((h | h) | h)
      · exact Or.inl h
      · exact Or.inr (Or.inl h.symm)
      · exact Or.inr (Or.inr h)
    · rintro (h | h | h)
      · exact Or.inl (Or.inl h)
      · exact Or.inl (Or.inr h.symm)
      · exact Or.inr h

theorem collectIds_nodup (files : List Str) : (BuildBlog.collectIds files).Nodup := by
  rw [collectIds_eq]
  exact foldl_setAdd_nodup _ _ _ List.nodup_nil

theorem mem_collectIds (files : List Str) (id : Str) :
    id ∈ BuildBlog.collectIds files ↔ ∃ f ∈ files, idOfFile f = id := by
  rw [collectIds_eq, mem_foldl_setAdd]
  simp

theorem processLang_ja (env : Env) (locales : Locales) (content : Dir Str) (adScript : Str)
    (id : Str) (st : BuildBlog.State) :
    (BuildBlog.processLang env locales content adScript id st "ja".toList).postsJa
      = st.postsJa ++ [(BuildBlog.buildPage env locales content adScript id "ja".toList st.store).2.1] ∧
    (BuildBlog.processLang env locales content adScript id st "ja".toList).postsEn = st.postsEn ∧
    (BuildBlog.processLang env locales content adScript id st "ja".toList).store
      = (BuildBlog.buildPage env locales content adScript id "ja".toList st.store).2.2 := by
  refine ⟨?_, ?_, rfl⟩
  · dsimp only [BuildBlog.processLang]
    rw [if_pos rfl]
  · dsimp only [BuildBlog.processLang]
    rw [if_neg (by decide : ¬ "ja".toList = "en".toList)]

theorem processLang_en (env : Env) (locales : Locales) (content : Dir Str) (adScript : Str)
    (id : Str) (st : BuildBlog.State) :
    (BuildBlog.processLang env locales content adScript id st "en".toList).postsEn
      = st.postsEn ++ [(BuildBlog.buildPage env locales content adScript id "en".toList st.store).2.1] ∧
    (BuildBlog.processLang env locales content adScript id st "en".toList).postsJa = st.postsJa ∧
    (BuildBlog.processLang env locales content adScript id st "en".toList).store
      = (BuildBlog.buildPage env locales content adScript id "en".toList st.store).2.2 := by
  refine ⟨?_, ?_, rfl⟩
  · dsimp only [BuildBlog.processLang]
    rw [if_pos rfl]
  · dsimp only [BuildBlog.processLang]
    rw [if_neg (by decide : ¬ "en".toList = "ja".toList)]

theorem buildPage_id (env : Env) (locales : Locales) (content : Dir Str) (adScript : Str)
    (id lang : Str) (store : Store) :
    (BuildBlog.buildPage env locales content adScript id lang store).2.1.id = id := rfl

theorem processId_of_exists (env : Env) (locales : Locales) (content : Dir Str)
    (adScript : Str) (st : BuildBlog.State) (id : Str)
    (h : Fs.existsFile content (id ++ ".md".toList) = true) :
    BuildBlog.processId env locales content adScript st id
      = BuildBlog.processLang env locales content adScript id
          (BuildBlog.processLang env locales content adScript id st "ja".toList) "en".toList := by
  unfold BuildBlog.processId
  rw [h]
  rfl

theorem processId_of_missing (env : Env) (locales : Locales) (content : Dir Str)
    (adScript : Str) (st : BuildBlog.State) (id : Str)
    (h : Fs.existsFile content (id ++ ".md".toList) = false) :
    BuildBlog.processId env locales content adScript st id = st := by
  unfold BuildBlog.processId
  rw [h]
  rfl

theorem processId_posts (env : Env) (locales : Locales) (content : Dir Str) (adScript : Str)
    (st : BuildBlog.State) (id : Str) :
    ((BuildBlog.processId env locales content adScript st id).postsJa.map (fun r => r.id)
      = st.postsJa.map (fun r => r.id)
        ++ (if Fs.existsFile content (id ++ ".md".toList) then [id] else [])) ∧
    ((BuildBlog.processId env locales content adScript st id).postsEn.map (fun r => r.id)
      = st.postsEn.map (fun r => r.id)
        ++ (if Fs.existsFile content (id ++ ".md".toList) then [id] else [])) := by
  cases h : Fs.existsFile content (id ++ ".md".toList) with
  | true =>
    rw [processId_of_exists _ _ _ _ _ _ h]
    rw [(processLang_en _ _ _ _ _ _).1, (processLang_en _ _ _ _ _ _).2.1,
      (processLang_ja _ _ _ _ _ _).1, (processLang_ja _ _ _ _ _ _).2.1]
    simp [buildPage_id]
  | false =>
    rw [processId_of_missing _ _ _ _ _ _ h]
    simp

theorem foldl_processId_posts (env : Env) (locales : Locales) (content : Dir Str)
    (adScript : Str) (ids : List Str) (st : BuildBlog.State) :
    ((ids.foldl (BuildBlog.processId env locales content adScript) st).postsJa.map
        (fun r => r.id)
      = st.postsJa.map (fun r => r.id)
        ++ ids.filter (fun id => Fs.existsFile content (id ++ ".md".toList))) ∧
    ((ids.foldl (BuildBlog.processId env locales content adScript) st).postsEn.map
        (fun r => r.id)
      = st.postsEn.map (fun r => r.id)
        ++ ids.filter (fun id => Fs.existsFile content (id ++ ".md".toList))) := by
  induction ids generalizing st with
  | nil => simp
  | cons id rest ih =>
    have hp := processId_posts env locales content adScript st id
    have := ih (BuildBlog.processId env locales content adScript st id)
    simp only [List.foldl_cons]
    rw [this.1, this.2, hp.1, hp.2, List.filter_cons]
    cases h : Fs.existsFile content (id ++ ".md".toList)
    all_goals simp only [h, Bool.false_eq_true, if_true, if_false, List.append_nil,
      List.append_assoc, List.singleton_append, and_self]

theorem mainLoop_ids (env : Env) (locales : Locales) (content : Dir Str) (adScript : Str)
    (thumbs : Dir Bytes) :
    ((BuildBlog.mainLoop env locales content adScript thumbs).postsJa.map (fun r => r.id)
      = (BuildBlog.collectIds (blogFiles content)).filter
          (fun id => Fs.existsFile content (id ++ ".md".toList))) ∧
    ((BuildBlog.mainLoop env locales content adScript thumbs).postsEn.map (fun r => r.id)
      = (BuildBlog.collectIds (blogFiles content)).filter
          (fun id => Fs.existsFile content (id ++ ".md".toList))) := by
  unfold BuildBlog.mainLoop
  have := foldl_processId_posts env locales content adScript
    (BuildBlog.collectIds (blogFiles content))
    { store := { thumbs := thumbs, usedThumbnails := [], fetches := 0 },
      output := [], postsJa := [], postsEn := [] }
  simpa [blogFiles] using this

theorem existsFile_iff {α : Type} (d : Dir α) (name : Str) :
    Fs.existsFile d name = true ↔ name ∈ Fs.readdir d := by
  unfold Fs.existsFile
  simp

theorem lastPortion_of_no_slash (p : Str) (h : '/' ∉ p) : Path.lastPortion p = p := by
  unfold Path.lastPortion
  have h1 : (p.reverse.dropWhile fun c => decide (c = '/')) = p.reverse := by
    cases hp : p.reverse with
    | nil => rfl
    | cons c cs =>
      have hc : c ≠ '/' := by
        intro hc; apply h; rw [← List.mem_reverse, hp, hc]; simp
      simp [List.dropWhile, hc]
  have h2 : (p.reverse.takeWhile fun c => decide (c ≠ '/')) = p.reverse := by
    rw [List.takeWhile_eq_self_iff]
    intro c hc
    have : c ≠ '/' := by
      intro e; apply h; rw [← List.mem_reverse, ← e]; exact hc
    simpa using this
  simp only [h1, List.reverse_reverse, h2]

theorem idOfFile_base (id : Str) (hslash : '/' ∉ id) (hen : Js.endsWith id ".en" = false) :
    idOfFile (id ++ ".md".toList) = id := by
  have hnot : Js.endsWith (id ++ ".md".toList) ".en.md".toList = false := by
    have : Js.endsWith (id ++ ".md".toList) (".en".toList ++ ".md".toList)
        = Js.endsWith id ".en".toList := by
      unfold Js.endsWith
      apply Bool.eq_iff_iff.mpr
      simp only [List.isSuffixOf_iff_suffix]
      constructor
      · rintro ⟨t, ht⟩
        rw [← List.append_assoc] at ht
        exact ⟨t, List.append_cancel_right ht⟩
      · rintro ⟨t, ht⟩
        exact ⟨t, by rw [← List.append_assoc, ht]⟩
    have e : ".en.md".toList = ".en".toList ++ ".md".toList := by decide
    rw [e, this]
    exact hen
  have hslash2 : '/' ∉ id ++ ".md".toList := by
    simp only [List.mem_append, not_or]
    exact ⟨hslash, by decide⟩
  unfold idOfFile
  rw [if_neg (by rw [hnot]; simp)]
  unfold Path.basename
  rw [lastPortion_of_no_slash _ hslash2]
  have hlen : (".md".toList).length ≤ (id ++ ".md".toList).length := by simp
  have hne : (".md" : String).toList ≠ [] := by decide
  rw [if_pos ⟨hne, hlen⟩]
  by_cases hid : id = []
  · subst hid; rfl
  · have h1 : ¬ (".md".toList = id ++ ".md".toList) := by
      intro e
      have := congrArg List.length e
      simp only [List.length_append] at this
      have : id.length = 0 := by omega
      exact hid (List.length_eq_zero.mp this)
    rw [if_neg h1]
    have h2 : Js.endsWith (id ++ ".md".toList) ".md".toList = true := by
      unfold Js.endsWith
      simp [List.isSuffixOf_iff_suffix]
    rw [if_pos ⟨h2, fun e => h1 e.symm⟩]
    simp


/-! ### The thumbnail resolver -/

theorem map_write_cons {α : Type} (k : Str) (v : α) (rest : Dir α) (name : Str) (data : α) :
    List.map (fun f : Str × α => if f.1 = name then (name, data) else f) ((k, v) :: rest)
      = (if k = name then (name, data) else (k, v))
        :: List.map (fun f : Str × α => if f.1 = name then (name, data) else f) rest := rfl

theorem lookup_append_new {α : Type} (l : Dir α) (name : Str) (data : α)
    (hl : name ∉ Fs.readdir l) : (l ++ [(name, data)]).lookup name = some data := by
  induction l with
  | nil => simp [List.lookup]
  | cons e rest ih =>
    obtain ⟨k, v⟩ := e
    simp only [Fs.readdir, List.map_cons, List.mem_cons, not_or] at hl
    have hbeq : (name == k) = false := by
      simp only [beq_eq_false_iff_ne, ne_eq]
      exact hl.1
    rw [List.cons_append, List.lookup_cons, hbeq]
    exact ih hl.2

theorem lookup_writeFile_self {α : Type} (d : Dir α) (name : Str) (data : α) :
    (Fs.writeFile d name data).lookup name = some data := by
  unfold Fs.writeFile
  split_ifs with h
  · rw [existsFile_iff] at h
    induction d with
    | nil => simp [Fs.readdir] at h
    | cons e rest ih =>
      obtain ⟨k, v⟩ := e
      rw [map_write_cons]
      by_cases hk : k = name
      · rw [if_pos hk, List.lookup_cons, beq_self_eq_true]
      · have hmem : name ∈ Fs.readdir rest := by
          simp only [Fs.readdir, List.map_cons, List.mem_cons] at h
          rcases h with h | h
          · exact absurd h.symm hk
          · exact h
        have hbeq : (name == k) = false := by
          simp only [beq_eq_false_iff_ne, ne_eq]
          exact fun e => hk e.symm
        rw [if_neg hk, List.lookup_cons, hbeq]
        exact ih hmem
  · apply lookup_append_new
    rw [← existsFile_iff]
    exact h

theorem lookup_writeFile_other {α : Type} (d : Dir α) (name other : Str) (data : α)
    (hne : other ≠ name) : (Fs.writeFile d name data).lookup other = d.lookup other := by
  have hbeq : (other == name) = false := by
    simp only [beq_eq_false_iff_ne, ne_eq]; exact hne
  unfold Fs.writeFile
  split_ifs with h
  · clear h
    induction d with
    | nil => rfl
    | cons e rest ih =>
      obtain ⟨k, v⟩ := e
      rw [map_write_cons]
      by_cases hk : k = name
      · rw [if_pos hk, List.lookup_cons, hbeq, List.lookup_cons, hk, hbeq]
        exact ih
      · rw [if_neg hk, List.lookup_cons, List.lookup_cons]
        cases (other == k)
        · exact ih
        · rfl
  · clear h
    induction d with
    | nil => rw [List.nil_append, List.lookup_cons, hbeq]
    | cons e rest ih =>
      obtain ⟨k, v⟩ := e
      rw [List.cons_append, List.lookup_cons, List.lookup_cons]
      cases (other == k)
      · exact ih
      · rfl

theorem readdir_writeFile {α : Type} (d : Dir α) (name : Str) (data : α) :
    Fs.readdir (Fs.writeFile d name data)
      = if name ∈ Fs.readdir d then Fs.readdir d else Fs.readdir d ++ [name] := by
  unfold Fs.writeFile
  by_cases h : name ∈ Fs.readdir d
  · rw [if_pos ((existsFile_iff _ _).mpr h), if_pos h]
    unfold Fs.readdir
    rw [List.map_map]
    apply List.map_congr_left
    intro e _
    simp only [Function.comp]
    split_ifs with hk
    · exact hk.symm
    · rfl
  · have : ¬ Fs.existsFile d name = true := fun e => h ((existsFile_iff _ _).mp e)
    rw [if_neg this, if_neg h]
    simp [Fs.readdir]

theorem mem_setAdd_self (s : List Str) (x : Str) : x ∈ Js.setAdd s x :=
  (mem_setAdd s x x).mpr (Or.inr rfl)

theorem startsWith_http_truthy (t : Str) (h : Js.startsWith t "http" = true) :
    Js.truthy t = true := by
  cases t with
  | nil => simp [Js.startsWith] at h
  | cons => rfl

theorem startsWith_http_not_data (t : Str) (h : Js.startsWith t "http" = true) :
    Js.startsWith t "data:image" = false := by
  cases t with
  | nil => rfl
  | cons c cs =>
    have hc : c = 'h' := by
      have : ("http" : String).toList = 'h' :: "ttp".toList := rfl
      rw [Js.startsWith, this] at h
      simp only [List.isPrefixOf, Bool.and_eq_true, beq_iff_eq] at h
      exact h.1.symm
    subst hc
    rfl

theorem thumbExt_eq (pathname : Str) :
    (if (!Js.truthy (Js.substring (Path.extname pathname) 1)) = true then "png".toList
      else Js.substring (Path.extname pathname) 1) = thumbExt pathname := by
  unfold thumbExt Js.substring Js.truthy
  cases (Path.extname pathname).drop 1 with
  | nil => rfl
  | cons c cs => rfl

theorem blog_resolve_ok (env : Env) (id t : Str) (st : Store) (pathname : Str) (buffer : Bytes)
    (hhttp : Js.startsWith t "http" = true) (hurl : env.urlPathname t = some pathname)
    (hfetch : env.fetch st.fetches t = .ok buffer) :
    BuildBlog.resolveThumbnail env id (some t) st
      = (some ("assets/img/thumbnails/".toList ++ thumbFile id pathname),
          { thumbs := Fs.writeFile st.thumbs (thumbFile id pathname) buffer,
            usedThumbnails := Js.setAdd st.usedThumbnails (thumbFile id pathname),
            fetches := st.fetches + 1 }) := by
  unfold BuildBlog.resolveThumbnail
  simp only [startsWith_http_truthy t hhttp, Bool.not_true, Bool.false_eq_true, if_false, hhttp,
    if_true, hurl, hfetch, thumbExt_eq]
  rfl

theorem portfolio_resolve_ok (env : Env) (id t : Str) (st : Store) (pathname : Str)
    (buffer : Bytes) (hhttp : Js.startsWith t "http" = true)
    (hurl : env.urlPathname t = some pathname) (hfetch : env.fetch st.fetches t = .ok buffer) :
    BuildPortfolio.resolveThumbnail env id t st
      = ("assets/img/thumbnails/".toList ++ thumbFile id pathname,
          { thumbs := Fs.writeFile st.thumbs (thumbFile id pathname) buffer,
            usedThumbnails := Js.setAdd st.usedThumbnails (thumbFile id pathname),
            fetches := st.fetches + 1 }) := by
  unfold BuildPortfolio.resolveThumbnail
  simp only [startsWith_http_truthy t hhttp, startsWith_http_not_data t hhttp, Bool.not_true,
    Bool.false_eq_true, if_false, hhttp, if_true, hurl, hfetch, thumbExt_eq]
  rfl

/-- C7: for a remote thumbnail URL whose fetch succeeds, both builds write the fetched
bytes to the one file `<id>.<ext>` of the thumbnail directory (every other file keeps
its content, and the directory gains at most that name), mark `<id>.<ext>` used, and
set the thumbnail, which is the thumbnail field of the index record, to
`assets/img/thumbnails/<id>.<ext>`; `<ext>` is the extension of the URL's path, or
`png` when the path has none, so the path `/a.jpg` yields `<id>.jpg`. -/
theorem remote_thumbnail_ok (env : Env) (id t : Str) (st : Store) (pathname : Str)
    (buffer : Bytes) (hhttp : Js.startsWith t "http" = true)
    (hurl : env.urlPathname t = some pathname) (hfetch : env.fetch st.fetches t = .ok buffer) :
    (BuildBlog.resolveThumbnail env id (some t) st).1
      = some ("assets/img/thumbnails/".toList ++ thumbFile id pathname) ∧
    (BuildPortfolio.resolveThumbnail env id t st).1
      = "assets/img/thumbnails/".toList ++ thumbFile id pathname ∧
    (BuildPortfolio.resolveThumbnail env id t st).2
      = (BuildBlog.resolveThumbnail env id (some t) st).2 ∧
    (BuildBlog.resolveThumbnail env id (some t) st).2.thumbs
      = Fs.writeFile st.thumbs (thumbFile id pathname) buffer ∧
    (BuildBlog.resolveThumbnail env id (some t) st).2.thumbs.lookup (thumbFile id pathname)
      = some buffer ∧
    (∀ other, other ≠ thumbFile id pathname →
      (BuildBlog.resolveThumbnail env id (some t) st).2.thumbs.lookup other
        = st.thumbs.lookup other) ∧
    Fs.readdir (BuildBlog.resolveThumbnail env id (some t) st).2.thumbs
      = (if thumbFile id pathname ∈ Fs.readdir st.thumbs then Fs.readdir st.thumbs
         else Fs.readdir st.thumbs ++ [thumbFile id pathname]) ∧
    (BuildBlog.resolveThumbnail env id (some t) st).2.usedThumbnails
      = Js.setAdd st.usedThumbnails (thumbFile id pathname) ∧
    thumbFile id pathname ∈ (BuildBlog.resolveThumbnail env id (some t) st).2.usedThumbnails ∧
    thumbFile id pathname
      = id ++ ".".toList ++ (if (Path.extname pathname).drop 1 = [] then "png".toList
          else (Path.extname pathname).drop 1) ∧
    thumbFile id "/a.jpg" = id ++ ".jpg".toList ∧
    (∀ locales content adScript lang store,
      (BuildBlog.buildPage env locales content adScript id lang store).2.1.thumbnail
        = (BuildBlog.resolveThumbnail env id
            (env.matter (Fs.readFile content (BuildBlog.sourcePath content id lang))).1.thumbnail
            store).1) ∧
    (∀ content file store,
      (BuildPortfolio.buildPage env content file store).2.1.thumbnail
        = (BuildPortfolio.resolveThumbnail env (Path.basename file ".md")
            (Js.orElse ((env.matter (Fs.readFile content file)).1.thumbnail.getD []) "")
            store).1) := by
  rw [blog_resolve_ok env id t st pathname buffer hhttp hurl hfetch,
    portfolio_resolve_ok env id t st pathname buffer hhttp hurl hfetch]
  refine ⟨rfl, rfl, rfl, rfl, lookup_writeFile_self _ _ _,
    fun other h => lookup_writeFile_other _ _ _ _ h, readdir_writeFile _ _ _, rfl,
    mem_setAdd_self _ _, rfl, ?_, fun _ _ _ _ _ => rfl, fun _ _ _ => rfl⟩
  have : thumbExt "/a.jpg".toList = "jpg".toList := by decide
  unfold thumbFile
  rw [this]
  simp [List.append_assoc]

/-- Witness for C7: item `post` with the thumbnail `https://example.com/a.jpg`, whose
fetch answers with three bytes. -/
theorem remote_thumbnail_ok_witness :
    Js.startsWith "https://example.com/a.jpg".toList "http" = true ∧
    Example.thumbEnv.urlPathname "https://example.com/a.jpg".toList = some "/a.jpg".toList ∧
    Example.thumbEnv.fetch Example.store.fetches "https://example.com/a.jpg".toList
      = .ok [1, 2, 3] ∧
    (BuildBlog.resolveThumbnail Example.thumbEnv "post" (some "https://example.com/a.jpg")
        Example.store).1
      = some ("assets/img/thumbnails/".toList ++ thumbFile "post" "/a.jpg") ∧
    (BuildBlog.resolveThumbnail Example.thumbEnv "post" (some "https://example.com/a.jpg")
        Example.store).2.thumbs.lookup (thumbFile "post" "/a.jpg") = some [1, 2, 3] ∧
    thumbFile "post" "/a.jpg" = "post.jpg".toList :=
  ⟨by decide, rfl, rfl,
    (remote_thumbnail_ok Example.thumbEnv "post" "https://example.com/a.jpg" Example.store
      "/a.jpg" [1, 2, 3] (by decide) rfl rfl).1,
    (remote_thumbnail_ok Example.thumbEnv "post" "https://example.com/a.jpg" Example.store
      "/a.jpg" [1, 2, 3] (by decide) rfl rfl).2.2.2.2.1,
    by decide⟩

theorem blog_resolve_fail (env : Env) (id t : Str) (st : Store)
    (hhttp : Js.startsWith t "http" = true)
    (hfail : ∀ pathname buffer, env.urlPathname t = some pathname →
      env.fetch st.fetches t ≠ .ok buffer) :
    (BuildBlog.resolveThumbnail env id (some t) st).1 = some t ∧
    (BuildBlog.resolveThumbnail env id (some t) st).2.thumbs = st.thumbs ∧
    (BuildBlog.resolveThumbnail env id (some t) st).2.usedThumbnails = st.usedThumbnails := by
  unfold BuildBlog.resolveThumbnail
  simp only [startsWith_http_truthy t hhttp, Bool.not_true, Bool.false_eq_true, if_false, hhttp,
    if_true]
  cases hurl : env.urlPathname t with
  | none => exact ⟨rfl, rfl, rfl⟩
  | some pathname =>
    cases hfetch : env.fetch st.fetches t with
    | ok buffer => exact absurd hfetch (hfail pathname buffer hurl)
    | notOk s => exact ⟨rfl, rfl, rfl⟩
    | threw => exact ⟨rfl, rfl, rfl⟩

theorem portfolio_resolve_fail (env : Env) (id t : Str) (st : Store)
    (hhttp : Js.startsWith t "http" = true)
    (hfail : ∀ pathname buffer, env.urlPathname t = some pathname →
      env.fetch st.fetches t ≠ .ok buffer) :
    (BuildPortfolio.resolveThumbnail env id t st).1 = t ∧
    (BuildPortfolio.resolveThumbnail env id t st).2.thumbs = st.thumbs ∧
    (BuildPortfolio.resolveThumbnail env id t st).2.usedThumbnails = st.usedThumbnails := by
  unfold BuildPortfolio.resolveThumbnail
  simp only [startsWith_http_truthy t hhttp, startsWith_http_not_data t hhttp, Bool.not_true,
    Bool.false_eq_true, if_false, hhttp, if_true]
  cases hurl : env.urlPathname t with
  | none => exact ⟨rfl, rfl, rfl⟩
  | some pathname =>
    cases hfetch : env.fetch st.fetches t with
    | ok buffer => exact absurd hfetch (hfail pathname buffer hurl)
    | notOk s => exact ⟨rfl, rfl, rfl⟩
    | threw => exact ⟨rfl, rfl, rfl⟩

theorem imageUrl_http (a : BuildBlog.PageArgs) (t : Str) (hhttp : Js.startsWith t "http" = true)
    (ha : a.thumbnail = some t) : BuildBlog.imageUrl a = t := by
  unfold BuildBlog.imageUrl
  rw [ha]
  simp only [startsWith_http_truthy t hhttp, hhttp, Bool.not_true, Bool.and_false,
    Bool.false_eq_true, if_false]

/-- C6, as the code has it: when the fetch of a remote thumbnail fails (the URL does
not parse, the response is not ok, or the fetch throws), the resolver of either build
returns normally, leaves the thumbnail directory and the set of used names as they
were, and keeps the remote URL as the thumbnail; that value is the thumbnail field of
the index record, and the blog page takes it unchanged as its image URL. -/
theorem remote_thumbnail_failure (env : Env) (id t : Str) (st : Store)
    (hhttp : Js.startsWith t "http" = true)
    (hfail : ∀ pathname buffer, env.urlPathname t = some pathname →
      env.fetch st.fetches t ≠ .ok buffer) :
    ((BuildBlog.resolveThumbnail env id (some t) st).1 = some t ∧
      (BuildBlog.resolveThumbnail env id (some t) st).2.thumbs = st.thumbs ∧
      (BuildBlog.resolveThumbnail env id (some t) st).2.usedThumbnails = st.usedThumbnails) ∧
    ((BuildPortfolio.resolveThumbnail env id t st).1 = t ∧
      (BuildPortfolio.resolveThumbnail env id t st).2.thumbs = st.thumbs ∧
      (BuildPortfolio.resolveThumbnail env id t st).2.usedThumbnails = st.usedThumbnails) ∧
    (∀ a : BuildBlog.PageArgs, a.thumbnail = some t → BuildBlog.imageUrl a = t) ∧
    (∀ locales content adScript lang store,
      (BuildBlog.buildPage env locales content adScript id lang store).2.1.thumbnail
        = (BuildBlog.resolveThumbnail env id
            (env.matter (Fs.readFile content (BuildBlog.sourcePath content id lang))).1.thumbnail
            store).1 ∧
      (BuildBlog.buildPage env locales content adScript id lang store).1.thumbnail
        = (BuildBlog.buildPage env locales content adScript id lang store).2.1.thumbnail) ∧
    (∀ content file store,
      (BuildPortfolio.buildPage env content file store).2.1.thumbnail
        = (BuildPortfolio.resolveThumbnail env (Path.basename file ".md")
            (Js.orElse ((env.matter (Fs.readFile content file)).1.thumbnail.getD []) "")
            store).1) :=
  ⟨blog_resolve_fail env id t st hhttp hfail, portfolio_resolve_fail env id t st hhttp hfail,
    fun a ha => imageUrl_http a t hhttp ha, fun _ _ _ _ _ => ⟨rfl, rfl⟩, fun _ _ _ => rfl⟩

/-- Witness for C6 as amended: item `post` with the thumbnail
`https://example.com/a.jpg`, whose fetch answers `Not Found`. -/
theorem remote_thumbnail_failure_witness :
    Js.startsWith "https://example.com/a.jpg".toList "http" = true ∧
    (∀ pathname buffer,
      Example.failEnv.urlPathname "https://example.com/a.jpg".toList = some pathname →
      Example.failEnv.fetch Example.store.fetches "https://example.com/a.jpg".toList
        ≠ .ok buffer) ∧
    (BuildBlog.resolveThumbnail Example.failEnv "post" (some "https://example.com/a.jpg")
        Example.store).1 = some "https://example.com/a.jpg".toList ∧
    (BuildPortfolio.resolveThumbnail Example.failEnv "post" "https://example.com/a.jpg"
        Example.store).1 = "https://example.com/a.jpg".toList :=
  ⟨by decide, fun _ _ _ h => by simp [Example.failEnv] at h,
    (remote_thumbnail_failure Example.failEnv "post" "https://example.com/a.jpg" Example.store
      (by decide) (fun _ _ _ h => by simp [Example.failEnv] at h)).1.1,
    (remote_thumbnail_failure Example.failEnv "post" "https://example.com/a.jpg" Example.store
      (by decide) (fun _ _ _ h => by simp [Example.failEnv] at h)).2.1.1⟩

set_option maxRecDepth 100000 in
/-- C6 as stated fails: after a failed fetch the thumbnail field of the index record
is not absent but still the remote URL, in the blog lists and in the portfolio list,
and the image URL of the blog page is that URL, not the default image; no file is written
and no name is marked used. -/
theorem failed_fetch_keeps_remote_url :
    (BuildBlog.main Example.failEnv Example.locales Example.content "" []).blogList.map
        (fun r => r.thumbnail) = [some "https://example.com/a.jpg".toList] ∧
    (BuildBlog.main Example.failEnv Example.locales Example.content "" []).blogListEn.map
        (fun r => r.thumbnail) = [some "https://example.com/a.jpg".toList] ∧
    (BuildPortfolio.main Example.failEnv Example.content []).portfolioList.map
        (fun r => r.thumbnail) = ["https://example.com/a.jpg".toList] ∧
    (BuildBlog.mainLoop Example.failEnv Example.locales Example.content "" []).store.thumbs = [] ∧
    (BuildBlog.mainLoop Example.failEnv Example.locales Example.content "" []).store.usedThumbnails
      = [] ∧
    BuildBlog.imageUrl
        (BuildBlog.buildPage Example.failEnv Example.locales Example.content "" "post" "ja"
          Example.store).1 = "https://example.com/a.jpg".toList ∧
    BuildBlog.imageUrl
        (BuildBlog.buildPage Example.failEnv Example.locales Example.content "" "post" "ja"
          Example.store).1 ≠ BuildBlog.BASE_URL ++ "/assets/img/ogp.png".toList := by
  refine ⟨by decide, by decide, by decide, by decide, by decide, by decide, by decide⟩

/-! ### Cleanup of the thumbnail directory -/

theorem foldl_unlink {α : Type} (p : Str → Bool) (names : List Str) (d : Dir α) :
    names.foldl (fun d file => if p file then Fs.unlink d file else d) d
      = d.filter (fun e => !(names.contains e.1 && p e.1)) := by
  induction names generalizing d with
  | nil => simp
  | cons n ns ih =>
    rw [List.foldl_cons, ih]
    by_cases hp : p n = true
    · rw [if_pos hp]
      unfold Fs.unlink
      rw [List.filter_filter]
      apply List.filter_congr
      intro e _
      by_cases hen : e.1 = n
      · simp [hen, hp]
      · have : (n == e.1) = false := by
          simp only [beq_eq_false_iff_ne, ne_eq]; exact fun h => hen h.symm
        simp [hen, List.contains_cons, this]
    · rw [if_neg hp]
      apply List.filter_congr
      intro e _
      by_cases hen : e.1 = n
      · have hpe : p e.1 = false := by rw [hen]; simpa using hp
        simp [hpe]
      · have : (n == e.1) = false := by
          simp only [beq_eq_false_iff_ne, ne_eq]; exact fun h => hen h.symm
        simp [List.contains_cons, hen]

theorem blog_cleanup_eq (thumbs : Dir Bytes) (used : List Str) :
    BuildBlog.cleanupThumbnails thumbs used = thumbs.filter (fun e => used.contains e.1) := by
  unfold BuildBlog.cleanupThumbnails
  have := foldl_unlink (fun file => !used.contains file) (Fs.readdir thumbs) thumbs
  simp only [] at this
  rw [show (fun (d : Dir Bytes) file => if (!used.contains file) = true then Fs.unlink d file else d)
      = (fun d file => if (fun file => !used.contains file) file = true then Fs.unlink d file
          else d) from rfl, this]
  apply List.filter_congr
  intro e he
  have hmem : (Fs.readdir thumbs).contains e.1 = true := by
    rw [List.contains_eq_any_beq, List.any_eq_true]
    refine ⟨e.1, ?_, beq_self_eq_true _⟩
    exact List.mem_map.mpr ⟨e, he, rfl⟩
  rw [hmem]
  cases used.contains e.1 <;> rfl

theorem portfolio_cleanup_eq (thumbs : Dir Bytes) (used : List Str) :
    BuildPortfolio.cleanupThumbnails thumbs used
      = thumbs.filter (fun e => !Js.startsWith e.1 "portfolio_" || used.contains e.1) := by
  unfold BuildPortfolio.cleanupThumbnails
  have := foldl_unlink (fun file => Js.startsWith file "portfolio_" && !used.contains file)
    (Fs.readdir thumbs) thumbs
  rw [show (fun (d : Dir Bytes) file =>
        if (Js.startsWith file "portfolio_" && !used.contains file) = true then Fs.unlink d file
        else d)
      = (fun d file =>
        if (fun file => Js.startsWith file "portfolio_" && !used.contains file) file = true then
          Fs.unlink d file
        else d) from rfl, this]
  apply List.filter_congr
  intro e he
  have hmem : (Fs.readdir thumbs).contains e.1 = true := by
    rw [List.contains_eq_any_beq, List.any_eq_true]
    refine ⟨e.1, ?_, beq_self_eq_true _⟩
    exact List.mem_map.mpr ⟨e, he, rfl⟩
  rw [hmem]
  cases Js.startsWith e.1 "portfolio_" <;> cases used.contains e.1 <;> rfl

/-- C8, as the code has it: the blog cleanup keeps exactly the files of the thumbnail
directory whose names were marked used during the run; the portfolio cleanup only
looks at names starting with `portfolio_`, so it keeps every file whose name was
marked used or does not start with `portfolio_`.  In both builds no file marked used
is deleted. -/
theorem thumbnail_cleanup (env : Env) (locales : Locales) (content : Dir Str) (adScript : Str)
    (thumbs : Dir Bytes) (pcontent : Dir Str) (pthumbs : Dir Bytes) :
    (BuildBlog.main env locales content adScript thumbs).thumbs
      = (BuildBlog.mainLoop env locales content adScript thumbs).store.thumbs.filter
          (fun e => decide (e.1 ∈
            (BuildBlog.mainLoop env locales content adScript thumbs).store.usedThumbnails)) ∧
    (BuildPortfolio.main env pcontent pthumbs).thumbs
      = (BuildPortfolio.mainLoop env pcontent pthumbs).store.thumbs.filter
          (fun e => decide (e.1 ∈
              (BuildPortfolio.mainLoop env pcontent pthumbs).store.usedThumbnails
            ∨ Js.startsWith e.1 "portfolio_" = false)) ∧
    (∀ e ∈ (BuildBlog.mainLoop env locales content adScript thumbs).store.thumbs,
      e.1 ∈ (BuildBlog.mainLoop env locales content adScript thumbs).store.usedThumbnails →
      e ∈ (BuildBlog.main env locales content adScript thumbs).thumbs) ∧
    (∀ e ∈ (BuildPortfolio.mainLoop env pcontent pthumbs).store.thumbs,
      e.1 ∈ (BuildPortfolio.mainLoop env pcontent pthumbs).store.usedThumbnails →
      e ∈ (BuildPortfolio.main env pcontent pthumbs).thumbs) := by
  have hb : (BuildBlog.main env locales content adScript thumbs).thumbs
      = (BuildBlog.mainLoop env locales content adScript thumbs).store.thumbs.filter
          (fun e => decide (e.1 ∈
            (BuildBlog.mainLoop env locales content adScript thumbs).store.usedThumbnails)) := by
    show BuildBlog.cleanupThumbnails _ _ = _
    rw [blog_cleanup_eq]
    apply List.filter_congr
    intro e _
    simp
  have hp : (BuildPortfolio.main env pcontent pthumbs).thumbs
      = (BuildPortfolio.mainLoop env pcontent pthumbs).store.thumbs.filter
          (fun e => decide (e.1 ∈
              (BuildPortfolio.mainLoop env pcontent pthumbs).store.usedThumbnails
            ∨ Js.startsWith e.1 "portfolio_" = false)) := by
    show BuildPortfolio.cleanupThumbnails _ _ = _
    rw [portfolio_cleanup_eq]
    apply List.filter_congr
    intro e _
    cases h1 : Js.startsWith e.1 "portfolio_".toList <;>
      cases h2 : List.contains
        (BuildPortfolio.mainLoop env pcontent pthumbs).store.usedThumbnails e.1 <;>
      simp_all
  refine ⟨hb, hp, ?_, ?_⟩
  · intro e he hu
    rw [hb, List.mem_filter]
    exact ⟨he, by simpa using hu⟩
  · intro e he hu
    rw [hp, List.mem_filter]
    exact ⟨he, by simp [hu]⟩

set_option maxRecDepth 100000 in
/-- C8 as stated fails for the portfolio build: a file `stale.png` whose name was
never marked used is still in the thumbnail directory after the cleanup. -/
theorem portfolio_cleanup_keeps_unused :
    (BuildPortfolio.mainLoop Example.env Example.content
        [("stale.png".toList, [1])]).store.usedThumbnails = [] ∧
    (BuildPortfolio.mainLoop Example.env Example.content
        [("stale.png".toList, [1])]).store.thumbs = [("stale.png".toList, [1])] ∧
    (BuildPortfolio.main Example.env Example.content [("stale.png".toList, [1])]).thumbs
      = [("stale.png".toList, [1])] := by
  refine ⟨by decide, by decide, by decide⟩

/-! ### The two locale variants of an item without an English file -/

theorem renderInline_plain (p q : Str) (i : Inline) (h : i.isRelative = false) :
    BuildBlog.renderInline p i = BuildBlog.renderInline q i := by
  cases i with
  | html s => rfl
  | image href title text =>
    simp only [Inline.isRelative] at h
    simp only [BuildBlog.renderInline, BuildBlog.renderer.image, h, Bool.and_false,
      Bool.false_eq_true, if_false]

theorem renderBlock_plain (env : Env) (p q : Str) (st : BuildBlog.RenderState) (b : Block)
    (h : b.hasRelativeImage = false) :
    BuildBlog.renderBlock env p st b = BuildBlog.renderBlock env q st b := by
  cases b with
  | inline i =>
    simp only [Block.hasRelativeImage] at h
    simp only [BuildBlog.renderBlock, renderInline_plain p q i h]
  | heading level content =>
    simp only [Block.hasRelativeImage, List.any_eq_false] at h
    have : content.flatMap (BuildBlog.renderInline p) = content.flatMap (BuildBlog.renderInline q) := by
      apply List.flatMap_congr
      intro i hi
      exact renderInline_plain p q i (by simpa using h i hi)
    simp only [BuildBlog.renderBlock, this]

theorem parseBlocks_plain (env : Env) (p q : Str) (blocks : List Block)
    (st : BuildBlog.RenderState) (h : ∀ b ∈ blocks, b.hasRelativeImage = false) :
    BuildBlog.parseBlocks env p blocks st = BuildBlog.parseBlocks env q blocks st := by
  induction blocks generalizing st with
  | nil => rfl
  | cons b rest ih =>
    simp only [BuildBlog.parseBlocks]
    rw [renderBlock_plain env p q st b (h b (by simp)),
      ih _ (fun b hb => h b (List.mem_cons_of_mem _ hb))]

theorem sourcePath_base_only (content : Dir Str) (id lang : Str)
    (hen : Fs.existsFile content (id ++ ".en.md".toList) = false) :
    BuildBlog.sourcePath content id lang = id ++ ".md".toList := by
  unfold BuildBlog.sourcePath
  rw [hen]
  simp

/-- C9, as the code has it: for an item without `<id>.en.md` both locale variants are
built from the base file `<id>.md`, so the page arguments agree in id, title,
description, date, category, tags and ad script; and when no image reference of the
document begins with `../`, the rendered body and the table of contents are identical
too.  (An image reference `../X` is written `../X` in the ja body and `../../X` in
the en body.) -/
theorem base_only_variants (env : Env) (locales : Locales) (content : Dir Str)
    (adScript id : Str) (s₁ s₂ : Store)
    (hen : Fs.existsFile content (id ++ ".en.md".toList) = false)
    (hplain : ∀ b ∈ env.lexer (env.matter (Fs.readFile content (id ++ ".md".toList))).2,
      b.hasRelativeImage = false) :
    BuildBlog.sourcePath content id "ja" = id ++ ".md".toList ∧
    BuildBlog.sourcePath content id "en" = id ++ ".md".toList ∧
    (BuildBlog.buildPage env locales content adScript id "ja" s₁).1.bodyHtml
      = (BuildBlog.buildPage env locales content adScript id "en" s₂).1.bodyHtml ∧
    (BuildBlog.buildPage env locales content adScript id "ja" s₁).1.tocHtml
      = (BuildBlog.buildPage env locales content adScript id "en" s₂).1.tocHtml ∧
    (BuildBlog.buildPage env locales content adScript id "ja" s₁).1.id
      = (BuildBlog.buildPage env locales content adScript id "en" s₂).1.id ∧
    (BuildBlog.buildPage env locales content adScript id "ja" s₁).1.title
      = (BuildBlog.buildPage env locales content adScript id "en" s₂).1.title ∧
    (BuildBlog.buildPage env locales content adScript id "ja" s₁).1.description
      = (BuildBlog.buildPage env locales content adScript id "en" s₂).1.description ∧
    (BuildBlog.buildPage env locales content adScript id "ja" s₁).1.date
      = (BuildBlog.buildPage env locales content adScript id "en" s₂).1.date ∧
    (BuildBlog.buildPage env locales content adScript id "ja" s₁).1.category
      = (BuildBlog.buildPage env locales content adScript id "en" s₂).1.category ∧
    (BuildBlog.buildPage env locales content adScript id "ja" s₁).1.tags
      = (BuildBlog.buildPage env locales content adScript id "en" s₂).1.tags ∧
    (BuildBlog.buildPage env locales content adScript id "ja" s₁).1.adScript
      = (BuildBlog.buildPage env locales content adScript id "en" s₂).1.adScript ∧
    (∀ rest title text : Str,
      BuildBlog.renderer.image (BuildBlog.relativePrefixOf "ja") ("../".toList ++ rest) title text
        ≠ BuildBlog.renderer.image (BuildBlog.relativePrefixOf "en") ("../".toList ++ rest)
            title text) := by
  have hja := sourcePath_base_only content id "ja".toList hen
  have henp := sourcePath_base_only content id "en".toList hen
  have hparse := parseBlocks_plain env (BuildBlog.relativePrefixOf "ja".toList)
    (BuildBlog.relativePrefixOf "en".toList) _ { headings := [], slugged := [] } hplain
  refine ⟨hja, henp, ?_, ?_, rfl, ?_, ?_, ?_, ?_, ?_, rfl, ?_⟩
  · simp only [BuildBlog.buildPage, hja, henp, BuildBlog.renderDocument, hparse]
  · simp only [BuildBlog.buildPage, hja, henp, BuildBlog.renderDocument, hparse]
    rfl
  · simp only [BuildBlog.buildPage, hja, henp]
  · simp only [BuildBlog.buildPage, hja, henp]
  · simp only [BuildBlog.buildPage, hja, henp]
  · simp only [BuildBlog.buildPage, hja, henp]
  · simp only [BuildBlog.buildPage, hja, henp]
  · intro rest title text h
    have hja2 : BuildBlog.relativePrefixOf "ja".toList = "..".toList := by decide
    have hen2 : BuildBlog.relativePrefixOf "en".toList = "../..".toList := by decide
    have hstart : Js.startsWith ("../".toList ++ rest) "../".toList = true := by
      simp [Js.startsWith]
    have ht : Js.truthy ("../".toList ++ rest) = true := rfl
    have hlen := congrArg List.length h
    simp only [BuildBlog.renderer.image, hja2, hen2, hstart, ht, Bool.and_self, if_true,
      List.length_append, Js.substring, List.length_drop] at hlen
    simp at hlen

set_option maxRecDepth 100000 in
/-- Witness for C9 as amended: item `post` without `post.en.md`, whose document is a
level-2 heading and a paragraph. -/
theorem base_only_variants_witness :
    Fs.existsFile Example.content ("post".toList ++ ".en.md".toList) = false ∧
    (∀ b ∈ Example.plainEnv.lexer
        (Example.plainEnv.matter (Fs.readFile Example.content ("post".toList ++ ".md".toList))).2,
      b.hasRelativeImage = false) ∧
    (BuildBlog.buildPage Example.plainEnv Example.locales Example.content "" "post" "ja"
        Example.store).1.bodyHtml
      = (BuildBlog.buildPage Example.plainEnv Example.locales Example.content "" "post" "en"
          Example.store).1.bodyHtml ∧
    (BuildBlog.buildPage Example.plainEnv Example.locales Example.content "" "post" "ja"
        Example.store).1.tocHtml
      = (BuildBlog.buildPage Example.plainEnv Example.locales Example.content "" "post" "en"
          Example.store).1.tocHtml ∧
    (BuildBlog.buildPage Example.plainEnv Example.locales Example.content "" "post" "ja"
        Example.store).1.bodyHtml = "<h2 id=\"Intro\">Intro</h2><p>text</p>".toList ∧
    (BuildBlog.buildPage Example.plainEnv Example.locales Example.content "" "post" "ja"
        Example.store).1.tocHtml
      = "<ul class=\"toc-list\"><li class=\"toc-item toc-item--level-2\">".toList
          ++ "<a href=\"#Intro\">Intro</a></li></ul>".toList :=
  ⟨by decide, by decide,
    (base_only_variants Example.plainEnv Example.locales Example.content "" "post"
      Example.store Example.store (by decide) (by decide)).2.2.1,
    (base_only_variants Example.plainEnv Example.locales Example.content "" "post"
      Example.store Example.store (by decide) (by decide)).2.2.2.1,
    by decide, by decide⟩

set_option maxRecDepth 100000 in
/-- C9 as stated fails: item `post` has no `post.en.md` and its document holds the
image `../a.png`; the ja body and the en body written by the run differ. -/
theorem base_only_bodies_differ :
    Fs.existsFile Example.content ("post".toList ++ ".en.md".toList) = false ∧
    (BuildBlog.buildPage Example.env Example.locales Example.content "" "post" "ja"
        Example.store).1.bodyHtml = "<img src=\"../a.png\" alt=\"a\" title=\"\" />".toList ∧
    (BuildBlog.buildPage Example.env Example.locales Example.content "" "post" "en"
        Example.store).1.bodyHtml = "<img src=\"../../a.png\" alt=\"a\" title=\"\" />".toList ∧
    (BuildBlog.buildPage Example.env Example.locales Example.content "" "post" "ja"
        Example.store).1.bodyHtml
      ≠ (BuildBlog.buildPage Example.env Example.locales Example.content "" "post" "en"
          Example.store).1.bodyHtml := by
  refine ⟨by decide, by decide, by decide, by decide⟩

/-! ### The image URL of the blog page -/

theorem stripParentDirs_spec (t : Str) :
    Js.startsWith (Js.stripParentDirs t) "../" = false ∧
    ∃ n : Nat, t = (List.replicate n "../".toList).flatten ++ Js.stripParentDirs t := by
  induction t using Js.stripParentDirs.induct with
  | case1 rest ih =>
    rw [Js.stripParentDirs]
    refine ⟨ih.1, ?_⟩
    obtain ⟨n, hn⟩ := ih.2
    refine ⟨n + 1, ?_⟩
    rw [List.replicate_succ, List.flatten_cons, List.append_assoc, ← hn]
    rfl
  | case2 s hs =>
    rw [Js.stripParentDirs]
    · refine ⟨?_, 0, rfl⟩
      unfold Js.startsWith
      cases h : List.isPrefixOf "../".toList s with
      | false => rfl
      | true =>
        exfalso
        rw [List.isPrefixOf_iff_prefix] at h
        obtain ⟨r, hr⟩ := h
        exact hs r hr.symm
    · exact hs

theorem stripLeadingSlashes_spec (s : Str) :
    Js.startsWith (Js.stripLeadingSlashes s) "/" = false ∧
    ∃ n : Nat, s = List.replicate n '/' ++ Js.stripLeadingSlashes s := by
  unfold Js.stripLeadingSlashes
  induction s with
  | nil => exact ⟨rfl, 0, rfl⟩
  | cons c cs ih =>
    by_cases hc : c = '/'
    · subst hc
      have : List.dropWhile (fun c => decide (c = '/')) ('/' :: cs)
          = List.dropWhile (fun c => decide (c = '/')) cs := by simp [List.dropWhile]
      rw [this]
      refine ⟨ih.1, ?_⟩
      obtain ⟨n, hn⟩ := ih.2
      exact ⟨n + 1, by rw [List.replicate_succ, List.cons_append, ← hn]⟩
    · have : List.dropWhile (fun c => decide (c = '/')) (c :: cs) = c :: cs := by
        simp [List.dropWhile, hc]
      rw [this]
      refine ⟨?_, 0, rfl⟩
      unfold Js.startsWith
      show (decide (('/' : Char) = c) && _) = false
      simp [Ne.symm hc]

theorem imageUrl_none (a : BuildBlog.PageArgs) (h : a.thumbnail = none ∨ a.thumbnail = some []) :
    BuildBlog.imageUrl a = BuildBlog.BASE_URL ++ "/assets/img/ogp.png".toList := by
  unfold BuildBlog.imageUrl
  rcases h with h | h
  · rw [h]
  · rw [h]; rfl

theorem imageUrl_local (a : BuildBlog.PageArgs) (t : Str) (h : a.thumbnail = some t)
    (hne : t ≠ []) (hhttp : Js.startsWith t "http" = false) :
    BuildBlog.imageUrl a
      = BuildBlog.BASE_URL ++ "/".toList ++ Js.stripLeadingSlashes (Js.stripParentDirs t) := by
  unfold BuildBlog.imageUrl
  rw [h]
  have ht : Js.truthy t = true := by
    cases t with
    | nil => exact absurd rfl hne
    | cons => rfl
  simp only [ht, hhttp, Bool.not_false, Bool.and_self, if_true]

theorem ogImage_infix (env : Env) (a : BuildBlog.PageArgs) :
    ∃ pre post, BuildBlog.segsAfterJsonLd env a
      = pre ++ (T "    <meta property=\"og:image\" content=\"" ++ S .thumbnail (BuildBlog.imageUrl a)
          ++ T "\" />\n") ++ post :=
  ⟨(BuildBlog.segsAfterJsonLd env a).take 12, (BuildBlog.segsAfterJsonLd env a).drop 15, rfl⟩

theorem jsonLd_image (a : BuildBlog.PageArgs) :
    ∃ fields, BuildBlog.jsonLd a = .obj fields ∧
      fields.lookup "image".toList = some (.arr [.str .thumbnail (BuildBlog.imageUrl a)]) := by
  exact ⟨_, rfl, rfl⟩

theorem allSegs_nil (P : Seg → Prop) : AllSegs P [] := by
  intro seg h; simp at h

theorem allSegs_append (P : Seg → Prop) (l₁ l₂ : List Seg) :
    AllSegs P (l₁ ++ l₂) ↔ AllSegs P l₁ ∧ AllSegs P l₂ := by
  simp only [AllSegs, List.mem_append]
  constructor
  · intro h; exact ⟨fun s hs => h s (Or.inl hs), fun s hs => h s (Or.inr hs)⟩
  · rintro ⟨h1, h2⟩ s (hs | hs)
    · exact h1 s hs
    · exact h2 s hs

theorem allSegs_flatten_cons (P : Seg → Prop) (l : List Seg) (ls : List (List Seg)) :
    AllSegs P (List.flatten (l :: ls)) ↔ AllSegs P l ∧ AllSegs P (List.flatten ls) := by
  rw [List.flatten_cons, allSegs_append]

theorem allSegs_flatten_nil (P : Seg → Prop) :
    AllSegs P (List.flatten ([] : List (List Seg))) := by
  simpa using allSegs_nil P

theorem allSegs_T (P : Seg → Prop) (s : Str) (h : P { origin := .template, text := s }) :
    AllSegs P (T s) := by
  intro seg hs
  simp only [T, List.mem_singleton] at hs
  subst hs; exact h

theorem allSegs_S (P : Seg → Prop) (o : Origin) (s : Str) (h : P { origin := o, text := s }) :
    AllSegs P (S o s) := by
  intro seg hs
  simp only [S, List.mem_singleton] at hs
  subst hs; exact h

theorem allSegs_joinSegs (P : Seg → Prop) (sep : List Seg) (ls : List (List Seg))
    (hsep : AllSegs P sep) (hls : ∀ l ∈ ls, AllSegs P l) : AllSegs P (joinSegs sep ls) := by
  induction ls with
  | nil => exact allSegs_nil P
  | cons x rest ih =>
    cases rest with
    | nil => simpa [joinSegs] using hls x (by simp)
    | cons y rest =>
      rw [joinSegs, allSegs_append, allSegs_append]
      exact ⟨⟨hls x (by simp), hsep⟩, ih (fun l hl => hls l (List.mem_cons_of_mem _ hl))⟩

theorem allSegs_ite (P : Seg → Prop) (c : Prop) [Decidable c] (l₁ l₂ : List Seg)
    (h₁ : AllSegs P l₁) (h₂ : AllSegs P l₂) : AllSegs P (if c then l₁ else l₂) := by
  split_ifs
  · exact h₁
  · exact h₂

theorem allSegs_tagsHtml (P : Seg → Prop) (a : BuildBlog.PageArgs)
    (h : ∀ (o : Origin) (s : Str), o = .template ∨ o = .lang ∨ o = .tags →
      P { origin := o, text := s }) : AllSegs P (BuildBlog.tagsHtml a) := by
  unfold BuildBlog.tagsHtml
  apply allSegs_ite
  · rw [allSegs_append, allSegs_append]
    refine ⟨⟨allSegs_T _ _ (h _ _ (Or.inl rfl)),
      allSegs_joinSegs P _ _ (allSegs_T _ _ (h _ _ (Or.inl rfl))) ?_⟩,
      allSegs_T _ _ (h _ _ (Or.inl rfl))⟩
    intro l hl
    simp only [List.mem_map] at hl
    obtain ⟨t, _, rfl⟩ := hl
    simp only [allSegs_append]
    repeat' constructor
    all_goals first
      | exact allSegs_T _ _ (h _ _ (Or.inl rfl))
      | exact allSegs_S _ _ _ (h _ _ (Or.inr (Or.inl rfl)))
      | exact allSegs_S _ _ _ (h _ _ (Or.inr (Or.inr rfl)))
  · exact allSegs_nil P

theorem allSegs_shareButtons (P : Seg → Prop) (a : BuildBlog.PageArgs)
    (h : ∀ (o : Origin) (s : Str), o = .template ∨ o = .locale ∨ o = .id ∨ o = .title →
      P { origin := o, text := s }) : AllSegs P (BuildBlog.shareButtonsHtml a) := by
  unfold BuildBlog.shareButtonsHtml BuildBlog.createShareButtonsSegs
  simp only [List.flatMap_cons, List.flatMap_nil, allSegs_flatten_cons,
    allSegs_append, List.append_nil]
  repeat' constructor
  all_goals first
    | exact allSegs_flatten_nil _
    | exact allSegs_T _ _ (h _ _ (Or.inl rfl))
    | exact allSegs_S _ _ _ (h _ _ (Or.inr (Or.inl rfl)))
    | exact allSegs_S _ _ _ (h _ _ (Or.inr (Or.inr (Or.inl rfl))))
    | exact allSegs_S _ _ _ (h _ _ (Or.inr (Or.inr (Or.inr rfl))))

theorem imageSeg_of_ne (a : BuildBlog.PageArgs) (o : Origin) (s : Str) (h : o ≠ .thumbnail) :
    ImageSeg a { origin := o, text := s } := fun e => absurd e h

theorem allImage_before (a : BuildBlog.PageArgs) :
    AllSegs (ImageSeg a) (BuildBlog.segsBeforeJsonLd a) := by
  unfold BuildBlog.segsBeforeJsonLd
  simp only [allSegs_flatten_cons, allSegs_append]
  repeat' constructor
  all_goals first
    | exact allSegs_flatten_nil _
    | exact allSegs_T _ _ (imageSeg_of_ne _ _ _ (by decide))
    | exact allSegs_S _ _ _ (imageSeg_of_ne _ _ _ (by decide))

theorem allImage_after (env : Env) (a : BuildBlog.PageArgs) :
    AllSegs (ImageSeg a) (BuildBlog.segsAfterJsonLd env a) := by
  have hne : ∀ (o : Origin) (s : Str), o ≠ .thumbnail → ImageSeg a { origin := o, text := s } :=
    fun o s h => imageSeg_of_ne a o s h
  unfold BuildBlog.segsAfterJsonLd
  simp only [allSegs_flatten_cons, allSegs_append]
  repeat' constructor
  all_goals first
    | exact allSegs_flatten_nil _
    | exact allSegs_T _ _ (imageSeg_of_ne _ _ _ (by decide))
    | exact allSegs_S _ _ _ (imageSeg_of_ne _ _ _ (by decide))
    | exact allSegs_S _ _ _ (fun _ => Or.inl rfl)
    | exact allSegs_tagsHtml _ _ (fun o s ho => hne o s (by rcases ho with h | h | h <;> (rw [h]; decide)))
    | exact allSegs_shareButtons _ _ (fun o s ho => hne o s (by rcases ho with h | h | h | h <;> (rw [h]; decide)))
    | (apply allSegs_ite
       · simp only [allSegs_append]
         repeat' constructor
         all_goals first
           | exact allSegs_T _ _ (imageSeg_of_ne _ _ _ (by decide))
           | exact allSegs_S _ _ _ (imageSeg_of_ne _ _ _ (by decide))
       · exact allSegs_nil _)

theorem allImage_jsonLd (a : BuildBlog.PageArgs) :
    AllSegs (ImageSeg a) (BuildBlog.jsonLdSegs a) := by
  unfold AllSegs ImageSeg
  simp only [BuildBlog.jsonLdSegs, BuildBlog.jsonLd, Js.stringify, Js.stringifyFields,
    Js.stringifyItems, T, S, List.forall_mem_append, List.forall_mem_singleton,
    List.append_nil]
  simp


/-! ### Defaults of the metadata fields -/

theorem orElse_getD (v : Option Str) (d : Str) : Js.orElse (v.getD []) d = fieldOr v d := by
  cases v with
  | none => rfl
  | some t =>
    cases t with
    | nil => rfl
    | cons c cs => rfl

theorem filter_truthy (l : List Str) : l.filter Js.truthy = l.filter fun t => t ≠ [] := by
  apply List.filter_congr
  intro t _
  cases t <;> rfl

theorem blog_normalizeTags (tagsRaw : TagsRaw) :
    BuildBlog.normalizeTags tagsRaw
      = match tagsRaw with
        | .missing => []
        | .string s => tagsOfString s
        | .array ts => (ts.map Js.trim).filter fun t => t ≠ [] := by
  cases tagsRaw with
  | missing => rfl
  | array ts => exact filter_truthy _
  | string s =>
    cases s with
    | nil => rfl
    | cons c cs => exact filter_truthy _

theorem portfolio_normalizeTags (tagsRaw : TagsRaw) :
    BuildPortfolio.normalizeTags tagsRaw
      = match tagsRaw with
        | .missing => []
        | .string s => tagsOfString s
        | .array ts => ts := by
  cases tagsRaw with
  | missing => rfl
  | array ts => rfl
  | string s =>
    cases s with
    | nil => rfl
    | cons c cs => exact filter_truthy _

/-- C14, as the code has it: in both builds a missing (or empty) title becomes the
item id and a missing description, date or category (and, in the portfolio build,
role or tech) becomes the empty string, while a value that is present and non-empty
is carried through unchanged, in the index record and in the page input alike.
Missing tags become the empty sequence and tags given as one string are split on
commas, trimmed and stripped of empty pieces; a tag array is carried through
unchanged by the portfolio build, but the blog build trims its elements and drops the
empty ones. -/
theorem metadata_defaults (env : Env) (locales : Locales) (content : Dir Str)
    (adScript id lang file : Str) (store : Store) :
    (fieldOr none id = id ∧ (∀ d : Str, fieldOr none d = d) ∧
      ∀ (t d : Str), t ≠ [] → fieldOr (some t) d = t) ∧
    ((BuildBlog.buildPage env locales content adScript id lang store).2.1.title
        = fieldOr (env.matter (Fs.readFile content
            (BuildBlog.sourcePath content id lang))).1.title id ∧
      (BuildBlog.buildPage env locales content adScript id lang store).2.1.description
        = fieldOr (env.matter (Fs.readFile content
            (BuildBlog.sourcePath content id lang))).1.description [] ∧
      (BuildBlog.buildPage env locales content adScript id lang store).2.1.date
        = fieldOr (env.matter (Fs.readFile content
            (BuildBlog.sourcePath content id lang))).1.date [] ∧
      (BuildBlog.buildPage env locales content adScript id lang store).2.1.category
        = fieldOr (env.matter (Fs.readFile content
            (BuildBlog.sourcePath content id lang))).1.category [] ∧
      (BuildBlog.buildPage env locales content adScript id lang store).2.1.tags
        = (match (env.matter (Fs.readFile content
              (BuildBlog.sourcePath content id lang))).1.tags with
          | .missing => []
          | .string s => tagsOfString s
          | .array ts => (ts.map Js.trim).filter fun t => t ≠ [])) ∧
    ((BuildBlog.buildPage env locales content adScript id lang store).1.title
        = (BuildBlog.buildPage env locales content adScript id lang store).2.1.title ∧
      (BuildBlog.buildPage env locales content adScript id lang store).1.description
        = (BuildBlog.buildPage env locales content adScript id lang store).2.1.description ∧
      (BuildBlog.buildPage env locales content adScript id lang store).1.date
        = (BuildBlog.buildPage env locales content adScript id lang store).2.1.date ∧
      (BuildBlog.buildPage env locales content adScript id lang store).1.category
        = (BuildBlog.buildPage env locales content adScript id lang store).2.1.category ∧
      (BuildBlog.buildPage env locales content adScript id lang store).1.tags
        = .array (BuildBlog.buildPage env locales content adScript id lang store).2.1.tags) ∧
    ((BuildPortfolio.buildPage env content file store).2.1.title
        = fieldOr (env.matter (Fs.readFile content file)).1.title (Path.basename file ".md") ∧
      (BuildPortfolio.buildPage env content file store).2.1.description
        = fieldOr (env.matter (Fs.readFile content file)).1.description [] ∧
      (BuildPortfolio.buildPage env content file store).2.1.date
        = fieldOr (env.matter (Fs.readFile content file)).1.date [] ∧
      (BuildPortfolio.buildPage env content file store).2.1.category
        = fieldOr (env.matter (Fs.readFile content file)).1.category [] ∧
      (BuildPortfolio.buildPage env content file store).2.1.role
        = fieldOr (env.matter (Fs.readFile content file)).1.role [] ∧
      (BuildPortfolio.buildPage env content file store).2.1.tech
        = fieldOr (env.matter (Fs.readFile content file)).1.tech [] ∧
      (BuildPortfolio.buildPage env content file store).2.1.tags
        = (match (env.matter (Fs.readFile content file)).1.tags with
          | .missing => []
          | .string s => tagsOfString s
          | .array ts => ts)) ∧
    ((BuildPortfolio.buildPage env content file store).1.title
        = (BuildPortfolio.buildPage env content file store).2.1.title ∧
      (BuildPortfolio.buildPage env content file store).1.description
        = (BuildPortfolio.buildPage env content file store).2.1.description ∧
      (BuildPortfolio.buildPage env content file store).1.date
        = (BuildPortfolio.buildPage env content file store).2.1.date ∧
      (BuildPortfolio.buildPage env content file store).1.category
        = (BuildPortfolio.buildPage env content file store).2.1.category ∧
      (BuildPortfolio.buildPage env content file store).1.tags
        = .array (BuildPortfolio.buildPage env content file store).2.1.tags) := by
  refine ⟨⟨rfl, fun _ => rfl, fun t d ht => ?_⟩, ⟨?_, ?_, ?_, ?_, ?_⟩,
    ⟨rfl, rfl, rfl, rfl, rfl⟩, ⟨?_, ?_, ?_, ?_, ?_, ?_, ?_⟩, ⟨rfl, rfl, rfl, rfl, rfl⟩⟩
  · unfold fieldOr; simp [ht]
  · exact orElse_getD _ _
  · exact orElse_getD _ _
  · exact orElse_getD _ _
  · exact orElse_getD _ _
  · exact blog_normalizeTags _
  · exact orElse_getD _ _
  · exact orElse_getD _ _
  · exact orElse_getD _ _
  · exact orElse_getD _ _
  · exact orElse_getD _ _
  · exact orElse_getD _ _
  · exact portfolio_normalizeTags _

/-- C14 as stated fails for the blog build: the tag array `[" a", ""]` is present and
non-empty, yet the index record and the page input carry `["a"]`; the portfolio build
carries the array unchanged. -/
theorem blog_tag_array_is_trimmed :
    (Example.paddedTagsEnv.matter (Fs.readFile Example.content
        (BuildBlog.sourcePath Example.content "post" "ja"))).1.tags
      = .array [" a".toList, "".toList] ∧
    (BuildBlog.buildPage Example.paddedTagsEnv Example.locales Example.content "" "post" "ja"
        Example.store).2.1.tags = ["a".toList] ∧
    (BuildBlog.buildPage Example.paddedTagsEnv Example.locales Example.content "" "post" "ja"
        Example.store).1.tags = .array ["a".toList] ∧
    (BuildPortfolio.buildPage Example.paddedTagsEnv Example.content "post.md"
        Example.store).2.1.tags = [" a".toList, "".toList] := by
  refine ⟨by decide, by decide, by decide, by decide⟩

/-! ### Data-URI thumbnails of the portfolio build -/

theorem takeWhile_append_stop {α : Type} (p : α → Bool) (l : List α) (x : α) (rest : List α)
    (hl : ∀ a ∈ l, p a = true) (hx : p x = false) :
    (l ++ x :: rest).takeWhile p = l ∧ (l ++ x :: rest).dropWhile p = x :: rest := by
  induction l with
  | nil => simp [List.takeWhile, List.dropWhile, hx]
  | cons a l ih =>
    have ha := hl a (by simp)
    have := ih (fun b hb => hl b (List.mem_cons_of_mem _ hb))
    simp [List.takeWhile, List.dropWhile, ha, this.1, this.2]

theorem matchDataUri_of_shape (subtype payload : Str) (hsub : subtype ≠ [])
    (halnum : ∀ c ∈ subtype, BuildPortfolio.isAlnum c = true) (hpay : payload ≠ [])
    (hline : ∀ c ∈ payload, BuildPortfolio.isLineTerminator c = false) :
    BuildPortfolio.matchDataUri
        ("data:image/".toList ++ subtype ++ ";base64,".toList ++ payload)
      = some (subtype, payload) := by
  have hshape : "data:image/".toList ++ subtype ++ ";base64,".toList ++ payload
      = "data:image/".toList ++ (subtype ++ ';' :: ("base64,".toList ++ payload)) := by
    simp [List.append_assoc]
  have hsemi : BuildPortfolio.isAlnum ';' = false := by decide
  have htd := takeWhile_append_stop BuildPortfolio.isAlnum subtype ';'
    ("base64,".toList ++ payload) halnum hsemi
  unfold BuildPortfolio.matchDataUri
  rw [hshape]
  have hstart : Js.startsWith
      ("data:image/".toList ++ (subtype ++ ';' :: ("base64,".toList ++ payload)))
      "data:image/".toList = true := by
    simp [Js.startsWith]
  have hdrop : ("data:image/".toList ++ (subtype ++ ';' :: ("base64,".toList ++ payload))).drop 11
      = subtype ++ ';' :: ("base64,".toList ++ payload) := rfl
  rw [if_pos hstart]
  simp only [hdrop, htd.1, htd.2]
  have hstart2 : Js.startsWith (';' :: ("base64,".toList ++ payload)) ";base64,".toList = true := by
    simp [Js.startsWith]
  rw [if_pos ⟨hsub, hstart2⟩]
  have hdrop2 : (';' :: ("base64,".toList ++ payload)).drop 8 = payload := rfl
  rw [hdrop2]
  have hall : payload.all (fun c => !BuildPortfolio.isLineTerminator c) = true := by
    rw [List.all_eq_true]
    intro c hc
    rw [hline c hc]; rfl
  rw [if_pos ⟨hpay, hall⟩]

theorem dataUri_startsWith (subtype payload : Str) :
    Js.startsWith ("data:image/".toList ++ subtype ++ ";base64,".toList ++ payload)
      "data:image".toList = true := by
  simp [Js.startsWith]

/-- C12, as the code has it: in the portfolio build, for a thumbnail
`data:image/<subtype>;base64,<payload>` whose subtype is a non-empty run of ASCII
letters and digits and whose payload is non-empty and free of line terminators, the
resolver writes the decoded payload to the one file `<id>.<ext>` of the thumbnail
directory, where `<ext>` is the subtype with `jpeg` replaced by `jpg`, marks that name
used, and sets the thumbnail, which is the thumbnail field of the index record, to
`assets/img/thumbnails/<id>.<ext>`. -/
theorem data_uri_thumbnail (env : Env) (id subtype payload : Str) (st : Store)
    (hsub : subtype ≠ []) (halnum : ∀ c ∈ subtype, BuildPortfolio.isAlnum c = true)
    (hpay : payload ≠ []) (hline : ∀ c ∈ payload, BuildPortfolio.isLineTerminator c = false) :
    (BuildPortfolio.resolveThumbnail env id
        ("data:image/".toList ++ subtype ++ ";base64,".toList ++ payload) st).1
      = "assets/img/thumbnails/".toList
          ++ (id ++ ".".toList ++ (if subtype = "jpeg".toList then "jpg".toList else subtype)) ∧
    (BuildPortfolio.resolveThumbnail env id
        ("data:image/".toList ++ subtype ++ ";base64,".toList ++ payload) st).2.thumbs
      = Fs.writeFile st.thumbs
          (id ++ ".".toList ++ (if subtype = "jpeg".toList then "jpg".toList else subtype))
          (env.base64 payload) ∧
    (BuildPortfolio.resolveThumbnail env id
        ("data:image/".toList ++ subtype ++ ";base64,".toList ++ payload) st).2.thumbs.lookup
        (id ++ ".".toList ++ (if subtype = "jpeg".toList then "jpg".toList else subtype))
      = some (env.base64 payload) ∧
    (∀ other,
      other ≠ id ++ ".".toList ++ (if subtype = "jpeg".toList then "jpg".toList else subtype) →
      (BuildPortfolio.resolveThumbnail env id
          ("data:image/".toList ++ subtype ++ ";base64,".toList ++ payload) st).2.thumbs.lookup
          other
        = st.thumbs.lookup other) ∧
    (BuildPortfolio.resolveThumbnail env id
        ("data:image/".toList ++ subtype ++ ";base64,".toList ++ payload) st).2.usedThumbnails
      = Js.setAdd st.usedThumbnails
          (id ++ ".".toList ++ (if subtype = "jpeg".toList then "jpg".toList else subtype)) ∧
    (id ++ ".".toList ++ (if subtype = "jpeg".toList then "jpg".toList else subtype))
      ∈ (BuildPortfolio.resolveThumbnail env id
          ("data:image/".toList ++ subtype ++ ";base64,".toList ++ payload) st).2.usedThumbnails ∧
    (∀ content file store,
      (BuildPortfolio.buildPage env content file store).2.1.thumbnail
        = (BuildPortfolio.resolveThumbnail env (Path.basename file ".md")
            (Js.orElse ((env.matter (Fs.readFile content file)).1.thumbnail.getD []) "")
            store).1) := by
  have hres : BuildPortfolio.resolveThumbnail env id
      ("data:image/".toList ++ subtype ++ ";base64,".toList ++ payload) st
      = ("assets/img/thumbnails/".toList
          ++ (id ++ ".".toList ++ (if subtype = "jpeg".toList then "jpg".toList else subtype)),
        { st with
          thumbs := Fs.writeFile st.thumbs
            (id ++ ".".toList ++ (if subtype = "jpeg".toList then "jpg".toList else subtype))
            (env.base64 payload),
          usedThumbnails := Js.setAdd st.usedThumbnails
            (id ++ ".".toList ++ (if subtype = "jpeg".toList then "jpg".toList else subtype)) }) := by
    unfold BuildPortfolio.resolveThumbnail
    have htruthy : Js.truthy ("data:image/".toList ++ subtype ++ ";base64,".toList ++ payload)
        = true := by
      simp [Js.truthy]
    rw [htruthy, dataUri_startsWith, matchDataUri_of_shape subtype payload hsub halnum hpay hline]
    rfl
  rw [hres]
  exact ⟨rfl, rfl, lookup_writeFile_self _ _ _, fun other h => lookup_writeFile_other _ _ _ _ h,
    rfl, mem_setAdd_self _ _, fun _ _ _ => rfl⟩

/-- Witness for C12 as amended: item `work` with a `jpeg` data URI. -/
theorem data_uri_thumbnail_witness :
    ("jpeg".toList ≠ [] ∧ (∀ c ∈ "jpeg".toList, BuildPortfolio.isAlnum c = true) ∧
      "AAAA".toList ≠ [] ∧ ∀ c ∈ "AAAA".toList, BuildPortfolio.isLineTerminator c = false) ∧
    (BuildPortfolio.resolveThumbnail Example.env "work"
        ("data:image/".toList ++ "jpeg".toList ++ ";base64,".toList ++ "AAAA".toList)
        Example.store).1
      = "assets/img/thumbnails/".toList
          ++ ("work".toList ++ ".".toList
            ++ (if "jpeg".toList = "jpeg".toList then "jpg".toList else "jpeg".toList)) ∧
    (BuildPortfolio.resolveThumbnail Example.env "work" "data:image/jpeg;base64,AAAA"
        Example.store).1 = "assets/img/thumbnails/work.jpg".toList ∧
    (BuildPortfolio.resolveThumbnail Example.env "work" "data:image/jpeg;base64,AAAA"
        Example.store).2.thumbs = [("work.jpg".toList, [4, 5])] :=
  ⟨⟨by decide, by decide, by decide, by decide⟩,
    (data_uri_thumbnail Example.env "work" "jpeg" "AAAA" Example.store (by decide) (by decide)
      (by decide) (by decide)).1,
    by decide, by decide⟩

set_option maxRecDepth 100000 in
/-- C12 as stated fails: `data:image/svg+xml;base64,AAAA` is a data URI with base64
bytes and a declared image subtype, but the subtype is not a run of letters and
digits; the resolver writes no file, marks no name used, and the thumbnail of the
index record stays the data URI. -/
theorem svg_data_uri_is_not_resolved :
    BuildPortfolio.resolveThumbnail Example.env "work" "data:image/svg+xml;base64,AAAA"
        Example.store
      = ("data:image/svg+xml;base64,AAAA".toList, Example.store) ∧
    Example.store.thumbs = [] ∧ Example.store.usedThumbnails = [] ∧
    (BuildPortfolio.main Example.svgEnv Example.content []).portfolioList.map
        (fun w => w.thumbnail) = ["data:image/svg+xml;base64,AAAA".toList] ∧
    (BuildPortfolio.main Example.svgEnv Example.content []).thumbs = [] := by
  refine ⟨by decide, rfl, rfl, by decide, by decide⟩

/-! ### Thumbnail files of one blog item -/

theorem blog_resolve_cases (env : Env) (id : Str) (th : Option Str) (st : Store) :
    ((BuildBlog.resolveThumbnail env id th st).1 = th ∧
      (BuildBlog.resolveThumbnail env id th st).2.thumbs = st.thumbs) ∨
    ∃ f buffer, blogThumbTarget env id th = some f ∧
      (BuildBlog.resolveThumbnail env id th st).1 = some ("assets/img/thumbnails/".toList ++ f) ∧
      (BuildBlog.resolveThumbnail env id th st).2.thumbs = Fs.writeFile st.thumbs f buffer := by
  cases th with
  | none => exact Or.inl ⟨rfl, rfl⟩
  | some t =>
    cases hhttp : Js.startsWith t "http".toList with
    | false =>
      left
      simp only [BuildBlog.resolveThumbnail, hhttp, Bool.false_eq_true, if_false]
      split_ifs <;> exact ⟨rfl, rfl⟩
    | true =>
      cases hurl : env.urlPathname t with
      | none =>
        left
        simp only [BuildBlog.resolveThumbnail, hhttp, if_true, hurl]
        split_ifs <;> exact ⟨rfl, rfl⟩
      | some pathname =>
        cases hfetch : env.fetch st.fetches t with
        | notOk s =>
          left
          simp only [BuildBlog.resolveThumbnail, hhttp, if_true, hurl, hfetch]
          split_ifs <;> exact ⟨rfl, rfl⟩
        | threw =>
          left
          simp only [BuildBlog.resolveThumbnail, hhttp, if_true, hurl, hfetch]
          split_ifs <;> exact ⟨rfl, rfl⟩
        | ok buffer =>
          right
          refine ⟨thumbFile id pathname, buffer, ?_, ?_⟩
          · simp only [blogThumbTarget, hhttp, if_true, hurl, Option.map_some']
          · rw [blog_resolve_ok env id t st pathname buffer hhttp hurl hfetch]
            exact ⟨rfl, rfl⟩

theorem blog_resolve_frame (env : Env) (id : Str) (th : Option Str) (st : Store) (other : Str)
    (h : blogThumbTarget env id th ≠ some other) :
    (BuildBlog.resolveThumbnail env id th st).2.thumbs.lookup other = st.thumbs.lookup other := by
  rcases blog_resolve_cases env id th st with ⟨_, h2⟩ | ⟨f, buffer, hf, _, h2⟩
  · rw [h2]
  · rw [h2]
    apply lookup_writeFile_other
    intro e
    exact h (e ▸ hf)

theorem blog_resolve_readdir (env : Env) (id : Str) (th : Option Str) (st : Store) (f : Str)
    (h : f ∈ Fs.readdir (BuildBlog.resolveThumbnail env id th st).2.thumbs) :
    f ∈ Fs.readdir st.thumbs ∨ blogThumbTarget env id th = some f := by
  rcases blog_resolve_cases env id th st with ⟨_, h2⟩ | ⟨g, buffer, hg, _, h2⟩
  · rw [h2] at h; exact Or.inl h
  · rw [h2, readdir_writeFile] at h
    split_ifs at h
    · exact Or.inl h
    · rcases List.mem_append.mp h with h | h
      · exact Or.inl h
      · simp only [List.mem_singleton] at h
        exact Or.inr (h ▸ hg)

theorem blogThumbTarget_shape (env : Env) (id : Str) (th : Option Str) (f : Str)
    (h : blogThumbTarget env id th = some f) :
    ∃ t pathname, th = some t ∧ Js.startsWith t "http" = true ∧
      env.urlPathname t = some pathname ∧ f = id ++ ".".toList ++ thumbExt pathname := by
  cases th with
  | none => simp [blogThumbTarget] at h
  | some t =>
    cases hhttp : Js.startsWith t "http".toList with
    | false => simp only [blogThumbTarget, hhttp, Bool.false_eq_true, if_false] at h; cases h
    | true =>
      cases hurl : env.urlPathname t with
      | none => simp only [blogThumbTarget, hhttp, if_true, hurl, Option.map_none'] at h; cases h
      | some pathname =>
        simp only [blogThumbTarget, hhttp, if_true, hurl, Option.map_some',
          Option.some.injEq] at h
        exact ⟨t, pathname, rfl, hhttp, hurl, h.symm⟩

theorem processId_store (env : Env) (locales : Locales) (content : Dir Str) (adScript : Str)
    (st : BuildBlog.State) (id : Str) (h : Fs.existsFile content (id ++ ".md".toList) = true) :
    (BuildBlog.processId env locales content adScript st id).store
      = (BuildBlog.resolveThumbnail env id
          (env.matter (Fs.readFile content (BuildBlog.sourcePath content id "en"))).1.thumbnail
          (BuildBlog.resolveThumbnail env id
            (env.matter (Fs.readFile content (BuildBlog.sourcePath content id "ja"))).1.thumbnail
            st.store).2).2 := by
  rw [processId_of_exists _ _ _ _ _ _ h]
  rfl

/-- C11, as the code has it: each pass of the thumbnail resolver writes at most one
file, named `<id>.<ext>` with the extension of the URL's path or `png`, and a resolved
thumbnail is `assets/img/thumbnails/` followed by that name.  When the two locale
variants of an item carry the same thumbnail reference, as they do when the item has
only a base-locale file, both passes of the run write the same name, so the run
changes at most that one file of the thumbnail directory for the item. -/
theorem one_thumbnail_file_per_item (env : Env) (locales : Locales) (content : Dir Str)
    (adScript id : Str) (st : BuildBlog.State)
    (hsame : (env.matter (Fs.readFile content (BuildBlog.sourcePath content id "ja"))).1.thumbnail
      = (env.matter (Fs.readFile content (BuildBlog.sourcePath content id "en"))).1.thumbnail) :
    (∀ other,
      blogThumbTarget env id
          (env.matter (Fs.readFile content (BuildBlog.sourcePath content id "ja"))).1.thumbnail
        ≠ some other →
      (BuildBlog.processId env locales content adScript st id).store.thumbs.lookup other
        = st.store.thumbs.lookup other) ∧
    (∀ f ∈ Fs.readdir (BuildBlog.processId env locales content adScript st id).store.thumbs,
      f ∈ Fs.readdir st.store.thumbs ∨
      blogThumbTarget env id
          (env.matter (Fs.readFile content (BuildBlog.sourcePath content id "ja"))).1.thumbnail
        = some f) ∧
    (∀ (th : Option Str) (f : Str), blogThumbTarget env id th = some f →
      ∃ t pathname, th = some t ∧ Js.startsWith t "http" = true ∧
        env.urlPathname t = some pathname ∧ f = id ++ ".".toList ++ thumbExt pathname) ∧
    (∀ (th : Option Str) (store : Store),
      ((BuildBlog.resolveThumbnail env id th store).1 = th ∧
        (BuildBlog.resolveThumbnail env id th store).2.thumbs = store.thumbs) ∨
      ∃ f buffer, blogThumbTarget env id th = some f ∧
        (BuildBlog.resolveThumbnail env id th store).1
          = some ("assets/img/thumbnails/".toList ++ f) ∧
        (BuildBlog.resolveThumbnail env id th store).2.thumbs
          = Fs.writeFile store.thumbs f buffer) ∧
    (Fs.existsFile content (id ++ ".en.md".toList) = false →
      BuildBlog.sourcePath content id "ja" = BuildBlog.sourcePath content id "en") := by
  refine ⟨?_, ?_, fun th f h => blogThumbTarget_shape env id th f h,
    fun th store => blog_resolve_cases env id th store, ?_⟩
  · intro other hother
    cases hex : Fs.existsFile content (id ++ ".md".toList) with
    | false => rw [processId_of_missing _ _ _ _ _ _ hex]
    | true =>
      rw [processId_store _ _ _ _ _ _ hex, blog_resolve_frame _ _ _ _ _ (hsame ▸ hother),
        blog_resolve_frame _ _ _ _ _ hother]
  · intro f hf
    cases hex : Fs.existsFile content (id ++ ".md".toList) with
    | false =>
      rw [processId_of_missing _ _ _ _ _ _ hex] at hf
      exact Or.inl hf
    | true =>
      rw [processId_store _ _ _ _ _ _ hex] at hf
      rcases blog_resolve_readdir _ _ _ _ _ hf with h | h
      · exact blog_resolve_readdir _ _ _ _ _ h
      · exact Or.inr (hsame ▸ h)
  · intro hen
    rw [sourcePath_base_only content id "ja".toList hen,
      sourcePath_base_only content id "en".toList hen]

set_option maxRecDepth 100000 in
/-- Witness for C11 as amended: item `post` with only `post.md` and the remote thumbnail
`https://example.com/a.jpg`; the run leaves the single file `post.jpg`. -/
theorem one_thumbnail_file_per_item_witness :
    ((Example.thumbEnv.matter (Fs.readFile Example.content
        (BuildBlog.sourcePath Example.content "post" "ja"))).1.thumbnail
      = (Example.thumbEnv.matter (Fs.readFile Example.content
        (BuildBlog.sourcePath Example.content "post" "en"))).1.thumbnail) ∧
    (∀ other,
      blogThumbTarget Example.thumbEnv "post"
          (Example.thumbEnv.matter (Fs.readFile Example.content
            (BuildBlog.sourcePath Example.content "post" "ja"))).1.thumbnail
        ≠ some other →
      (BuildBlog.processId Example.thumbEnv Example.locales Example.content ""
          { store := Example.store, output := [], postsJa := [], postsEn := [] }
          "post").store.thumbs.lookup other
        = Example.store.thumbs.lookup other) ∧
    blogThumbTarget Example.thumbEnv "post"
        (Example.thumbEnv.matter (Fs.readFile Example.content
          (BuildBlog.sourcePath Example.content "post" "ja"))).1.thumbnail
      = some "post.jpg".toList ∧
    (BuildBlog.main Example.thumbEnv Example.locales Example.content "" []).thumbs
      = [("post.jpg".toList, [1, 2, 3])] :=
  ⟨rfl,
    (one_thumbnail_file_per_item Example.thumbEnv Example.locales Example.content "" "post"
      { store := Example.store, output := [], postsJa := [], postsEn := [] } rfl).1,
    by decide, by decide⟩

set_option maxRecDepth 100000 in
/-- C11 as stated fails: item `post` has the thumbnail `a.jpg` in `post.md` and `b.png`
in `post.en.md`; the run leaves two files for the one id, `post.jpg` and `post.png`,
and the two published lists point at different files. -/
theorem two_thumbnail_files_for_one_item :
    (BuildBlog.main Example.twoThumbEnv Example.locales Example.twoContent "" []).thumbs
      = [("post.jpg".toList, [1, 2, 3]), ("post.png".toList, [1, 2, 3])] ∧
    (BuildBlog.main Example.twoThumbEnv Example.locales Example.twoContent "" []).blogList.map
        (fun r => (r.id, r.thumbnail))
      = [("post".toList, some "assets/img/thumbnails/post.jpg".toList)] ∧
    (BuildBlog.main Example.twoThumbEnv Example.locales Example.twoContent "" []).blogListEn.map
        (fun r => (r.id, r.thumbnail))
      = [("post".toList, some "assets/img/thumbnails/post.png".toList)] := by
  refine ⟨by decide, by decide, by decide⟩
theorem parseBlocks_eq (env : Env) (pfx : Str) (blocks : List Block)
    (st : BuildBlog.RenderState) :
    BuildBlog.parseBlocks env pfx blocks st
      = (bodyFrom pfx blocks (headingsFrom env pfx st.slugged blocks),
          { headings := st.headings ++ headingsFrom env pfx st.slugged blocks,
            slugged := st.slugged ++ headingTexts pfx blocks }) := by
  induction blocks generalizing st with
  | nil => simp [BuildBlog.parseBlocks, bodyFrom, headingsFrom, headingTexts]
  | cons b rest ih =>
    cases b with
    | inline i =>
      simp only [BuildBlog.parseBlocks, BuildBlog.renderBlock, ih, bodyFrom, headingsFrom,
        headingTexts]
    | heading level content =>
      simp only [BuildBlog.parseBlocks, BuildBlog.renderBlock, BuildBlog.renderer.heading, ih,
        bodyFrom, headingsFrom, headingTexts, headingElement, List.append_assoc,
        List.singleton_append]

theorem renderDocument_eq (env : Env) (pfx : Str) (content : Str) :
    BuildBlog.renderDocument env pfx content
      = (bodyFrom pfx (env.lexer content) (headingsFrom env pfx [] (env.lexer content)),
          headingsFrom env pfx [] (env.lexer content)) := by
  unfold BuildBlog.renderDocument
  rw [parseBlocks_eq]
  simp

theorem createTocHtml_eq (hs : List Heading) (locale : Locale) :
    BuildBlog.createTocHtml hs locale =
      (if (tocHeadings hs).isEmpty then []
       else "<ul class=\"toc-list\">".toList ++ ((tocHeadings hs).map tocEntry).flatten
         ++ "</ul>".toList) := by
  unfold BuildBlog.createTocHtml
  by_cases h0 : hs.length = 0
  · have : hs = [] := List.length_eq_zero.mp h0
    subst this
    simp [tocHeadings]
  · rw [if_neg h0]
    show (if (tocHeadings hs).length = 0 then _ else _) = _
    by_cases h1 : (tocHeadings hs).length = 0
    · have : tocHeadings hs = [] := List.length_eq_zero.mp h1
      simp [this]
    · have hne : tocHeadings hs ≠ [] := fun h => h1 (by simp [h])
      rw [if_neg h1]
      have : (tocHeadings hs).isEmpty = false := by
        cases hh : tocHeadings hs with
        | nil => exact absurd hh hne
        | cons a l => rfl
      rw [this]
      simp only [Bool.false_eq_true, if_false]
      show List.foldl (fun acc a => acc ++ tocEntry a) _ (tocHeadings hs) ++ _ = _
      rw [foldl_append_eq]

theorem headingsFrom_ids (env : Env) (pfx : Str) (hist : List Str) (blocks : List Block) :
    (headingsFrom env pfx hist blocks).map (fun h => h.id)
      = slugsFrom env hist (headingTexts pfx blocks) := by
  induction blocks generalizing hist with
  | nil => rfl
  | cons b rest ih =>
    cases b with
    | inline i => simp only [headingsFrom, headingTexts, ih]
    | heading level content => simp only [headingsFrom, headingTexts, slugsFrom, List.map_cons, ih]

theorem slugsFrom_append (env : Env) (h0 l : List Str) (t : Str) :
    slugsFrom env h0 (l ++ [t]) = slugsFrom env h0 l ++ [env.slug (h0 ++ l) t] := by
  induction l generalizing h0 with
  | nil => simp [slugsFrom]
  | cons a l ih => simp [slugsFrom, ih, List.append_assoc]

theorem slugsFrom_nodup (env : Env)
    (hslug : ∀ hist text, env.slug hist text ∉ slugsFrom env [] hist) (l : List Str) :
    (slugsFrom env [] l).Nodup := by
  induction l using List.reverseRecOn with
  | nil => simp [slugsFrom]
  | append_singleton l t ih =>
    rw [slugsFrom_append, List.nil_append]
    exact List.nodup_append.mpr ⟨ih, List.nodup_singleton _, by
      intro a ha hb
      simp only [List.mem_singleton] at hb
      subst hb
      exact hslug l t ha⟩

theorem tocHeadings_mem (hs : List Heading) (h : Heading) (hh : h ∈ tocHeadings hs) :
    h ∈ hs ∧ (h.level = 2 ∨ h.level = 3) := by
  simp only [tocHeadings, List.mem_filter, Bool.or_eq_true, decide_eq_true_eq] at hh
  exact hh

theorem processLang_output (env : Env) (locales : Locales) (content : Dir Str) (adScript : Str)
    (id : Str) (st : BuildBlog.State) (lang : Str) :
    (BuildBlog.processLang env locales content adScript id st lang).output.lookup
        (if lang = "ja".toList then "blog/".toList ++ id ++ ".html".toList
         else "blog/en/".toList ++ id ++ ".html".toList)
      = some (BuildBlog.createHtml env
          (BuildBlog.buildPage env locales content adScript id lang st.store).1) := by
  unfold BuildBlog.processLang
  exact lookup_writeFile_self _ _ _

theorem countEnv_slug_length (h0 l : List Str) :
    ∀ s ∈ slugsFrom Example.countEnv h0 l, s.length ≤ h0.length + l.length := by
  induction l generalizing h0 with
  | nil => intro s hs; simp [slugsFrom] at hs
  | cons a l ih =>
    intro s hs
    simp only [slugsFrom, List.mem_cons] at hs
    rcases hs with rfl | hs
    · simp [Example.countEnv]
    · have := ih (h0 ++ [a]) s hs
      rw [List.length_append] at this
      simp only [List.length_cons, List.length_nil] at this ⊢
      omega

theorem countEnv_slug_fresh (hist : List Str) (text : Str) :
    Example.countEnv.slug hist text ∉ slugsFrom Example.countEnv [] hist := by
  intro h
  have := countEnv_slug_length [] hist _ h
  simp [Example.countEnv] at this

/-- C15: for every blog document, whatever was processed before it, the headings
handed to the table-of-contents assembler are exactly the records the heading hook
emits for that document under a fresh slugger, in document order; the body carries
one heading element per record whose `id` attribute is the record's id, and each
table-of-contents entry is written from one of these records with the anchor `#` plus
that id; the page written for the document is assembled from this body and table of
contents.  When the slugger never returns a slug it returned before, the ids of the
document are pairwise distinct. -/
theorem heading_accumulator (env : Env) (locales : Locales) (content : Dir Str)
    (adScript id lang : Str) (st : BuildBlog.State) :
    (BuildBlog.renderDocument env (BuildBlog.relativePrefixOf lang)
        (env.matter (Fs.readFile content (BuildBlog.sourcePath content id lang))).2).2
      = headingsFrom env (BuildBlog.relativePrefixOf lang) [] (documentOf env content id lang) ∧
    (BuildBlog.buildPage env locales content adScript id lang st.store).1.bodyHtml
      = bodyFrom (BuildBlog.relativePrefixOf lang) (documentOf env content id lang)
          (headingsFrom env (BuildBlog.relativePrefixOf lang) []
            (documentOf env content id lang)) ∧
    (BuildBlog.buildPage env locales content adScript id lang st.store).1.tocHtml
      = (if (tocHeadings (headingsFrom env (BuildBlog.relativePrefixOf lang) []
            (documentOf env content id lang))).isEmpty then []
         else "<ul class=\"toc-list\">".toList
           ++ ((tocHeadings (headingsFrom env (BuildBlog.relativePrefixOf lang) []
                (documentOf env content id lang))).map tocEntry).flatten
           ++ "</ul>".toList) ∧
    (∀ h ∈ tocHeadings (headingsFrom env (BuildBlog.relativePrefixOf lang) []
        (documentOf env content id lang)),
      h ∈ headingsFrom env (BuildBlog.relativePrefixOf lang) []
        (documentOf env content id lang)) ∧
    (∀ h : Heading,
      tocEntry h
        = "<li class=\"toc-item toc-item--level-".toList ++ Js.numStr h.level
          ++ "\"><a href=\"".toList ++ ("#".toList ++ h.id) ++ "\">".toList
          ++ BuildBlog.escapeHtml h.text ++ "</a></li>".toList ∧
      headingElement h
        = "<h".toList ++ Js.numStr h.level ++ " id=\"".toList ++ h.id ++ "\">".toList ++ h.text
          ++ "</h".toList ++ Js.numStr h.level ++ ">".toList) ∧
    (BuildBlog.processLang env locales content adScript id st lang).output.lookup
        (if lang = "ja".toList then "blog/".toList ++ id ++ ".html".toList
         else "blog/en/".toList ++ id ++ ".html".toList)
      = some (BuildBlog.createHtml env
          (BuildBlog.buildPage env locales content adScript id lang st.store).1) ∧
    ((∀ hist text, env.slug hist text ∉ slugsFrom env [] hist) →
      ((headingsFrom env (BuildBlog.relativePrefixOf lang) []
        (documentOf env content id lang)).map fun h => h.id).Nodup) := by
  refine ⟨?_, ?_, ?_, fun h hh => (tocHeadings_mem _ h hh).1, fun h => ⟨?_, ?_⟩,
    processLang_output _ _ _ _ _ _ _, fun hslug => ?_⟩
  · rw [renderDocument_eq]; rfl
  · show (BuildBlog.renderDocument _ _ _).1 = _
    rw [renderDocument_eq]; rfl
  · show BuildBlog.createTocHtml (BuildBlog.renderDocument _ _ _).2 (BuildBlog.localeOf locales lang) = _
    rw [renderDocument_eq, createTocHtml_eq]; rfl
  · simp [tocEntry, List.append_assoc]
  · simp [headingElement, List.append_assoc]
  · rw [headingsFrom_ids]
    exact slugsFrom_nodup env hslug _

set_option maxRecDepth 100000 in
/-- Witness for C15: a document with the heading `Intro` twice, under a slugger whose
answers grow by one letter per call. -/
theorem heading_accumulator_witness :
    (∀ hist text, Example.countEnv.slug hist text ∉ slugsFrom Example.countEnv [] hist) ∧
    ((headingsFrom Example.countEnv (BuildBlog.relativePrefixOf "ja") []
        (documentOf Example.countEnv Example.content "post" "ja")).map fun h => h.id).Nodup ∧
    (BuildBlog.renderDocument Example.countEnv (BuildBlog.relativePrefixOf "ja")
        (Example.countEnv.matter (Fs.readFile Example.content
          (BuildBlog.sourcePath Example.content "post" "ja"))).2).2
      = [{ level := 2, text := "Intro", id := "x" }, { level := 3, text := "Intro", id := "xx" }] ∧
    (BuildBlog.buildPage Example.countEnv Example.locales Example.content "" "post" "ja"
        Example.store).1.bodyHtml
      = "<h2 id=\"x\">Intro</h2><p>text</p><h3 id=\"xx\">Intro</h3>".toList ∧
    (BuildBlog.buildPage Example.countEnv Example.locales Example.content "" "post" "ja"
        Example.store).1.tocHtml
      = "<ul class=\"toc-list\">".toList
        ++ "<li class=\"toc-item toc-item--level-2\"><a href=\"#x\">Intro</a></li>".toList
        ++ "<li class=\"toc-item toc-item--level-3\"><a href=\"#xx\">Intro</a></li>".toList
        ++ "</ul>".toList :=
  ⟨countEnv_slug_fresh,
    (heading_accumulator Example.countEnv Example.locales Example.content "" "post" "ja"
      { store := Example.store, output := [], postsJa := [], postsEn := [] }).2.2.2.2.2.2
      countEnv_slug_fresh,
    by decide, by decide, by decide⟩
/-! ### The scroll spy -/

theorem visit_of_plain (x : Option Toc.Element) (e : Toc.Entry)
    (hx : ∀ a, x = some a → a.boundingClientRect = none) :
    Toc.visit x e = if e.isIntersecting then some e.target else x := by
  unfold Toc.visit
  cases hi : e.isIntersecting
  · simp
  · cases x with
    | none => simp
    | some a => simp [hx a rfl]

theorem intersecting_append (l : List Toc.Entry) (e : Toc.Entry) :
    Toc.intersecting (l ++ [e])
      = if e.isIntersecting then Toc.intersecting l ++ [e] else Toc.intersecting l := by
  unfold Toc.intersecting
  cases hi : e.isIntersecting <;> simp [List.filter_append, hi]

/-- When no heading element carries a `boundingClientRect` property, the first loop of
the callback ends with the target of the last intersecting entry. -/
theorem visibleHeading_last (entries : List Toc.Entry)
    (h : ∀ e ∈ entries, e.target.boundingClientRect = none) :
    Toc.visibleHeading entries
      = (Toc.intersecting entries).getLast?.map fun e => e.target := by
  induction entries using List.reverseRecOn with
  | nil => rfl
  | append_singleton l e ih =>
    have hl : ∀ x ∈ l, x.target.boundingClientRect = none :=
      fun x hx => h x (List.mem_append_left _ hx)
    have ih := ih hl
    unfold Toc.visibleHeading at ih ⊢
    rw [List.foldl_append, List.foldl_cons, List.foldl_nil, ih, intersecting_append]
    rw [visit_of_plain]
    · cases hi : e.isIntersecting
      · simp
      · simp [List.getLast?_append]
    · intro a ha
      cases hlast : (Toc.intersecting l).getLast? with
      | none => rw [hlast] at ha; cases ha
      | some x =>
        rw [hlast] at ha
        cases ha
        have hx : x ∈ Toc.intersecting l := List.mem_of_getLast?_eq_some hlast
        exact hl x (List.mem_of_mem_filter hx)

/-- When no entry of the batch intersects, the callback takes the last heading whose
top is above the viewport. -/
theorem activeHeading_fallback (headings : List Toc.Element) (entries : List Toc.Entry)
    (h : ∀ e ∈ entries, e.isIntersecting = false) :
    Toc.activeHeading headings entries
      = headings.reverse.find? fun x => decide (x.getBoundingClientRect.top < 0) := by
  have hv : Toc.visibleHeading entries = none := by
    unfold Toc.visibleHeading
    induction entries with
    | nil => rfl
    | cons e l ih =>
      rw [List.foldl_cons]
      have he : Toc.visit none e = none := by
        simp [Toc.visit, h e (List.mem_cons_self _ _)]
      rw [he]
      exact ih fun x hx => h x (List.mem_cons_of_mem _ hx)
  unfold Toc.activeHeading
  rw [hv]
  rfl

/-- C16: on the batch in which the headings `first` (top 10) and `second` (top 50)
both intersect, the observer callback of `toc.js` makes `second` the active heading,
the target of the last intersecting entry, although the topmost intersecting entry is
the one of `first`; the link to `#second` is marked active and the link to `#first`
is not. -/
theorem scroll_spy_takes_last_intersecting :
    Toc.activeHeading [Example.first, Example.second] Example.bothVisible
      = some Example.second ∧
    (Toc.topmost (Toc.intersecting Example.bothVisible)).map (fun e => e.target)
      = some Example.first ∧
    Example.first ≠ Example.second ∧
    Example.first.boundingClientRect = none ∧
    Example.second.boundingClientRect = none ∧
    Toc.isActive (Toc.activeHeading [Example.first, Example.second] Example.bothVisible)
      (some "#first".toList) = false ∧
    Toc.isActive (Toc.activeHeading [Example.first, Example.second] Example.bothVisible)
      (some "#second".toList) = true := by
  decide
/-! ### Tag links -/

theorem flatten_infix_of_mem {α : Type} (x : List α) (L : List (List α)) (h : x ∈ L) :
    ∃ pre post, L.flatten = pre ++ x ++ post := by
  obtain ⟨s, t, rfl⟩ := List.append_of_mem h
  exact ⟨s.flatten, t.flatten, by simp [List.flatten_append]⟩

theorem renderSegs_append (l₁ l₂ : List Seg) :
    renderSegs (l₁ ++ l₂) = renderSegs l₁ ++ renderSegs l₂ := by
  simp [renderSegs, List.flatMap_append]

/-- The blog page holds the text of `tagsHtml`. -/
theorem blog_tagsHtml_in_page (env : Env) (a : BuildBlog.PageArgs) :
    ∃ pre post,
      BuildBlog.createHtml env a = pre ++ renderSegs (BuildBlog.tagsHtml a) ++ post := by
  have hmem : ∃ pre post,
      BuildBlog.segsAfterJsonLd env a = pre ++ BuildBlog.tagsHtml a ++ post := by
    unfold BuildBlog.segsAfterJsonLd
    exact flatten_infix_of_mem _ _ (List.getElem?_mem (show _[76]? = some _ from rfl))
  obtain ⟨pre, post, h⟩ := hmem
  refine ⟨renderSegs (BuildBlog.segsBeforeJsonLd a ++ BuildBlog.jsonLdSegs a ++ pre),
    renderSegs post, ?_⟩
  unfold BuildBlog.createHtml BuildBlog.createHtmlSegs
  rw [h]
  simp only [renderSegs_append, List.append_assoc]

/-- The portfolio page holds the text of `tagsHtml`. -/
theorem portfolio_tagsHtml_in_page (a : BuildPortfolio.PageArgs) :
    ∃ pre post,
      BuildPortfolio.createHtml a = pre ++ renderSegs (BuildPortfolio.tagsHtml a) ++ post := by
  have hmem : ∃ pre post,
      BuildPortfolio.createHtmlSegs a = pre ++ BuildPortfolio.tagsHtml a ++ post := by
    unfold BuildPortfolio.createHtmlSegs
    exact flatten_infix_of_mem _ _ (List.getElem?_mem (show _[61]? = some _ from rfl))
  obtain ⟨pre, post, h⟩ := hmem
  refine ⟨renderSegs pre, renderSegs post, ?_⟩
  unfold BuildPortfolio.createHtml
  rw [h]
  simp only [renderSegs_append, List.append_assoc]

theorem hexVal_hexUpper : ∀ n, n < 16 → Js.hexVal (Js.hexUpper n) = some n := by
  decide

theorem unreserved_ne_percent (c : Char) (h : Js.isUriUnreserved c = true) : c ≠ '%' := by
  rintro rfl
  revert h
  decide

theorem uriTokens_percentByte (b : Nat) (hb : b < 256) (rest : Str) :
    Js.uriTokens (Js.percentByte b ++ rest)
      = (Js.uriTokens rest).map fun ts => Js.UriToken.octet b :: ts := by
  have h1 : b / 16 < 16 := by omega
  have h2 : b % 16 < 16 := by omega
  have h3 : 16 * (b / 16) + b % 16 = b := by omega
  show Js.uriTokens ('%' :: Js.hexUpper (b / 16) :: Js.hexUpper (b % 16) :: rest) = _
  rw [Js.uriTokens]
  simp only [if_true]
  rw [hexVal_hexUpper _ h1, hexVal_hexUpper _ h2]
  cases Js.uriTokens rest with
  | none => rfl
  | some ts => simp [h3]

theorem uriTokens_bytes (bs : List Nat) (hbs : ∀ b ∈ bs, b < 256) (rest : Str) :
    Js.uriTokens (bs.flatMap Js.percentByte ++ rest)
      = (Js.uriTokens rest).map fun ts => bs.map Js.UriToken.octet ++ ts := by
  induction bs with
  | nil => simp
  | cons b bs ih =>
    rw [List.flatMap_cons, List.append_assoc, uriTokens_percentByte b (hbs b (List.mem_cons_self _ _)),
      ih fun x hx => hbs x (List.mem_cons_of_mem _ hx)]
    cases Js.uriTokens rest <;> simp

theorem utf8Bytes_lt (c : Char) : ∀ b ∈ Js.utf8Bytes c.toNat, b < 256 := by
  have hv : c.toNat < 0x110000 := by
    have := c.valid
    rcases this with h | h
    · show c.val.toNat < _
      omega
    · show c.val.toNat < _
      omega
  intro b hb
  unfold Js.utf8Bytes at hb
  split_ifs at hb <;> simp at hb <;> omega

theorem uriTokens_cons_of_ne (c : Char) (rest : Str) (h : c ≠ '%') :
    Js.uriTokens (c :: rest)
      = (Js.uriTokens rest).map fun ts => [Js.UriToken.lit c] ++ ts := by
  conv => lhs; unfold Js.uriTokens
  rw [if_neg h]
  cases Js.uriTokens rest <;> rfl

theorem uriTokens_encodeURIChar (c : Char) (rest : Str) :
    Js.uriTokens (Js.encodeURIChar c ++ rest)
      = (Js.uriTokens rest).map fun ts => encodedTokens c ++ ts := by
  unfold Js.encodeURIChar encodedTokens
  cases hu : Js.isUriUnreserved c
  · simp only [Bool.false_eq_true, if_false]
    exact uriTokens_bytes _ (utf8Bytes_lt c) rest
  · simp only [if_true]
    exact uriTokens_cons_of_ne c rest (unreserved_ne_percent c hu)

theorem uriTokens_encode (s : Str) :
    Js.uriTokens (Js.encodeURIComponent s) = some (s.flatMap encodedTokens) := by
  induction s with
  | nil => rfl
  | cons c s ih =>
    have hs : Js.encodeURIComponent (c :: s) = Js.encodeURIChar c ++ Js.encodeURIComponent s :=
      List.flatMap_cons _ _ _
    rw [hs, uriTokens_encodeURIChar, ih, List.flatMap_cons]
    rfl

theorem char_toNat_valid (c : Char) : c.toNat.isValidChar := c.valid

theorem utf8Char_utf8Bytes (c : Char) :
    ∃ lead cont, Js.utf8Bytes c.toNat = lead :: cont ∧
      Js.utf8Following lead = some cont.length ∧ Js.utf8Char lead cont = some c := by
  have hv := char_toNat_valid c
  have hlt : c.toNat < 0x110000 := by
    rcases hv with h | h <;> omega
  have hc : Char.ofNat c.toNat = c := Char.ofNat_toNat c
  generalize c.toNat = n at hv hlt hc
  by_cases h1 : n < 0x80
  · refine ⟨n, [], by simp [Js.utf8Bytes, h1], by simp [Js.utf8Following, h1], ?_⟩
    simp [Js.utf8Char, Js.utf8Bytes, h1, hv, hc]
  by_cases h2 : n < 0x800
  · refine ⟨0xC0 + n / 64, [0x80 + n % 64], by simp [Js.utf8Bytes, h1, h2], ?_, ?_⟩
    · unfold Js.utf8Following
      rw [if_neg (by omega), if_neg (by omega), if_pos (by omega)]
      rfl
    · have hn : (0xC0 + n / 64 - 0xC0) * 64 + (0x80 + n % 64 - 0x80) = n := by omega
      unfold Js.utf8Char
      simp only [hn]
      rw [if_pos ⟨hv, by simp [Js.utf8Bytes, h1, h2]⟩, hc]
  by_cases h3 : n < 0x10000
  · refine ⟨0xE0 + n / 4096, [0x80 + n / 64 % 64, 0x80 + n % 64],
      by simp [Js.utf8Bytes, h1, h2, h3], ?_, ?_⟩
    · unfold Js.utf8Following
      rw [if_neg (by omega), if_neg (by omega), if_neg (by omega), if_pos (by omega)]
      rfl
    · have hn : (0xE0 + n / 4096 - 0xE0) * 4096 + (0x80 + n / 64 % 64 - 0x80) * 64
          + (0x80 + n % 64 - 0x80) = n := by omega
      unfold Js.utf8Char
      simp only [hn]
      rw [if_pos ⟨hv, by simp [Js.utf8Bytes, h1, h2, h3]⟩, hc]
  · refine ⟨0xF0 + n / 262144, [0x80 + n / 4096 % 64, 0x80 + n / 64 % 64, 0x80 + n % 64],
      by simp [Js.utf8Bytes, h1, h2, h3], ?_, ?_⟩
    · unfold Js.utf8Following
      rw [if_neg (by omega), if_neg (by omega), if_neg (by omega), if_neg (by omega),
        if_pos (by omega)]
      rfl
    · have hn : (0xF0 + n / 262144 - 0xF0) * 262144 + (0x80 + n / 4096 % 64 - 0x80) * 4096
          + (0x80 + n / 64 % 64 - 0x80) * 64 + (0x80 + n % 64 - 0x80) = n := by omega
      unfold Js.utf8Char
      simp only [hn]
      rw [if_pos ⟨hv, by simp [Js.utf8Bytes, h1, h2, h3]⟩, hc]

theorem takeOctets_map (bs : List Nat) (ts : List Js.UriToken) :
    Js.takeOctets bs.length (bs.map Js.UriToken.octet ++ ts) = some (bs, ts) := by
  induction bs with
  | nil => rfl
  | cons b bs ih =>
    show Js.takeOctets (bs.length + 1) (Js.UriToken.octet b :: (bs.map Js.UriToken.octet ++ ts)) = _
    rw [Js.takeOctets, ih]

theorem decodeTokens_encoded (c : Char) (fuel : Nat) (ts : List Js.UriToken) :
    Js.decodeTokens (fuel + 1) (encodedTokens c ++ ts)
      = (Js.decodeTokens fuel ts).map fun s => c :: s := by
  unfold encodedTokens
  cases hu : Js.isUriUnreserved c
  · simp only [Bool.false_eq_true, if_false]
    obtain ⟨lead, cont, hb, hf, hch⟩ := utf8Char_utf8Bytes c
    rw [hb]
    show Js.decodeTokens (fuel + 1) (Js.UriToken.octet lead :: (cont.map Js.UriToken.octet ++ ts)) = _
    rw [Js.decodeTokens, hf]
    simp only [takeOctets_map, hch]
    cases Js.decodeTokens fuel ts <;> rfl
  · simp only [if_true]
    show Js.decodeTokens (fuel + 1) (Js.UriToken.lit c :: ts) = _
    rw [Js.decodeTokens]
    cases Js.decodeTokens fuel ts <;> rfl

theorem encodedTokens_length_pos (c : Char) : 1 ≤ (encodedTokens c).length := by
  unfold encodedTokens
  cases hu : Js.isUriUnreserved c
  · obtain ⟨lead, cont, hb, _, _⟩ := utf8Char_utf8Bytes c
    simp [hb]
  · simp

theorem decodeTokens_flatMap (s : Str) :
    ∀ fuel, s.length ≤ fuel → Js.decodeTokens fuel (s.flatMap encodedTokens) = some s := by
  induction s with
  | nil => intro fuel _; cases fuel <;> rfl
  | cons c s ih =>
    intro fuel hf
    cases fuel with
    | zero => simp at hf
    | succ fuel =>
      rw [List.flatMap_cons, decodeTokens_encoded, ih fuel (by simpa using hf)]
      rfl

theorem flatMap_encodedTokens_length (s : Str) : s.length ≤ (s.flatMap encodedTokens).length := by
  induction s with
  | nil => simp
  | cons c s ih =>
    rw [List.flatMap_cons, List.length_append, List.length_cons]
    have := encodedTokens_length_pos c
    omega

/-- Function `decodeURIComponent` undoes `encodeURIComponent`. -/
theorem decodeURIComponent_encodeURIComponent (s : Str) :
    Js.decodeURIComponent (Js.encodeURIComponent s) = some s := by
  unfold Js.decodeURIComponent
  rw [uriTokens_encode]
  exact decodeTokens_flatMap s _ (flatMap_encodedTokens_length s)

set_option maxRecDepth 100000 in
/-- C17: for an item whose one tag is `a&b`, the tag link of the blog page and the tag
link of the portfolio page both carry the query value `a%26amp%3Bb`, the encoding of
the HTML-escaped tag; `decodeURIComponent` turns that value into `a&amp;b`, not into
the tag `a&b`. -/
theorem tag_link_decodes_to_escaped_tag :
    (BuildBlog.buildPage Example.ampEnv Example.locales Example.content "" "post" "ja"
        Example.store).1.tags = .array ["a&b".toList] ∧
    (BuildPortfolio.buildPage Example.ampEnv Example.content "post.md" Example.store).1.tags
      = .array ["a&b".toList] ∧
    renderSegs (BuildBlog.tagsHtml (BuildBlog.buildPage Example.ampEnv Example.locales
        Example.content "" "post" "ja" Example.store).1)
      = ("<p class=\"post-detail__tags\"><a class=\"tag\" href=\"../blog.html?tag=a%26amp%3Bb\">"
          ++ "a&amp;b</a></p>").toList ∧
    renderSegs (BuildPortfolio.tagsHtml (BuildPortfolio.buildPage Example.ampEnv
        Example.content "post.md" Example.store).1)
      = ("<p class=\"work-detail__tags\"><a class=\"tag\" href=\"../portfolio.html"
          ++ "?tag=a%26amp%3Bb\">a&amp;b</a></p>").toList ∧
    tagQueryValues (renderSegs (BuildBlog.tagsHtml (BuildBlog.buildPage Example.ampEnv
        Example.locales Example.content "" "post" "ja" Example.store).1))
      = ["a%26amp%3Bb".toList] ∧
    tagQueryValues (renderSegs (BuildPortfolio.tagsHtml (BuildPortfolio.buildPage
        Example.ampEnv Example.content "post.md" Example.store).1))
      = ["a%26amp%3Bb".toList] ∧
    (∃ pre post,
      BuildBlog.createHtml Example.ampEnv (BuildBlog.buildPage Example.ampEnv Example.locales
          Example.content "" "post" "ja" Example.store).1
        = pre ++ renderSegs (BuildBlog.tagsHtml (BuildBlog.buildPage Example.ampEnv
            Example.locales Example.content "" "post" "ja" Example.store).1) ++ post) ∧
    (∃ pre post,
      BuildPortfolio.createHtml (BuildPortfolio.buildPage Example.ampEnv Example.content
          "post.md" Example.store).1
        = pre ++ renderSegs (BuildPortfolio.tagsHtml (BuildPortfolio.buildPage Example.ampEnv
            Example.content "post.md" Example.store).1) ++ post) ∧
    Js.encodeURIComponent "a&b".toList = "a%26b".toList ∧
    Js.decodeURIComponent "a%26b".toList = some "a&b".toList ∧
    Js.decodeURIComponent "a%26amp%3Bb".toList = some "a&amp;b".toList ∧
    Js.decodeURIComponent "a%26amp%3Bb".toList ≠ some "a&b".toList := by
  refine ⟨by decide, by decide, by decide, by decide, by decide, by decide,
    blog_tagsHtml_in_page _ _, portfolio_tagsHtml_in_page _, by decide, by decide, by decide,
    by decide⟩

theorem parentLevels_cons (rest : Str) :
    parentLevels ("../".toList ++ rest) = parentLevels rest + 1 := by
  show parentLevels ('.' :: '.' :: '/' :: rest) = _
  rw [parentLevels]

/-- C10, as the code has it: the image hook emits an `<img>` whose `src` is `href`
unchanged when `href` does not begin with `../`, and otherwise the locale's relative
prefix, a slash and `href` without its leading `../`; the prefix is `..` on the ja page
and `../..` on the en page.  So a reference `../X` is written as `../X` on the ja page,
with as many leading `../` as in the source, and as `../../X` on the en page, with one
more. -/
theorem renderer_image_src (relativePfx href title text : Str) (rest : Str) :
    BuildBlog.renderer.image relativePfx href title text
      = "<img src=\"".toList
          ++ (if Js.startsWith href "../" then relativePfx ++ "/".toList ++ href.drop 3
              else href)
          ++ "\" alt=\"".toList ++ text ++ "\" title=\"".toList ++ title ++ "\" />".toList ∧
    BuildBlog.renderer.image relativePfx href title text
      = "<img src=\"".toList ++ imageSrc relativePfx href
          ++ "\" alt=\"".toList ++ text ++ "\" title=\"".toList ++ title ++ "\" />".toList ∧
    BuildBlog.relativePrefixOf "ja" = "..".toList ∧
    BuildBlog.relativePrefixOf "en" = "../..".toList ∧
    BuildBlog.renderer.image (BuildBlog.relativePrefixOf "ja") ("../".toList ++ rest) title text
      = "<img src=\"../".toList ++ rest
          ++ "\" alt=\"".toList ++ text ++ "\" title=\"".toList ++ title ++ "\" />".toList ∧
    BuildBlog.renderer.image (BuildBlog.relativePrefixOf "en") ("../".toList ++ rest) title text
      = "<img src=\"../../".toList ++ rest
          ++ "\" alt=\"".toList ++ text ++ "\" title=\"".toList ++ title ++ "\" />".toList ∧
    imageSrc (BuildBlog.relativePrefixOf "ja") ("../".toList ++ rest) = "../".toList ++ rest ∧
    imageSrc (BuildBlog.relativePrefixOf "en") ("../".toList ++ rest)
      = "../".toList ++ ("../".toList ++ rest) ∧
    parentLevels (imageSrc (BuildBlog.relativePrefixOf "ja") ("../".toList ++ rest))
      = parentLevels ("../".toList ++ rest) ∧
    parentLevels (imageSrc (BuildBlog.relativePrefixOf "en") ("../".toList ++ rest))
      = parentLevels ("../".toList ++ rest) + 1 ∧
    (Js.startsWith href "../" = false →
      imageSrc relativePfx href = href) := by
  have horElse : Js.orElse title ("" : String).toList = title := by
    cases title <;> simp [Js.orElse, Js.truthy]
  have hdrop : ("../".toList ++ rest).drop 3 = rest := rfl
  have hstart : Js.startsWith ("../".toList ++ rest) "../".toList = true := by
    simp [Js.startsWith]
  have hja : BuildBlog.relativePrefixOf "ja".toList = "..".toList := by decide
  have hen : BuildBlog.relativePrefixOf "en".toList = "../..".toList := by decide
  have hgen : ∀ (pfx h : Str), BuildBlog.renderer.image pfx h title text
      = "<img src=\"".toList
          ++ (if Js.startsWith h "../".toList then pfx ++ "/".toList ++ h.drop 3
              else h)
          ++ "\" alt=\"".toList ++ text ++ "\" title=\"".toList ++ title ++ "\" />".toList := by
    intro pfx h
    unfold BuildBlog.renderer.image
    simp only [horElse, Js.substring]
    have hcond : (Js.truthy h && Js.startsWith h "../".toList)
        = Js.startsWith h "../".toList := by
      cases h with
      | nil => rfl
      | cons c cs => simp [Js.truthy]
    show _ ++ (if (Js.truthy h && Js.startsWith h "../".toList) = true then _ else _) ++ _
      ++ _ ++ _ ++ _ ++ _ = _
    rw [hcond]
  have hsrc : ∀ (pfx h : Str), imageSrc pfx h
      = if Js.startsWith h "../".toList then pfx ++ "/".toList ++ h.drop 3 else h := by
    intro pfx h
    have hcond : (Js.truthy h && Js.startsWith h "../".toList)
        = Js.startsWith h "../".toList := by
      cases h with
      | nil => rfl
      | cons c cs => simp [Js.truthy]
    unfold imageSrc
    simp only [Js.substring]
    show (if (Js.truthy h && Js.startsWith h "../".toList) = true then _ else _) = _
    rw [hcond]
  have hsja : imageSrc (BuildBlog.relativePrefixOf "ja".toList) ("../".toList ++ rest)
      = "../".toList ++ rest := by
    rw [hsrc, if_pos hstart, hdrop, hja]
    rfl
  have hsen : imageSrc (BuildBlog.relativePrefixOf "en".toList) ("../".toList ++ rest)
      = "../".toList ++ ("../".toList ++ rest) := by
    rw [hsrc, if_pos hstart, hdrop, hen]
    rfl
  refine ⟨hgen _ _, by rw [hgen, hsrc], hja, hen, ?_, ?_, hsja, hsen, ?_, ?_, ?_⟩
  · rw [hgen, hja, if_pos hstart, hdrop]
    simp [List.append_assoc]
  · rw [hgen, hen, if_pos hstart, hdrop]
    simp [List.append_assoc]
  · rw [hsja]
  · rw [hsen, parentLevels_cons]
  · intro h
    rw [hsrc, if_neg (by rw [h]; simp)]

/-- C10 as stated fails: for the source reference `../img/a.png`, which climbs one
level, the ja page gets `../img/a.png`, which climbs one level and not two, and the en
page gets `../../img/a.png`, which climbs two levels and not three. -/
theorem image_src_levels :
    BuildBlog.renderer.image (BuildBlog.relativePrefixOf "ja") "../img/a.png" "" "a"
      = "<img src=\"../img/a.png\" alt=\"a\" title=\"\" />".toList ∧
    BuildBlog.renderer.image (BuildBlog.relativePrefixOf "en") "../img/a.png" "" "a"
      = "<img src=\"../../img/a.png\" alt=\"a\" title=\"\" />".toList ∧
    parentLevels "../img/a.png".toList = 1 ∧
    parentLevels (imageSrc (BuildBlog.relativePrefixOf "ja") "../img/a.png") = 1 ∧
    parentLevels (imageSrc (BuildBlog.relativePrefixOf "en") "../img/a.png") = 2 ∧
    parentLevels (imageSrc (BuildBlog.relativePrefixOf "ja") "../img/a.png")
      ≠ parentLevels "../img/a.png".toList + 1 ∧
    parentLevels (imageSrc (BuildBlog.relativePrefixOf "en") "../img/a.png")
      ≠ parentLevels "../img/a.png".toList + 2 := by
  decide

theorem renderSegs_T (s : Str) : renderSegs (T s) = s := by
  simp [renderSegs, T]

theorem renderSegs_S (o : Origin) (s : Str) : renderSegs (S o s) = s := by
  simp [renderSegs, S]

/-- The blog page holds the element `og:image` with the image URL as its content. -/
theorem ogImage_in_page (env : Env) (a : BuildBlog.PageArgs) :
    ∃ pre post, BuildBlog.createHtml env a
      = pre ++ ("    <meta property=\"og:image\" content=\"".toList ++ BuildBlog.imageUrl a
          ++ "\" />\n".toList) ++ post := by
  obtain ⟨pre, post, h⟩ := ogImage_infix env a
  refine ⟨renderSegs (BuildBlog.segsBeforeJsonLd a ++ BuildBlog.jsonLdSegs a ++ pre),
    renderSegs post, ?_⟩
  unfold BuildBlog.createHtml BuildBlog.createHtmlSegs
  rw [h]
  simp only [renderSegs_append, renderSegs_T, renderSegs_S, List.append_assoc]

/-- The blog page holds the structured-data text inside its `application/ld+json`
script element. -/
theorem jsonLd_in_page (env : Env) (a : BuildBlog.PageArgs) :
    ∃ pre post, BuildBlog.createHtml env a
      = pre ++ ("    <script type=\"application/ld+json\">".toList
          ++ renderSegs (BuildBlog.jsonLdSegs a) ++ "</script>\n".toList) ++ post := by
  have hb : BuildBlog.segsBeforeJsonLd a
      = (BuildBlog.segsBeforeJsonLd a).take 31
        ++ T "    <script type=\"application/ld+json\">" := rfl
  have ha : BuildBlog.segsAfterJsonLd env a
      = T "</script>\n" ++ (BuildBlog.segsAfterJsonLd env a).drop 1 := rfl
  refine ⟨renderSegs ((BuildBlog.segsBeforeJsonLd a).take 31),
    renderSegs ((BuildBlog.segsAfterJsonLd env a).drop 1), ?_⟩
  unfold BuildBlog.createHtml BuildBlog.createHtmlSegs
  rw [renderSegs_append, renderSegs_append]
  conv => lhs; rw [hb, ha]
  simp only [renderSegs_append, renderSegs_T, List.append_assoc]

/-- The structured-data text holds the member `image`, the array of the JSON-quoted
image URL. -/
theorem image_in_jsonLd (a : BuildBlog.PageArgs) :
    ∃ pre post, renderSegs (BuildBlog.jsonLdSegs a)
      = pre ++ (",\n  \"image\": [\n    ".toList ++ Js.jsonQuote (BuildBlog.imageUrl a)
          ++ "\n  ],\n  \"datePublished\": ".toList) ++ post := by
  have h : BuildBlog.jsonLdSegs a
      = (BuildBlog.jsonLdSegs a).take 14
        ++ (T ",\n  \"image\": " ++ T "[\n    "
            ++ S .thumbnail (Js.jsonQuote (BuildBlog.imageUrl a)) ++ T "\n  ]"
            ++ T ",\n  \"datePublished\": ")
        ++ (BuildBlog.jsonLdSegs a).drop 19 := rfl
  refine ⟨renderSegs ((BuildBlog.jsonLdSegs a).take 14),
    renderSegs ((BuildBlog.jsonLdSegs a).drop 19), ?_⟩
  conv => lhs; rw [h]
  simp only [renderSegs_append, renderSegs_T, renderSegs_S, List.append_assoc]
  rfl

/-- C13: the image URL of the blog page is the default image
`BASE_URL/assets/img/ogp.png` when the thumbnail is absent or empty, `BASE_URL/` plus
the thumbnail without its leading `../` segments and then without its leading `/`
characters when the thumbnail is non-empty and does not start with `http`, and the
thumbnail itself when it starts with `http`.  The page written by `createHtml` holds
the element `og:image` with that URL as its content, and holds, inside its
`application/ld+json` script, the structured-data text, whose member `image` is the
array of that URL; the page shows nothing else of the thumbnail. -/
theorem imageUrl_cases (env : Env) (a : BuildBlog.PageArgs) :
    (a.thumbnail = none ∨ a.thumbnail = some [] →
      BuildBlog.imageUrl a = BuildBlog.BASE_URL ++ "/assets/img/ogp.png".toList) ∧
    (∀ t, a.thumbnail = some t → t ≠ [] → Js.startsWith t "http" = false →
      BuildBlog.imageUrl a
        = BuildBlog.BASE_URL ++ "/".toList ++ Js.stripLeadingSlashes (Js.stripParentDirs t)) ∧
    (∀ t, a.thumbnail = some t → Js.startsWith t "http" = true → BuildBlog.imageUrl a = t) ∧
    (∀ t : Str, Js.startsWith (Js.stripParentDirs t) "../" = false ∧
      ∃ n : Nat, t = (List.replicate n "../".toList).flatten ++ Js.stripParentDirs t) ∧
    (∀ s : Str, Js.startsWith (Js.stripLeadingSlashes s) "/" = false ∧
      ∃ n : Nat, s = List.replicate n '/' ++ Js.stripLeadingSlashes s) ∧
    (∃ pre post, BuildBlog.createHtml env a
      = pre ++ ("    <meta property=\"og:image\" content=\"".toList ++ BuildBlog.imageUrl a
          ++ "\" />\n".toList) ++ post) ∧
    (∃ pre post, BuildBlog.createHtml env a
      = pre ++ ("    <script type=\"application/ld+json\">".toList
          ++ renderSegs (BuildBlog.jsonLdSegs a) ++ "</script>\n".toList) ++ post) ∧
    (∃ pre post, renderSegs (BuildBlog.jsonLdSegs a)
      = pre ++ (",\n  \"image\": [\n    ".toList ++ Js.jsonQuote (BuildBlog.imageUrl a)
          ++ "\n  ],\n  \"datePublished\": ".toList) ++ post) ∧
    (∃ pre post, BuildBlog.segsAfterJsonLd env a
      = pre ++ (T "    <meta property=\"og:image\" content=\"" ++ S .thumbnail (BuildBlog.imageUrl a)
          ++ T "\" />\n") ++ post) ∧
    (∃ fields, BuildBlog.jsonLd a = .obj fields ∧
      fields.lookup "image".toList = some (.arr [.str .thumbnail (BuildBlog.imageUrl a)])) ∧
    BuildBlog.createHtml env a = renderSegs (BuildBlog.createHtmlSegs env a) ∧
    (∀ seg ∈ BuildBlog.createHtmlSegs env a, seg.origin = .thumbnail →
      seg.text = BuildBlog.imageUrl a ∨ seg.text = Js.jsonQuote (BuildBlog.imageUrl a)) := by
  refine ⟨imageUrl_none a, imageUrl_local a, fun t h hh => imageUrl_http a t hh h,
    stripParentDirs_spec, stripLeadingSlashes_spec, ogImage_in_page env a, jsonLd_in_page env a,
    image_in_jsonLd a, ogImage_infix env a, jsonLd_image a, rfl, ?_⟩
  unfold BuildBlog.createHtmlSegs
  exact (allSegs_append _ _ _).mpr
    ⟨(allSegs_append _ _ _).mpr ⟨allImage_before a, allImage_jsonLd a⟩, allImage_after env a⟩

theorem htmlEscaped_of_ne (a : BuildBlog.PageArgs) (o : Origin) (s : Str)
    (h1 : o ≠ .title) (h2 : o ≠ .description) :
    HtmlEscapedSeg a { origin := o, text := s } :=
  ⟨fun h => absurd h h1, fun h => absurd h h2⟩

theorem htmlEscaped_title (a : BuildBlog.PageArgs) :
    HtmlEscapedSeg a { origin := .title, text := BuildBlog.safeTitle a } :=
  ⟨fun _ => rfl, fun h => by cases h⟩

theorem htmlEscaped_desc (a : BuildBlog.PageArgs) :
    HtmlEscapedSeg a { origin := .description, text := BuildBlog.safeDesc a } :=
  ⟨fun h => (by cases h), fun _ => rfl⟩

theorem allHtml_before (a : BuildBlog.PageArgs) :
    AllSegs (HtmlEscapedSeg a) (BuildBlog.segsBeforeJsonLd a) := by
  unfold BuildBlog.segsBeforeJsonLd
  simp only [allSegs_flatten_cons, allSegs_append]
  repeat' constructor
  all_goals first
    | exact allSegs_flatten_nil _
    | exact allSegs_T _ _ (htmlEscaped_of_ne _ _ _ (by decide) (by decide))
    | exact allSegs_S _ _ _ (htmlEscaped_of_ne _ _ _ (by decide) (by decide))
    | exact allSegs_S _ _ _ (htmlEscaped_title _)
    | exact allSegs_S _ _ _ (htmlEscaped_desc _)

/-- The pieces after the structured-data text come in blocks; each block is a
share-button block or shows the title and the description HTML-escaped only. -/
theorem blocks_after (env : Env) (a : BuildBlog.PageArgs) :
    ∃ blocks : List (List Seg), BuildBlog.segsAfterJsonLd env a = blocks.flatten ∧
      ∀ b ∈ blocks, b = BuildBlog.shareButtonsHtml a ∨ AllSegs (HtmlEscapedSeg a) b := by
  have hne : ∀ (o : Origin) (s : Str), o ≠ .title → o ≠ .description →
      HtmlEscapedSeg a { origin := o, text := s } :=
    fun o s h1 h2 => htmlEscaped_of_ne a o s h1 h2
  refine ⟨_, rfl, ?_⟩
  simp only [List.forall_mem_cons]
  repeat' apply And.intro
  all_goals first
    | exact Or.inr (allSegs_T _ _ (htmlEscaped_of_ne _ _ _ (by decide) (by decide)))
    | exact Or.inr (allSegs_S _ _ _ (htmlEscaped_of_ne _ _ _ (by decide) (by decide)))
    | exact Or.inr (allSegs_S _ _ _ (htmlEscaped_title _))
    | exact Or.inr (allSegs_S _ _ _ (htmlEscaped_desc _))
    | exact Or.inr (allSegs_tagsHtml _ _ (fun o s ho => hne o s
        (by rcases ho with h | h | h <;> (rw [h]; decide))
        (by rcases ho with h | h | h <;> (rw [h]; decide))))
    | exact Or.inl rfl
    | exact Or.inl trivial
    | (refine Or.inr (allSegs_ite _ _ _ _ ?_ (allSegs_nil _))
       simp only [allSegs_append]
       repeat' constructor
       all_goals first
         | exact allSegs_T _ _ (htmlEscaped_of_ne _ _ _ (by decide) (by decide))
         | exact allSegs_S _ _ _ (htmlEscaped_of_ne _ _ _ (by decide) (by decide))
         | exact allSegs_S _ _ _ (htmlEscaped_desc _))
    | (intro b hb; cases hb)

/-- The share-button block shows the title once, URL-encoded, as the `text` parameter
in the `href` of the Twitter link; no other piece of the block is computed from the
title or the description. -/
theorem share_title_in_href (a : BuildBlog.PageArgs) :
    ∃ pre post, BuildBlog.shareButtonsHtml a
      = pre ++ (T "          <a href=\"" ++ T "https://twitter.com/intent/tweet?url="
          ++ S .id (Js.encodeURIComponent (BuildBlog.canonicalUrl a)) ++ T "&text="
          ++ S .title (Js.encodeURIComponent a.title)
          ++ T "\" class=\"share-buttons__link share-buttons__link--") ++ post ∧
      (∀ seg ∈ pre ++ post, seg.origin ≠ .title ∧ seg.origin ≠ .description) := by
  refine ⟨(BuildBlog.shareButtonsHtml a).take 8, (BuildBlog.shareButtonsHtml a).drop 14,
    rfl, ?_⟩
  have hall : (((BuildBlog.shareButtonsHtml a).take 8
      ++ (BuildBlog.shareButtonsHtml a).drop 14).all otherOrigin) = true := rfl
  intro seg hseg
  have h := List.all_eq_true.mp hall seg hseg
  unfold otherOrigin at h
  simpa using h

/-- C2, as the code has it: the page is the pieces before the structured-data text,
that text, and the pieces after it.  Outside the structured-data text, every piece
computed from the title or the description that stands in a text or attribute position
(the head of the page, and every block after the structured-data text that is not a
share-button block) is the HTML-escaped title or description; a share-button block
shows the title as the URL-encoded `text` parameter in the `href` of its Twitter link
and in no other place, and shows nothing of the description; none of these pieces
holds a raw `<`, `>` or `"`.  Inside the structured-data text the title and
description are JSON-quoted only, which keeps every `<` and `>` of the input. -/
theorem createHtml_title_description_escaped (env : Env) (a : BuildBlog.PageArgs) :
    BuildBlog.createHtml env a
      = renderSegs (BuildBlog.segsBeforeJsonLd a) ++ renderSegs (BuildBlog.jsonLdSegs a)
          ++ renderSegs (BuildBlog.segsAfterJsonLd env a) ∧
    (∀ seg ∈ BuildBlog.segsBeforeJsonLd a ++ BuildBlog.segsAfterJsonLd env a,
      (seg.origin = .title →
        seg.text = BuildBlog.escapeHtml a.title ∨ seg.text = Js.encodeURIComponent a.title) ∧
      (seg.origin = .description →
        seg.text = BuildBlog.escapeHtml (Js.orElse a.description "")) ∧
      (seg.origin = .title ∨ seg.origin = .description →
        '<' ∉ seg.text ∧ '>' ∉ seg.text ∧ '"' ∉ seg.text)) ∧
    (∀ seg ∈ BuildBlog.segsBeforeJsonLd a,
      (seg.origin = .title → seg.text = BuildBlog.escapeHtml a.title) ∧
      (seg.origin = .description →
        seg.text = BuildBlog.escapeHtml (Js.orElse a.description ""))) ∧
    (∃ blocks : List (List Seg), BuildBlog.segsAfterJsonLd env a = blocks.flatten ∧
      ∀ b ∈ blocks, b = BuildBlog.shareButtonsHtml a ∨
        ∀ seg ∈ b,
          (seg.origin = .title → seg.text = BuildBlog.escapeHtml a.title) ∧
          (seg.origin = .description →
            seg.text = BuildBlog.escapeHtml (Js.orElse a.description ""))) ∧
    (∃ pre post, BuildBlog.shareButtonsHtml a
      = pre ++ (T "          <a href=\"" ++ T "https://twitter.com/intent/tweet?url="
          ++ S .id (Js.encodeURIComponent (BuildBlog.canonicalUrl a)) ++ T "&text="
          ++ S .title (Js.encodeURIComponent a.title)
          ++ T "\" class=\"share-buttons__link share-buttons__link--") ++ post ∧
      (∀ seg ∈ pre ++ post, seg.origin ≠ .title ∧ seg.origin ≠ .description)) ∧
    (∀ seg ∈ BuildBlog.jsonLdSegs a,
      (seg.origin = .title → seg.text = Js.jsonQuote a.title) ∧
      (seg.origin = .description → seg.text = Js.jsonQuote (Js.orElse a.description ""))) ∧
    (∀ c : Char, c = '<' ∨ c = '>' → ∀ s : Str, c ∈ s → c ∈ Js.jsonQuote s) := by
  refine ⟨?_, ?_, allHtml_before a, blocks_after env a, share_title_in_href a,
    jsonLdSegs_title_description a, fun c hc s hs => jsonQuote_keeps_angle s c hc hs⟩
  · simp [BuildBlog.createHtml, BuildBlog.createHtmlSegs, renderSegs, List.flatMap_append]
  · exact (allEscaped_append a _ _).mpr ⟨allEscaped_before a, allEscaped_after env a⟩

theorem endsWith_append_suffix (g suf : Str) : Js.endsWith (g ++ suf) suf = true := by
  unfold Js.endsWith
  simp [List.isSuffixOf_iff_suffix]

theorem endsWith_en_md (id : Str) :
    Js.endsWith (id ++ ".md".toList) ".en.md".toList = Js.endsWith id ".en".toList := by
  have e : ".en.md".toList = ".en".toList ++ ".md".toList := by decide
  rw [e]
  unfold Js.endsWith
  apply Bool.eq_iff_iff.mpr
  simp only [List.isSuffixOf_iff_suffix]
  constructor
  · rintro ⟨t, ht⟩
    rw [← List.append_assoc] at ht
    exact ⟨t, List.append_cancel_right ht⟩
  · rintro ⟨t, ht⟩
    exact ⟨t, by rw [← List.append_assoc, ht]⟩

theorem basename_append (g suf : Str) (hslash : '/' ∉ g ++ suf) (hne : suf ≠ []) :
    Path.basename (g ++ suf) suf = g := by
  unfold Path.basename
  rw [lastPortion_of_no_slash _ hslash]
  have hlen : suf.length ≤ (g ++ suf).length := by simp
  rw [if_pos ⟨hne, hlen⟩]
  by_cases hg : g = []
  · subst hg
    simp
  · have h1 : ¬ (suf = g ++ suf) := by
      intro e
      have := congrArg List.length e
      simp only [List.length_append] at this
      have : g.length = 0 := by omega
      exact hg (List.length_eq_zero.mp this)
    rw [if_neg h1, if_pos ⟨endsWith_append_suffix g suf, fun e => h1 e.symm⟩]
    simp

theorem of_endsWith (f suf : Str) (h : Js.endsWith f suf = true) : ∃ g, f = g ++ suf := by
  unfold Js.endsWith at h
  rw [List.isSuffixOf_iff_suffix] at h
  obtain ⟨g, hg⟩ := h
  exact ⟨g, hg.symm⟩

/-- Which ids the main loop collects, in terms of the file names: an id whose base file
exists is collected unless the id ends in `.en` and `<id>.en.md` is missing. -/
theorem collected_iff (content : Dir Str) (hnames : ∀ f ∈ Fs.readdir content, '/' ∉ f)
    (id : Str) (hbase : (id ++ ".md".toList) ∈ Fs.readdir content) :
    id ∈ BuildBlog.collectIds (blogFiles content) ↔
      (Js.endsWith id ".en" = true → (id ++ ".en.md".toList) ∈ Fs.readdir content) := by
  have hmd : (".md" : String).toList ≠ [] := by decide
  have henmd : (".en.md" : String).toList ≠ [] := by decide
  rw [mem_collectIds]
  constructor
  · rintro ⟨f, hf, hid⟩ hen
    unfold blogFiles at hf
    rw [List.mem_filter] at hf
    obtain ⟨hfdir, hfmd⟩ := hf
    unfold idOfFile at hid
    cases he : Js.endsWith f ".en.md".toList with
    | true =>
      rw [he, if_pos rfl] at hid
      obtain ⟨g, rfl⟩ := of_endsWith f _ he
      rw [basename_append g _ (hnames _ hfdir) henmd] at hid
      rw [← hid]
      exact hfdir
    | false =>
      rw [he, if_neg (by simp)] at hid
      obtain ⟨g, rfl⟩ := of_endsWith f _ hfmd
      rw [basename_append g _ (hnames _ hfdir) hmd] at hid
      subst hid
      rw [endsWith_en_md, hen] at he
      cases he
  · intro h
    cases hen : Js.endsWith id ".en".toList with
    | true =>
      have hfile := h hen
      refine ⟨id ++ ".en.md".toList, ?_, ?_⟩
      · unfold blogFiles
        rw [List.mem_filter]
        refine ⟨hfile, ?_⟩
        have e : id ++ ".en.md".toList = (id ++ ".en".toList) ++ ".md".toList := by
          rw [List.append_assoc]; rfl
        rw [e]
        exact endsWith_append_suffix _ _
      · unfold idOfFile
        rw [endsWith_append_suffix, if_pos rfl]
        exact basename_append id _ (hnames _ hfile) henmd
    | false =>
      have hslash : '/' ∉ id := fun hc => hnames _ hbase (List.mem_append_left _ hc)
      refine ⟨id ++ ".md".toList, ?_, idOfFile_base id hslash hen⟩
      unfold blogFiles
      rw [List.mem_filter]
      exact ⟨hbase, endsWith_append_suffix _ _⟩

/-- C5, as the code has it: in both published blog lists no id occurs twice, and the
ja and en lists hold the same ids.  A file name ending in `.en.md` is always read as
the en variant of the name before `.en.md`, so, for file names without `/`, an id has
a record exactly when its base-locale file `<id>.md` exists and, if the id itself ends
in `.en`, `<id>.en.md` exists too; in particular an id that does not end in `.en` has a
record exactly when `<id>.md` exists.  In terms of the loop: an id has a record exactly
when the loop collected it and `<id>.md` exists.  An id without `<id>.md`, such as one
that only appears as `<id>.en.md`, gets no record and leaves the state of the run
untouched. -/
theorem blog_index_ids (env : Env) (locales : Locales) (content : Dir Str) (adScript : Str)
    (thumbs : Dir Bytes) :
    (indexIds (BuildBlog.main env locales content adScript thumbs).blogList).Nodup ∧
    (indexIds (BuildBlog.main env locales content adScript thumbs).blogListEn).Nodup ∧
    (∀ id, id ∈ indexIds (BuildBlog.main env locales content adScript thumbs).blogList ↔
      id ∈ BuildBlog.collectIds (blogFiles content) ∧ (id ++ ".md".toList) ∈ Fs.readdir content) ∧
    (∀ id, id ∈ indexIds (BuildBlog.main env locales content adScript thumbs).blogListEn ↔
      id ∈ indexIds (BuildBlog.main env locales content adScript thumbs).blogList) ∧
    (∀ id, '/' ∉ id → Js.endsWith id ".en" = false →
      (id ∈ indexIds (BuildBlog.main env locales content adScript thumbs).blogList ↔
        (id ++ ".md".toList) ∈ Fs.readdir content)) ∧
    ((∀ f ∈ Fs.readdir content, '/' ∉ f) →
      ∀ id, id ∈ indexIds (BuildBlog.main env locales content adScript thumbs).blogList ↔
        (id ++ ".md".toList) ∈ Fs.readdir content ∧
        (Js.endsWith id ".en" = true → (id ++ ".en.md".toList) ∈ Fs.readdir content)) ∧
    (∀ id, (id ++ ".md".toList) ∉ Fs.readdir content →
      id ∉ indexIds (BuildBlog.main env locales content adScript thumbs).blogList ∧
      id ∉ indexIds (BuildBlog.main env locales content adScript thumbs).blogListEn ∧
      ∀ st, BuildBlog.processId env locales content adScript st id = st) := by
  have hloop := mainLoop_ids env locales content adScript thumbs
  have hja : (indexIds (BuildBlog.main env locales content adScript thumbs).blogList).Perm
      ((BuildBlog.collectIds (blogFiles content)).filter
        (fun id => Fs.existsFile content (id ++ ".md".toList))) := by
    rw [← hloop.1]
    exact (sort_perm _ _).map _
  have hen : (indexIds (BuildBlog.main env locales content adScript thumbs).blogListEn).Perm
      ((BuildBlog.collectIds (blogFiles content)).filter
        (fun id => Fs.existsFile content (id ++ ".md".toList))) := by
    rw [← hloop.2]
    exact (sort_perm _ _).map _
  have hnodup := (collectIds_nodup (blogFiles content)).filter
    (fun id => Fs.existsFile content (id ++ ".md".toList))
  have hmem : ∀ id, id ∈ indexIds (BuildBlog.main env locales content adScript thumbs).blogList ↔
      id ∈ BuildBlog.collectIds (blogFiles content) ∧ (id ++ ".md".toList) ∈ Fs.readdir content := by
    intro id
    rw [hja.mem_iff, List.mem_filter, existsFile_iff]
  have hmemEn : ∀ id,
      id ∈ indexIds (BuildBlog.main env locales content adScript thumbs).blogListEn ↔
      id ∈ indexIds (BuildBlog.main env locales content adScript thumbs).blogList := by
    intro id
    rw [hen.mem_iff, hja.mem_iff]
  refine ⟨hja.nodup_iff.mpr hnodup, hen.nodup_iff.mpr hnodup, hmem, hmemEn, ?_, ?_, ?_⟩
  · intro id hslash hnoEn
    rw [hmem]
    constructor
    · exact fun h => h.2
    · intro h
      refine ⟨(mem_collectIds _ _).mpr ⟨id ++ ".md".toList, ?_, idOfFile_base id hslash hnoEn⟩, h⟩
      unfold blogFiles
      rw [List.mem_filter]
      refine ⟨h, ?_⟩
      unfold Js.endsWith
      simp [List.isSuffixOf_iff_suffix]
  · intro hnames id
    rw [hmem]
    constructor
    · rintro ⟨hc, hb⟩
      exact ⟨hb, (collected_iff content hnames id hb).mp hc⟩
    · rintro ⟨hb, hc⟩
      exact ⟨(collected_iff content hnames id hb).mpr hc, hb⟩
  · intro id hmissing
    have h1 : id ∉ indexIds (BuildBlog.main env locales content adScript thumbs).blogList :=
      fun h => hmissing ((hmem id).mp h).2
    refine ⟨h1, fun h => h1 ((hmemEn id).mp h), fun st => ?_⟩
    apply processId_of_missing
    cases h : Fs.existsFile content (id ++ ".md".toList) with
    | false => rfl
    | true => exact absurd ((existsFile_iff _ _).mp h) hmissing

set_option maxRecDepth 100000 in
/-- Witness for C5: with the files `c.en.en.md`, `c.en.md` and `a.md`, the ids `c.en`
and `a` have a record and `c` has none. -/
theorem blog_index_ids_witness :
    (∀ f ∈ Fs.readdir Example.mixedContent, '/' ∉ f) ∧
    (∀ id, id ∈ indexIds (BuildBlog.main Example.env Example.locales Example.mixedContent ""
          []).blogList ↔
        (id ++ ".md".toList) ∈ Fs.readdir Example.mixedContent ∧
        (Js.endsWith id ".en" = true →
          (id ++ ".en.md".toList) ∈ Fs.readdir Example.mixedContent)) ∧
    (indexIds (BuildBlog.main Example.env Example.locales Example.mixedContent ""
        []).blogList).Perm ["c.en".toList, "a".toList] :=
  ⟨by decide,
    (blog_index_ids Example.env Example.locales Example.mixedContent "" []).2.2.2.2.2.1
      (by decide),
    by decide⟩

set_option maxRecDepth 100000 in
/-- C5 as stated fails: when the only content file is `c.en.md`, the id `c.en` has the
base-locale file `<id>.md`, yet neither list holds a record for it; the file is read as
the en variant of `c`, which has no base file. -/
theorem base_file_read_as_en_variant :
    ("c.en".toList ++ ".md".toList) ∈ Fs.readdir Example.enNamedContent ∧
    indexIds (BuildBlog.main Example.env Example.locales Example.enNamedContent "" []).blogList
      = [] ∧
    indexIds (BuildBlog.main Example.env Example.locales Example.enNamedContent "" []).blogListEn
      = [] ∧
    BuildBlog.collectIds (blogFiles Example.enNamedContent) = ["c".toList] := by
  refine ⟨by decide, by decide, by decide, by decide⟩

end BreadMotion
